import Mathlib

/-!
# HTMS compiler front end — verification development

A shallow embedding of the `htms-compiler` Rust crate (scanner, parser,
semantic analyzer and driver) together with theorems about its observable
behaviour.

Modelling conventions:
* Rust `String`/`&str` values become Lean `String`; the scanner itself walks
  a `List Char`, which is the logical content of a Lean `String`.  Byte
  offsets of the original code become character offsets (the `}}` marker and
  all token-relevant characters are ASCII, so character search and byte
  search agree on UTF-8 input).
* `usize` arithmetic becomes `Nat`; the one place the Rust code can
  underflow (`text_start - line_start` for a multi-line text block) is
  modelled by truncated `Nat` subtraction and is not the subject of a claim.
* The token definitions (`lexer/tokens.rs`, a Logos-derived enumeration)
  are not part of the sources; the token recognizer `nextTok` is modelled
  from the specification (longest match over keywords, punctuation,
  literals, identifiers and the `{{` marker) and from the token kinds the
  scanner, parser and committed tests mention.
-/

namespace Htms

deriving instance DecidableEq for Except

/-- Source location; 1-based line/column, half-open offsets
(`start`/`stop` are Rust's `start`/`end` fields). -/
structure Location where
  line : Nat
  column : Nat
  start : Nat
  stop : Nat
deriving Repr, DecidableEq

/-- Diagnostic severity (`Severity` in `lib.rs`). -/
inductive Severity where
  | error
  | warning
  | info
deriving Repr, DecidableEq

/-- A diagnostic message (`Diagnostic` in `lib.rs`). -/
structure Diagnostic where
  severity : Severity
  message : String
  location : Location
  code : Option String
deriving Repr, DecidableEq

/-- Modelled from the spec: the closed token-kind enumeration of the missing
`lexer/tokens.rs` (keywords, directives, punctuation, literals, identifiers,
context paths, text-block markers, comments, newline, end of input). -/
inductive TokenKind where
  | component
  | sectionTok
  | page
  | componentName
  | identifier
  | contextPath
  | strLit
  | numLit
  | trueLit
  | falseLit
  | textOpen
  | textContent
  | textClose
  | interpolationStart
  | ifTok
  | elseTok
  | eachTok
  | slotTok
  | asTok
  | lbrace
  | rbrace
  | lbracket
  | rbracket
  | lparen
  | rparen
  | colon
  | comma
  | dot
  | question
  | eqOp
  | neOp
  | ltOp
  | leOp
  | gtOp
  | geOp
  | andOp
  | orOp
  | plus
  | minus
  | star
  | slash
  | newline
  | lineComment
  | blockComment
  | eof
deriving Repr, DecidableEq

/-- Modelled from the spec: `TokenKind::name`, the display name used in
parse-error messages (the exact strings live in the missing `tokens.rs`). -/
def TokenKind.name : TokenKind → String
  | .component => "component"
  | .sectionTok => "section"
  | .page => "page"
  | .componentName => "ComponentName"
  | .identifier => "Identifier"
  | .contextPath => "ContextPath"
  | .strLit => "String"
  | .numLit => "Number"
  | .trueLit => "true"
  | .falseLit => "false"
  | .textOpen => "TextOpen"
  | .textContent => "TextContent"
  | .textClose => "TextClose"
  | .interpolationStart => "InterpolationStart"
  | .ifTok => "@if"
  | .elseTok => "@else"
  | .eachTok => "@each"
  | .slotTok => "@slot"
  | .asTok => "as"
  | .lbrace => "LBrace"
  | .rbrace => "RBrace"
  | .lbracket => "LBracket"
  | .rbracket => "RBracket"
  | .lparen => "LParen"
  | .rparen => "RParen"
  | .colon => "Colon"
  | .comma => "Comma"
  | .dot => "Dot"
  | .question => "Question"
  | .eqOp => "Eq"
  | .neOp => "Ne"
  | .ltOp => "Lt"
  | .leOp => "Le"
  | .gtOp => "Gt"
  | .geOp => "Ge"
  | .andOp => "And"
  | .orOp => "Or"
  | .plus => "Plus"
  | .minus => "Minus"
  | .star => "Star"
  | .slash => "Slash"
  | .newline => "Newline"
  | .lineComment => "LineComment"
  | .blockComment => "BlockComment"
  | .eof => "Eof"

/-- A token (`Token` in the lexer module). -/
structure Token where
  kind : TokenKind
  value : String
  location : Location
deriving Repr, DecidableEq

/-- Lexer error (`LexerError` in `error.rs`). -/
structure LexerError where
  message : String
  location : Location
deriving Repr, DecidableEq

/-- Parser error (`ParseError` in `error.rs`). -/
structure ParseError where
  message : String
  location : Location
deriving Repr, DecidableEq

/-! ## Scanner -/

/-- ASCII identifier head character (lower case or underscore). -/
def identStart (c : Char) : Bool :=
  ('a' ≤ c && c ≤ 'z') || c = '_'

/-- ASCII identifier continuation character. -/
def identRest (c : Char) : Bool :=
  ('a' ≤ c && c ≤ 'z') || ('A' ≤ c && c ≤ 'Z') || ('0' ≤ c && c ≤ '9') || c = '_'

/-- Upper-case ASCII letter, the head of a `ComponentName` token. -/
def upperStart (c : Char) : Bool :=
  'A' ≤ c && c ≤ 'Z'

/-- Decimal digit. -/
def isDigit (c : Char) : Bool :=
  '0' ≤ c && c ≤ '9'

/-- One step of the token recognizer: the token kind found at the head of
the remaining input together with the number of characters it consumes. -/
inductive Lexed where
  | token (kind : TokenKind) (consumed : Nat)
  | ws (consumed : Nat)
  | invalid
deriving Repr, DecidableEq

/-- Length of the longest `identRest` run at the head of the list. -/
def identLen (cs : List Char) : Nat :=
  (cs.takeWhile identRest).length

/-- Length of the longest digit run at the head of the list. -/
def digitLen (cs : List Char) : Nat :=
  (cs.takeWhile isDigit).length

theorem takeWhile_length_le (p : Char → Bool) (l : List Char) :
    (l.takeWhile p).length ≤ l.length := by
  induction l with
  | nil => simp [List.takeWhile]
  | cons c cs ih =>
    rw [List.takeWhile_cons]
    split
    · simpa using Nat.succ_le_succ ih
    · simp

/-- Length of a chain of `.identifier` segments, as consumed by the greedy
`ContextPath` rule (`ctx` followed by one or more dotted segments).  Each
step consumes at least two characters, so `cs.length + 1` rounds of fuel
always suffice; the fuel only makes the recursion structural so that
concrete inputs compute inside the kernel. -/
def ctxChainGo : Nat → List Char → Nat
  | 0, _ => 0
  | fuel + 1, cs =>
    match cs with
    | c1 :: c2 :: rest =>
      if c1 = '.' && (identStart c2 || upperStart c2) then
        let k := identLen rest
        2 + k + ctxChainGo fuel (rest.drop k)
      else 0
    | _ => 0

def ctxChain (cs : List Char) : Nat := ctxChainGo (cs.length + 1) cs

/-- Index of the first `*/` in the list, if any. -/
def findStarSlash : List Char → Option Nat
  | [] => none
  | c :: rest =>
    if c = '*' && rest.head? = some '/' then some 0
    else (findStarSlash rest).map (· + 1)

/-- Index of the first `\x7d\x7d` in the list, if any.  This is exactly what
the manual byte loop in `scanner.rs` (`while content_end < len - 1 ...`)
computes relative to the text start. -/
def findClose : List Char → Option Nat
  | [] => none
  | c :: rest =>
    if c = '\x7d' && rest.head? = some '\x7d' then some 0
    else (findClose rest).map (· + 1)

/-- Classify the word just read as keyword, `ComponentName` or identifier.
`wordLen` is the identifier length including its head character. -/
def classifyWord (word : List Char) (wordLen : Nat) (after : List Char) : Lexed :=
  if word = "component".toList then .token .component wordLen
  else if word = "section".toList then .token .sectionTok wordLen
  else if word = "page".toList then .token .page wordLen
  else if word = "true".toList then .token .trueLit wordLen
  else if word = "false".toList then .token .falseLit wordLen
  else if word = "as".toList then .token .asTok wordLen
  else if word = "ctx".toList then
    (if ctxChain after = 0 then .token .identifier wordLen
     else .token .contextPath (wordLen + ctxChain after))
  else .token .identifier wordLen

/-- Modelled from the spec: the literal-and-identifier tier of the
recognizer — newline, whitespace, string literal, number, keyword or
identifier, component name; anything else is an error consuming one
character. -/
def nextTokOther (c : Char) (rest : List Char) : Lexed :=
  if c = '\n' then .token .newline 1
  else if c = ' ' || c = '\t' || c = '\r' then .ws 1
  else if c = '"' then
    (if (rest.takeWhile (· ≠ '"')).length < rest.length
     then .token .strLit ((rest.takeWhile (· ≠ '"')).length + 2) else .invalid)
  else if isDigit c then .token .numLit (1 + digitLen rest)
  else if identStart c then
    classifyWord (c :: rest.takeWhile identRest) (1 + identLen rest) (rest.drop (identLen rest))
  else if upperStart c then .token .componentName (1 + identLen rest)
  else .invalid

/-- Modelled from the spec: the arithmetic, comment and `@`-directive tier
of the recognizer. -/
def nextTokArith (c : Char) (rest : List Char) : Lexed :=
  if c = '+' then .token .plus 1
  else if c = '-' then .token .minus 1
  else if c = '*' then .token .star 1
  else if c = '/' then
    (if rest.head? = some '/' then
       .token .lineComment (2 + ((rest.drop 1).takeWhile (· ≠ '\n')).length)
     else if rest.head? = some '*' then
       (findStarSlash (rest.drop 1)).elim .invalid (fun k => .token .blockComment (4 + k))
     else .token .slash 1)
  else if c = '@' then
    (if rest.take 4 = "else".toList then .token .elseTok 5
     else if rest.take 4 = "each".toList then .token .eachTok 5
     else if rest.take 4 = "slot".toList then .token .slotTok 5
     else if rest.take 2 = "if".toList then .token .ifTok 3
     else .invalid)
  else nextTokOther c rest

/-- Modelled from the spec: the comparison-and-logical-operator tier of
the recognizer. -/
def nextTokOp (c : Char) (rest : List Char) : Lexed :=
  if c = '=' then
    (if rest.head? = some '=' then .token .eqOp 2 else .invalid)
  else if c = '!' then
    (if rest.head? = some '=' then .token .neOp 2 else .invalid)
  else if c = '<' then
    (if rest.head? = some '=' then .token .leOp 2 else .token .ltOp 1)
  else if c = '>' then
    (if rest.head? = some '=' then .token .geOp 2 else .token .gtOp 1)
  else if c = '&' then
    (if rest.head? = some '&' then .token .andOp 2 else .invalid)
  else if c = '|' then
    (if rest.head? = some '|' then .token .orOp 2 else .invalid)
  else nextTokArith c rest

/-- Modelled from the spec: one longest-match step of the Logos lexer whose
token definitions (`lexer/tokens.rs`) are missing from the sources.  Normal
mode recognizes keywords, directives, punctuation, literals, identifiers,
context paths, comments and the structural markers; any other character is
an error consuming a single character. -/
def nextTok : List Char → Lexed
  | [] => .ws 0
  | c :: rest =>
    if c = '\x7b' then
      (if rest.head? = some '\x7b' then .token .textOpen 2 else .token .lbrace 1)
    else if c = '\x7d' then
      (if rest.head? = some '\x7d' then .token .textClose 2 else .token .rbrace 1)
    else if c = '$' then
      (if rest.head? = some '\x7b' then .token .interpolationStart 2 else .invalid)
    else if c = '[' then .token .lbracket 1
    else if c = ']' then .token .rbracket 1
    else if c = '(' then .token .lparen 1
    else if c = ')' then .token .rparen 1
    else if c = ':' then .token .colon 1
    else if c = ',' then .token .comma 1
    else if c = '.' then .token .dot 1
    else if c = '?' then .token .question 1
    else nextTokOp c rest

/-- Characters consumed by one recognizer step. -/
def Lexed.consumed : Lexed → Nat
  | .token _ n => n
  | .ws n => n
  | .invalid => 1

/-- Walk a span of characters updating the running line counter and the
offset of the current line start, exactly as the scanner does for newline
tokens and for newlines inside block comments and text content. -/
def advanceLines (cs : List Char) (pos line lineStart : Nat) : Nat × Nat :=
  match cs with
  | [] => (line, lineStart)
  | c :: rest =>
    if c = '\n' then advanceLines rest (pos + 1) (line + 1) (pos + 1)
    else advanceLines rest (pos + 1) line lineStart

/-- The "Unexpected character" lexical error. -/
def unexpectedCharError (c : Char) (loc : Location) : LexerError :=
  ⟨"Unexpected character: '" ++ String.mk [c] ++ "'", loc⟩

/-- The "Unterminated text content" lexical error. -/
def untermTextError (loc : Location) : LexerError :=
  ⟨"Unterminated text content: missing '\x7d\x7d'", loc⟩

/-- One iteration of the scanning loop of `tokenize` (`scanner.rs`): the
tokens and errors the iteration emits, the number of characters it
consumes (always at least one) and the updated line bookkeeping.

Text-content mode follows the specification (and the manual capture loop of
`scanner.rs`): after `\x7b\x7b` the input is walked character by character
up to the first `\x7d\x7d`; everything strictly in between becomes a single
`TextContent` token when non-empty, newlines inside still advance the line
counter, and a missing `\x7d\x7d` is one "unterminated" error while the
rest of the input is consumed without producing further tokens or errors. -/
def scanStep (cs : List Char) (pos line lineStart : Nat) :
    (List Token × List LexerError) × (Nat × Nat × Nat) :=
  match cs with
  | [] => (([], []), (1, line, lineStart))
  | c :: _ =>
    match nextTok cs with
    | .ws n => (([], []), (n, line, lineStart))
    | .invalid =>
      let loc : Location := ⟨line, pos - lineStart + 1, pos, pos + 1⟩
      (([], [unexpectedCharError c loc]), (1, line, lineStart))
    | .token .newline _ => (([], []), (1, line + 1, pos + 1))
    | .token .lineComment n => (([], []), (n, line, lineStart))
    | .token .blockComment n =>
      let (line', lineStart') := advanceLines (cs.take n) pos line lineStart
      (([], []), (n, line', lineStart'))
    | .token .textOpen _ =>
      let openTok : Token :=
        ⟨.textOpen, "\x7b\x7b", ⟨line, pos - lineStart + 1, pos, pos + 2⟩⟩
      let rest := cs.drop 2
      match findClose rest with
      | some k =>
        let content := rest.take k
        let (line', lineStart') := advanceLines content (pos + 2) line lineStart
        let contentToks : List Token :=
          if k = 0 then []
          else [⟨.textContent, String.mk content,
                 ⟨line', pos + 2 - lineStart' + 1, pos + 2, pos + 2 + k⟩⟩]
        let closeTok : Token :=
          ⟨.textClose, "\x7d\x7d", ⟨line', pos + 2 + k - lineStart' + 1, pos + 2 + k, pos + 4 + k⟩⟩
        ((openTok :: contentToks ++ [closeTok], []), (4 + k, line', lineStart'))
      | none =>
        let (line', lineStart') := advanceLines rest (pos + 2) line lineStart
        (([openTok],
          [untermTextError ⟨line', pos + 2 - lineStart' + 1, pos + 2, pos + 2 + rest.length⟩]),
         (cs.length, line', lineStart'))
    | .token .strLit n =>
      let value := String.mk ((cs.drop 1).take (n - 2))
      (([⟨.strLit, value, ⟨line, pos - lineStart + 1, pos, pos + n⟩⟩], []),
       (n, line, lineStart))
    | .token k n =>
      (([⟨k, String.mk (cs.take n), ⟨line, pos - lineStart + 1, pos, pos + n⟩⟩], []),
       (n, line, lineStart))

/-- The zero-width end-of-input token appended after the scan. -/
def eofToken (pos line lineStart : Nat) : Token :=
  ⟨.eof, "", ⟨line, pos - lineStart + 1, pos, pos⟩⟩

/-- The scanning loop: iterate `scanStep` to the end of the input and
append the end-of-input token.  Every iteration consumes at least one
character, so `cs.length + 1` rounds of fuel always suffice (`scanLoop`);
the fuel only makes the recursion structural so that concrete inputs
compute inside the kernel. -/
def scanGo : Nat → List Char → Nat → Nat → Nat → List Token × List LexerError
  | 0, _, pos, line, lineStart => ([eofToken pos line lineStart], [])
  | fuel + 1, cs, pos, line, lineStart =>
    match cs with
    | [] => ([eofToken pos line lineStart], [])
    | c :: t =>
      let ((ts, es), (n, line', lineStart')) := scanStep (c :: t) pos line lineStart
      let (ts', es') := scanGo fuel ((c :: t).drop n) (pos + n) line' lineStart'
      (ts ++ ts', es ++ es')

def scanLoop (cs : List Char) (pos line lineStart : Nat) : List Token × List LexerError :=
  scanGo (cs.length + 1) cs pos line lineStart

/-- `tokenize` (`scanner.rs`): scan the whole source; `Err` exactly when at
least one lexical error was collected, carrying all of them in order. -/
def tokenize (source : String) : Except (List LexerError) (List Token) :=
  let (tokens, errors) := scanLoop source.toList 0 1 0
  if errors.isEmpty then .ok tokens else .error errors

/-! ## AST (`ast.rs`) -/

/-- Binary operator (`BinaryOp`). -/
inductive BinaryOp where
  | eq | ne | lt | le | gt | ge
  | and | or
  | add | sub | mul | div
deriving Repr, DecidableEq

/-- Expression (`Expression`); the struct payload of each Rust variant is
inlined as constructor fields.  `NumberLiteral.value` is an `f64` obtained
by parsing the token text; no claim concerns its numeric value, so the
model keeps the token text. -/
inductive Expression where
  | str (value : String) (loc : Location)
  | num (value : String) (loc : Location)
  | bool (value : Bool) (loc : Location)
  | contextPath (path : String) (loc : Location)
  | ident (name : String) (loc : Location)
  | member (object : Expression) (property : String) (loc : Location)
  | binary (operator : BinaryOp) (left right : Expression) (loc : Location)
  | ternary (condition consequent alternate : Expression) (loc : Location)
  | call (callee : String) (arguments : List Expression) (loc : Location)
  | event (event : String) (modifiers : List String) (action : String)
      (arguments : List Expression) (loc : Location)
deriving Repr

/-- Component parameter (`Parameter`). -/
structure Parameter where
  name : String
  binding : String
  loc : Location
deriving Repr

/-- Attribute (`Attribute`). -/
structure Attr where
  name : String
  value : Expression
  loc : Location
deriving Repr

/-- Parameter binding at a component reference (`ParameterBinding`). -/
structure ParameterBinding where
  name : String
  value : Expression
  loc : Location
deriving Repr

mutual

/-- Body node (`Node`); element/componentRef/text/each/slot payloads are
inlined, `If` keeps its own struct so that `Alternate.elseIf` can box it. -/
inductive Node where
  | element (tag : String) (attributes : List Attr) (children : List Node) (loc : Location)
  | componentRef (name : String) (parameters : List ParameterBinding)
      (children : List Node) (loc : Location)
  | text (content : String) (isDynamic : Bool) (loc : Location)
  | ifStmt (stmt : IfStatement)
  | eachStmt (iterable : Expression) (itemName : String) (indexName : Option String)
      (body : List Node) (loc : Location)
  | slot (loc : Location)

/-- If statement (`IfStatement`). -/
inductive IfStatement where
  | mk (condition : Expression) (consequent : List Node) (alternate : Option Alternate)
      (loc : Location)

/-- Else branch (`Alternate`): plain block or a boxed nested if. -/
inductive Alternate where
  | block (nodes : List Node)
  | elseIf (stmt : IfStatement)

end

/-- Component declaration (`ComponentDecl`). -/
structure ComponentDecl where
  name : String
  parameters : List Parameter
  attributes : List Attr
  body : List Node
  loc : Location

/-- Section declaration (`SectionDecl`). -/
structure SectionDecl where
  name : String
  body : List Node
  loc : Location

/-- Page declaration (`PageDecl`). -/
structure PageDecl where
  name : String
  route : String
  body : List Node
  loc : Location

/-- Top-level declaration (`Declaration`). -/
inductive Declaration where
  | component (c : ComponentDecl)
  | sectionDecl (s : SectionDecl)
  | page (p : PageDecl)

/-- Root of the AST (`Program`). -/
structure Program where
  body : List Declaration
  loc : Location

def Declaration.name : Declaration → String
  | .component c => c.name
  | .sectionDecl s => s.name
  | .page p => p.name

def Declaration.loc : Declaration → Location
  | .component c => c.loc
  | .sectionDecl s => s.loc
  | .page p => p.loc

def Declaration.body : Declaration → List Node
  | .component c => c.body
  | .sectionDecl s => s.body
  | .page p => p.body

/-! ## Symbol table (`analyzer/symbols.rs`)

The Rust table is a `HashMap<String, Symbol>`; the model keeps the symbols
as a list in insertion order.  Key-based operations (`contains_key`,
`get`, `insert` of a fresh key) agree with the hash map; value iteration
(`all`, used by the validate pass) happens in an order the hash map leaves
unspecified, so enumeration takes the order as an explicit argument
(`allWith`) and theorems quantify over every permutation of the keys. -/

/-- Symbol kind (`SymbolKind`). -/
inductive SymbolKind where
  | component
  | sectionKind
  | page
deriving Repr, DecidableEq

/-- A symbol (`Symbol`). -/
structure Symbol where
  name : String
  kind : SymbolKind
  location : Location
  usages : List Location
deriving Repr, DecidableEq

/-- Symbol table (`SymbolTable`). -/
structure SymbolTable where
  symbols : List Symbol
deriving Repr, DecidableEq

def SymbolTable.empty : SymbolTable := ⟨[]⟩

/-- `SymbolTable::has`. -/
def SymbolTable.has (t : SymbolTable) (name : String) : Bool :=
  t.symbols.any (·.name == name)

/-- `SymbolTable::lookup`. -/
def SymbolTable.lookup (t : SymbolTable) (name : String) : Option Symbol :=
  t.symbols.find? (·.name == name)

/-- `SymbolTable::declare`: reject an already-present name, otherwise
insert a fresh symbol with no usages. -/
def SymbolTable.declare (t : SymbolTable) (name : String) (kind : SymbolKind)
    (location : Location) : Except String SymbolTable :=
  if t.has name then
    .error ("Duplicate declaration: '" ++ name ++ "' is already defined")
  else
    .ok ⟨t.symbols ++ [⟨name, kind, location, []⟩]⟩

/-- `SymbolTable::add_usage`: push a usage location onto the named symbol
(if present).  Names are unique in a table built by `declare`, so the map
touches at most one entry. -/
def SymbolTable.addUsage (t : SymbolTable) (name : String) (location : Location) :
    SymbolTable :=
  ⟨t.symbols.map (fun s =>
    if s.name == name then { s with usages := s.usages ++ [location] } else s)⟩

/-- `SymbolTable::by_kind`. -/
def SymbolTable.byKind (t : SymbolTable) (kind : SymbolKind) : List Symbol :=
  t.symbols.filter (·.kind == kind)

/-- `SymbolTable::all`, with the hash map's unspecified value order made
an explicit argument: `order` enumerates the keys. -/
def SymbolTable.allWith (t : SymbolTable) (order : List String) : List Symbol :=
  order.filterMap t.lookup

/-- The key list of the table in insertion order. -/
def SymbolTable.names (t : SymbolTable) : List String :=
  t.symbols.map (·.name)

/-! ## Analyzer (`analyzer/resolver.rs`) -/

/-- Analyzer state (`Analyzer`): the growing symbol table and the
diagnostics in emission order. -/
structure AnalyzerState where
  symbols : SymbolTable
  diagnostics : List Diagnostic
deriving Repr, DecidableEq

/-- `Analyzer::error`: push an error diagnostic with code `E003`. -/
def AnalyzerState.error (st : AnalyzerState) (message : String) (location : Location) :
    AnalyzerState :=
  { st with diagnostics := st.diagnostics ++ [⟨.error, message, location, some "E003"⟩] }

/-- `Analyzer::warning`: push a warning diagnostic with code `W001`. -/
def AnalyzerState.warning (st : AnalyzerState) (message : String) (location : Location) :
    AnalyzerState :=
  { st with diagnostics := st.diagnostics ++ [⟨.warning, message, location, some "W001"⟩] }

/-- The symbol kind a declaration is collected as. -/
def Declaration.kind : Declaration → SymbolKind
  | .component _ => .component
  | .sectionDecl _ => .sectionKind
  | .page _ => .page

/-- First pass, one declaration (`Analyzer::collect_declarations` body):
declare the name, or record the duplicate-declaration error. -/
def collectDecl (st : AnalyzerState) (decl : Declaration) : AnalyzerState :=
  match st.symbols.declare decl.name decl.kind decl.loc with
  | .ok t => { st with symbols := t }
  | .error msg => st.error msg decl.loc

/-- First pass (`Analyzer::collect_declarations`). -/
def collectDeclarations (st : AnalyzerState) (prog : Program) : AnalyzerState :=
  prog.body.foldl collectDecl st

mutual

/-- Second pass, one node (`Analyzer::resolve_node`), translated with the
exact two-level unrolling of the else-if chain that the Rust code
performs (`Alternate::ElseIf(_) => {}` at the second level). -/
def resolveNode (st : AnalyzerState) : Node → AnalyzerState
  | .element _ _ children _ => resolveNodes st children
  | .componentRef name _ children loc =>
    let st :=
      if st.symbols.has name then st.symbols.addUsage name loc |> ({ st with symbols := · })
      else st.error ("Undefined component: '" ++ name ++ "'") loc
    resolveNodes st children
  | .ifStmt (.mk _ consequent alternate _) =>
    let st := resolveNodes st consequent
    match alternate with
    | none => st
    | some (.block nodes) => resolveNodes st nodes
    | some (.elseIf (.mk _ econs ealt _)) =>
      let st := resolveNodes st econs
      match ealt with
      | none => st
      | some (.block n) => resolveNodes st n
      | some (.elseIf _) => st
  | .eachStmt _ _ _ body _ => resolveNodes st body
  | .text _ _ _ => st
  | .slot _ => st

/-- `Analyzer::resolve_nodes`. -/
def resolveNodes (st : AnalyzerState) : List Node → AnalyzerState
  | [] => st
  | n :: rest => resolveNodes (resolveNode st n) rest

end

/-- Second pass (`Analyzer::resolve_references`). -/
def resolveReferences (st : AnalyzerState) (prog : Program) : AnalyzerState :=
  prog.body.foldl (fun st d => resolveNodes st d.body) st

/-- Rust `str::starts_with('/')` on the route, written on the character
list so that concrete programs evaluate inside the kernel. -/
def startsWithSlash (s : String) : Bool :=
  match s.data with
  | '/' :: _ => true
  | _ => false

/-- One step of the route checks in `Analyzer::validate`: a route equal to
an already-seen one is a duplicate-route error and is checked no further;
otherwise the leading-slash check runs and the route is recorded.  The
Rust code keys a `HashMap<String, Location>` only through
`contains_key`/`insert`, so the model keeps the seen keys as a list. -/
def routeStep (acc : AnalyzerState × List String) (decl : Declaration) :
    AnalyzerState × List String :=
  match decl with
  | .page p =>
    if acc.2.contains p.route then
      (acc.1.error ("Duplicate route: '" ++ p.route ++ "' is already defined") p.loc, acc.2)
    else
      let st :=
        if !startsWithSlash p.route then
          acc.1.error ("Invalid route: '" ++ p.route ++ "' must start with '/'") p.loc
        else acc.1
      (st, acc.2 ++ [p.route])
  | _ => acc

/-- The unused-component warning message. -/
def unusedMessage (name : String) : String :=
  "Component '" ++ name ++ "' is declared but never used"

/-- Third pass (`Analyzer::validate`), with the hash map's enumeration
order for the unused-component scan passed in as `order`. -/
def validateWith (st : AnalyzerState) (prog : Program) (order : List String) :
    AnalyzerState :=
  let st := (prog.body.foldl routeStep (st, [])).1
  let unused :=
    (st.symbols.allWith order).filter (fun s => s.kind == .component && s.usages.isEmpty)
  let st := unused.foldl (fun st s => st.warning (unusedMessage s.name) s.location) st
  if (st.symbols.byKind .page).length = 0 then
    st.warning "No pages defined - at least one page is recommended" prog.loc
  else st

/-- `analyze` (`analyzer/resolver.rs`), with the enumeration order of the
symbol table made explicit. -/
def analyzeWith (prog : Program) (order : List String) :
    SymbolTable × List Diagnostic :=
  let st : AnalyzerState := ⟨.empty, []⟩
  let st := collectDeclarations st prog
  let st := resolveReferences st prog
  let st := validateWith st prog order
  (st.symbols, st.diagnostics)

/-- `analyze` with the table's insertion order as enumeration order (one
of the orders the hash map may produce). -/
def analyze (prog : Program) : SymbolTable × List Diagnostic :=
  analyzeWith prog (collectDeclarations ⟨.empty, []⟩ prog).symbols.names

/-! ## Derived notions used by the theorems -/

/-- The duplicate-declaration error diagnostic for a declaration. -/
def dupDeclDiag (d : Declaration) : Diagnostic :=
  ⟨.error, "Duplicate declaration: '" ++ d.name ++ "' is already defined", d.loc, some "E003"⟩

/-- The duplicate-route error diagnostic for a page. -/
def dupRouteDiag (p : PageDecl) : Diagnostic :=
  ⟨.error, "Duplicate route: '" ++ p.route ++ "' is already defined", p.loc, some "E003"⟩

/-- The invalid-route error diagnostic for a page. -/
def invalidRouteDiag (p : PageDecl) : Diagnostic :=
  ⟨.error, "Invalid route: '" ++ p.route ++ "' must start with '/'", p.loc, some "E003"⟩

/-- The unused-component warning diagnostic for a symbol. -/
def unusedWarnDiag (s : Symbol) : Diagnostic :=
  ⟨.warning, unusedMessage s.name, s.location, some "W001"⟩

/-- The page declarations of a program, in source order. -/
def pagesOf (ds : List Declaration) : List PageDecl :=
  ds.filterMap (fun d => match d with | .page p => some p | _ => none)

mutual

/-- Names of every `ComponentRef` in a node, at any nesting depth.  This
definition follows the claim's words (and the specification's description
of the resolve pass): it recurses into element and reference children,
`Each` bodies and *every* branch of an else-if chain of any length.  It is
the reference traversal the resolver is measured against. -/
def specRefsNode : Node → List String
  | .element _ _ children _ => specRefsNodes children
  | .componentRef name _ children _ => name :: specRefsNodes children
  | .text _ _ _ => []
  | .slot _ => []
  | .ifStmt stmt => specRefsIf stmt
  | .eachStmt _ _ _ body _ => specRefsNodes body

def specRefsIf : IfStatement → List String
  | .mk _ consequent alternate _ =>
    specRefsNodes consequent ++
      (match alternate with
       | none => []
       | some (.block ns) => specRefsNodes ns
       | some (.elseIf stmt) => specRefsIf stmt)

def specRefsNodes : List Node → List String
  | [] => []
  | n :: rest => specRefsNode n ++ specRefsNodes rest

end

/-- All `ComponentRef` names of a program, at any depth. -/
def specRefs (prog : Program) : List String :=
  (prog.body.map (fun d => specRefsNodes d.body)).flatten

/-- The duplicate-declaration diagnostics the collect pass emits when run
against an initial table `t`: one error per declaration whose name is
already taken, which is then not inserted. -/
def dupMarks (t : SymbolTable) : List Declaration → List Diagnostic
  | [] => []
  | d :: rest =>
    if t.has d.name then dupDeclDiag d :: dupMarks t rest
    else dupMarks ⟨t.symbols ++ [⟨d.name, d.kind, d.loc, []⟩]⟩ rest

/-- The route diagnostics the validate pass emits given already-seen
routes `seen`: a duplicate route is one error and nothing more; a fresh
route is checked for the leading slash and then recorded. -/
def routeMarks (seen : List String) : List Declaration → List Diagnostic
  | [] => []
  | .page p :: rest =>
    if seen.contains p.route then dupRouteDiag p :: routeMarks seen rest
    else
      (if !startsWithSlash p.route then [invalidRouteDiag p] else []) ++
        routeMarks (seen ++ [p.route]) rest
  | _ :: rest => routeMarks seen rest

/-! ## Collect-pass lemmas and claim C6 -/

theorem has_append_singleton (l : List Symbol) (s : Symbol) (n : String) :
    SymbolTable.has ⟨l ++ [s]⟩ n = (SymbolTable.has ⟨l⟩ n || s.name == n) := by
  simp [SymbolTable.has]

theorem lookup_append_singleton (l : List Symbol) (s : Symbol) (n : String) :
    SymbolTable.lookup ⟨l ++ [s]⟩ n =
      match SymbolTable.lookup ⟨l⟩ n with
      | some r => some r
      | none => if s.name == n then some s else none := by
  simp only [SymbolTable.lookup, List.find?_append]
  cases h : List.find? (fun t => t.name == n) l
  · cases hs : s.name == n <;> simp [List.find?, Option.orElse, hs]
  · simp [Option.orElse]

theorem lookup_eq_none_of_has_false (t : SymbolTable) (n : String)
    (h : t.has n = false) : t.lookup n = none := by
  simp only [SymbolTable.has, List.any_eq_false] at h
  simp only [SymbolTable.lookup, List.find?_eq_none]
  exact h

theorem lookup_isSome_of_has (t : SymbolTable) (n : String)
    (h : t.has n = true) : (t.lookup n).isSome := by
  simp only [SymbolTable.has, List.any_eq_true] at h
  simp only [SymbolTable.lookup, List.find?_isSome]
  exact h

/-- Unfolding `collectDecl` when the name is already declared. -/
theorem collectDecl_of_has (st : AnalyzerState) (d : Declaration)
    (hd : st.symbols.has d.name = true) :
    collectDecl st d = ⟨st.symbols, st.diagnostics ++ [dupDeclDiag d]⟩ := by
  unfold collectDecl SymbolTable.declare
  simp [hd, AnalyzerState.error, dupDeclDiag]

/-- Unfolding `collectDecl` when the name is fresh. -/
theorem collectDecl_of_not_has (st : AnalyzerState) (d : Declaration)
    (hd : st.symbols.has d.name = false) :
    collectDecl st d =
      ⟨⟨st.symbols.symbols ++ [⟨d.name, d.kind, d.loc, []⟩]⟩, st.diagnostics⟩ := by
  unfold collectDecl SymbolTable.declare
  simp [hd]

/-- Collecting never changes the result of a lookup that already
succeeds: later declarations of an existing name are not inserted. -/
theorem collect_lookup_present (ds : List Declaration) (st : AnalyzerState)
    (n : String) (s : Symbol) (h : st.symbols.lookup n = some s) :
    ((ds.foldl collectDecl st).symbols).lookup n = some s := by
  induction ds generalizing st with
  | nil => simpa using h
  | cons d rest ih =>
    simp only [List.foldl_cons]
    apply ih
    by_cases hd : st.symbols.has d.name
    · rw [collectDecl_of_has st d hd]
      exact h
    · rw [collectDecl_of_not_has st d (by simpa using hd)]
      show SymbolTable.lookup ⟨st.symbols.symbols ++ [_]⟩ n = some s
      rw [lookup_append_singleton]
      have : SymbolTable.lookup ⟨st.symbols.symbols⟩ n = some s := h
      rw [this]

/-- Collecting into a table without `n` resolves `n` to the first
declaration carrying it, with that declaration's kind and location. -/
theorem collect_lookup_absent (ds : List Declaration) (st : AnalyzerState)
    (n : String) (h : st.symbols.has n = false) :
    ((ds.foldl collectDecl st).symbols).lookup n =
      (ds.find? (fun d => d.name == n)).map
        (fun d => ⟨d.name, d.kind, d.loc, []⟩) := by
  induction ds generalizing st with
  | nil => simp [lookup_eq_none_of_has_false _ _ h]
  | cons d rest ih =>
    simp only [List.foldl_cons]
    by_cases hd : st.symbols.has d.name
    · have hne : (d.name == n) = false := by
        cases hbe : d.name == n
        · rfl
        · exact absurd (beq_iff_eq.mp hbe ▸ hd) (by simp [h])
      rw [collectDecl_of_has st d hd, List.find?_cons_of_neg _ (by simp [hne])]
      exact ih _ h
    · have hd' : st.symbols.has d.name = false := by simpa using hd
      cases hbe : d.name == n
      · rw [collectDecl_of_not_has st d hd', List.find?_cons_of_neg _ (by simp [hbe])]
        apply ih
        show SymbolTable.has ⟨st.symbols.symbols ++ [_]⟩ n = false
        rw [has_append_singleton]
        have : SymbolTable.has ⟨st.symbols.symbols⟩ n = false := h
        simp [this, hbe]
      · rw [List.find?_cons_of_pos _ (by simp [hbe])]
        apply collect_lookup_present
        rw [collectDecl_of_not_has st d hd']
        show SymbolTable.lookup ⟨st.symbols.symbols ++ [_]⟩ n = _
        rw [lookup_append_singleton]
        have : SymbolTable.lookup ⟨st.symbols.symbols⟩ n = none :=
          lookup_eq_none_of_has_false _ _ h
        rw [this]
        simp [hbe]

/-- Collecting preserves key uniqueness: each name maps to at most one
symbol. -/
theorem collect_nodup (ds : List Declaration) (st : AnalyzerState)
    (h : st.symbols.names.Nodup) :
    ((ds.foldl collectDecl st).symbols).names.Nodup := by
  induction ds generalizing st with
  | nil => simpa using h
  | cons d rest ih =>
    simp only [List.foldl_cons]
    apply ih
    by_cases hd : st.symbols.has d.name
    · rw [collectDecl_of_has st d hd]
      exact h
    · rw [collectDecl_of_not_has st d (by simpa using hd)]
      show (SymbolTable.names ⟨st.symbols.symbols ++ [_]⟩).Nodup
      simp only [SymbolTable.names, List.map_append, List.map_cons, List.map_nil]
      refine (List.Perm.nodup_iff (List.perm_append_singleton _ _)).mpr ?_
      refine List.nodup_cons.mpr ⟨?_, h⟩
      intro hmem
      rcases List.mem_map.mp hmem with ⟨sym, hs, hname⟩
      have : st.symbols.has d.name = true :=
        List.any_eq_true.mpr ⟨sym, hs, by simp [hname]⟩
      exact hd this

/-- The diagnostics of the collect pass are the duplicate-declaration
errors, in declaration order. -/
theorem collect_diags (ds : List Declaration) (st : AnalyzerState) :
    (ds.foldl collectDecl st).diagnostics =
      st.diagnostics ++ dupMarks st.symbols ds := by
  induction ds generalizing st with
  | nil => simp [dupMarks]
  | cons d rest ih =>
    simp only [List.foldl_cons, dupMarks]
    by_cases hd : st.symbols.has d.name
    · rw [collectDecl_of_has st d hd, ih]
      simp [hd]
    · have hd' : st.symbols.has d.name = false := by simpa using hd
      rw [collectDecl_of_not_has st d hd', ih]
      simp [hd']

/-- The duplicate-declaration diagnostics over an index offset `i`:
declaration number `j` is marked exactly when its name is already taken by
the initial table or by an earlier declaration. -/
theorem dupMarks_enumFrom (ds : List Declaration) (t : SymbolTable) (i : Nat) :
    dupMarks t ds =
      ((List.enumFrom i ds).map (fun je =>
        if t.has je.2.name || (ds.take (je.1 - i)).any (fun e => e.name == je.2.name)
        then [dupDeclDiag je.2] else [])).flatten := by
  induction ds generalizing t i with
  | nil => simp [dupMarks]
  | cons d rest ih =>
    rw [dupMarks, List.enumFrom_cons]
    simp only [List.map_cons, List.flatten_cons, Nat.sub_self, List.take_zero,
      List.any_nil, Bool.or_false]
    by_cases hd : t.has d.name
    · rw [ih t (i + 1)]
      simp only [hd, eq_self_iff_true, if_true, List.singleton_append]
      congr 1
      refine congrArg List.flatten ?_
      apply List.map_congr_left
      intro je hje
      rcases je with ⟨j, e⟩
      have hj : i + 1 ≤ j := (List.mk_mem_enumFrom_iff_le_and_getElem?_sub.mp hje).1
      have hsub : j - i = (j - (i + 1)) + 1 := by omega
      simp only [hsub, List.take_succ_cons, List.any_cons]
      cases hbe : d.name == e.name
      · simp
      · have : e.name = d.name := (beq_iff_eq.mp hbe).symm
        rw [this, hd]
        simp
    · have hd' : t.has d.name = false := by simpa using hd
      simp only [hd', Bool.false_eq_true, if_false, List.nil_append]
      rw [ih _ (i + 1)]
      refine congrArg List.flatten ?_
      apply List.map_congr_left
      intro je hje
      rcases je with ⟨j, e⟩
      have hj : i + 1 ≤ j := (List.mk_mem_enumFrom_iff_le_and_getElem?_sub.mp hje).1
      have hsub : j - i = (j - (i + 1)) + 1 := by omega
      simp only [hsub, List.take_succ_cons, List.any_cons]
      have habs : SymbolTable.has ⟨t.symbols ++ [⟨d.name, d.kind, d.loc, []⟩]⟩ e.name =
          (t.has e.name || d.name == e.name) :=
        has_append_singleton t.symbols ⟨d.name, d.kind, d.loc, []⟩ e.name
      rw [habs]
      cases t.has e.name <;> cases hbe : d.name == e.name <;>
        cases (rest.take (j - (i + 1))).any (fun x => x.name == e.name) <;> simp

/-- C6: the collect pass keeps one symbol per name across the shared
component/section/page namespace; the first declaration of a name wins,
every later declaration of that name (of any kind) yields one
duplicate-declaration error and is not inserted, and lookup afterwards
returns the first declaration's kind and location. -/
theorem c6_collect_first_declaration_wins (prog : Program) (n : String) :
    ((collectDeclarations ⟨.empty, []⟩ prog).symbols).names.Nodup ∧
    ((collectDeclarations ⟨.empty, []⟩ prog).symbols).lookup n =
      (prog.body.find? (fun d => d.name == n)).map
        (fun d => ⟨d.name, d.kind, d.loc, []⟩) ∧
    (collectDeclarations ⟨.empty, []⟩ prog).diagnostics =
      (prog.body.enum.map (fun je =>
        if (prog.body.take je.1).any (fun e => e.name == je.2.name)
        then [dupDeclDiag je.2] else [])).flatten := by
  refine ⟨?_, ?_, ?_⟩
  · exact collect_nodup prog.body ⟨.empty, []⟩ (by simp [SymbolTable.names, SymbolTable.empty])
  · exact collect_lookup_absent prog.body ⟨.empty, []⟩ n (by simp [SymbolTable.has, SymbolTable.empty])
  · rw [collectDeclarations, collect_diags, dupMarks_enumFrom _ _ 0]
    have he : SymbolTable.has (AnalyzerState.mk .empty []).symbols = fun _ => false := by
      funext m
      simp [SymbolTable.has, SymbolTable.empty]
    simp only [List.enum, he, Nat.sub_zero, Bool.false_or, List.nil_append]

/-! ## Route-check lemmas and claim C4 -/

theorem routeStep_page_dup (st : AnalyzerState) (seen : List String) (p : PageDecl)
    (h : seen.contains p.route = true) :
    routeStep (st, seen) (.page p) = (⟨st.symbols, st.diagnostics ++ [dupRouteDiag p]⟩, seen) := by
  unfold routeStep
  dsimp only
  rw [h]
  simp [AnalyzerState.error, dupRouteDiag]

theorem routeStep_page_fresh (st : AnalyzerState) (seen : List String) (p : PageDecl)
    (h : seen.contains p.route = false) :
    routeStep (st, seen) (.page p) =
      (⟨st.symbols,
        st.diagnostics ++ (if !startsWithSlash p.route then [invalidRouteDiag p] else [])⟩,
       seen ++ [p.route]) := by
  unfold routeStep
  dsimp only
  rw [h]
  cases hs : !startsWithSlash p.route <;>
    simp [hs, AnalyzerState.error, invalidRouteDiag]

/-- The route checks only append diagnostics; the contributed list is
`routeMarks`. -/
theorem route_fold (ds : List Declaration) (st : AnalyzerState) (seen : List String) :
    (ds.foldl routeStep (st, seen)).1.symbols = st.symbols ∧
    (ds.foldl routeStep (st, seen)).1.diagnostics = st.diagnostics ++ routeMarks seen ds := by
  induction ds generalizing st seen with
  | nil => simp [routeMarks]
  | cons d rest ih =>
    simp only [List.foldl_cons]
    match d with
    | .page p =>
      cases h : seen.contains p.route
      · rw [routeStep_page_fresh st seen p h, routeMarks]
        rcases ih ⟨st.symbols, st.diagnostics ++
            (if !startsWithSlash p.route then [invalidRouteDiag p] else [])⟩ (seen ++ [p.route])
          with ⟨h1, h2⟩
        refine ⟨h1, ?_⟩
        rw [h2, h]
        simp [List.append_assoc]
      · rw [routeStep_page_dup st seen p h, routeMarks]
        rcases ih ⟨st.symbols, st.diagnostics ++ [dupRouteDiag p]⟩ seen with ⟨h1, h2⟩
        refine ⟨h1, ?_⟩
        rw [h2, h]
        simp [List.append_assoc]
    | .component c =>
      have hr : routeStep (st, seen) (.component c) = (st, seen) := rfl
      have hm : routeMarks seen (Declaration.component c :: rest) = routeMarks seen rest := rfl
      rcases ih st seen with ⟨h1, h2⟩
      rw [hr]
      exact ⟨h1, by rw [h2, hm]⟩
    | .sectionDecl sd =>
      have hr : routeStep (st, seen) (.sectionDecl sd) = (st, seen) := rfl
      have hm : routeMarks seen (Declaration.sectionDecl sd :: rest) = routeMarks seen rest := rfl
      rcases ih st seen with ⟨h1, h2⟩
      rw [hr]
      exact ⟨h1, by rw [h2, hm]⟩

theorem pagesOf_cons_page (p : PageDecl) (rest : List Declaration) :
    pagesOf (.page p :: rest) = p :: pagesOf rest := by
  simp [pagesOf]

theorem pagesOf_cons_component (c : ComponentDecl) (rest : List Declaration) :
    pagesOf (.component c :: rest) = pagesOf rest := by
  simp [pagesOf]

theorem pagesOf_cons_section (sd : SectionDecl) (rest : List Declaration) :
    pagesOf (.sectionDecl sd :: rest) = pagesOf rest := by
  simp [pagesOf]

/-- The route diagnostics, re-expressed per page index: page number `j`
gets one duplicate-route error when an already-seen or earlier page has
the same route; only otherwise is the leading-slash check made, yielding
one invalid-route error when it fails. -/
theorem routeMarks_enumFrom (ds : List Declaration) (seen : List String) (i : Nat) :
    routeMarks seen ds =
      ((List.enumFrom i (pagesOf ds)).map (fun jp =>
        if seen.contains jp.2.route ||
            ((pagesOf ds).take (jp.1 - i)).any (fun q => q.route == jp.2.route)
        then [dupRouteDiag jp.2]
        else if !startsWithSlash jp.2.route then [invalidRouteDiag jp.2] else [])).flatten := by
  induction ds generalizing seen i with
  | nil => simp [routeMarks, pagesOf]
  | cons d rest ih =>
    match d with
    | .component c =>
      have hm : routeMarks seen (Declaration.component c :: rest) = routeMarks seen rest := rfl
      rw [hm, pagesOf_cons_component, ih]
    | .sectionDecl sd =>
      have hm : routeMarks seen (Declaration.sectionDecl sd :: rest) = routeMarks seen rest := rfl
      rw [hm, pagesOf_cons_section, ih]
    | .page p =>
      have hm : routeMarks seen (Declaration.page p :: rest) =
          if seen.contains p.route then dupRouteDiag p :: routeMarks seen rest
          else (if !startsWithSlash p.route then [invalidRouteDiag p] else []) ++
            routeMarks (seen ++ [p.route]) rest := rfl
      rw [hm, pagesOf_cons_page, List.enumFrom_cons]
      simp only [List.map_cons, List.flatten_cons, Nat.sub_self, List.take_zero,
        List.any_nil, Bool.or_false]
      cases h : seen.contains p.route
      · simp only [h, Bool.false_eq_true, if_false]
        rw [ih (seen ++ [p.route]) (i + 1)]
        congr 1
        refine congrArg List.flatten ?_
        apply List.map_congr_left
        intro jp hjp
        rcases jp with ⟨j, q⟩
        have hj : i + 1 ≤ j := (List.mk_mem_enumFrom_iff_le_and_getElem?_sub.mp hjp).1
        have hsub : j - i = (j - (i + 1)) + 1 := by omega
        simp only [hsub, List.take_succ_cons, List.any_cons]
        have hca : (seen ++ [p.route]).contains q.route =
            (seen.contains q.route || (q.route == p.route)) := by
          simp [List.contains, List.elem_eq_mem]
          cases hx : q.route == p.route <;> simp_all
        have hsym : (q.route == p.route) = (p.route == q.route) := by
          cases hx : q.route == p.route <;> cases hy : p.route == q.route <;> simp_all
        rw [hca, hsym, Bool.or_assoc]
      · simp only [h, eq_self_iff_true, if_true, List.singleton_append]
        rw [ih seen (i + 1)]
        congr 1
        refine congrArg List.flatten ?_
        apply List.map_congr_left
        intro jp hjp
        rcases jp with ⟨j, q⟩
        have hj : i + 1 ≤ j := (List.mk_mem_enumFrom_iff_le_and_getElem?_sub.mp hjp).1
        have hsub : j - i = (j - (i + 1)) + 1 := by omega
        simp only [hsub, List.take_succ_cons, List.any_cons]
        cases hbe : p.route == q.route
        · simp
        · have hq : q.route = p.route := (beq_iff_eq.mp hbe).symm
          rw [hq, h]
          simp

/-- The per-page route contribution: one duplicate-route error when an
earlier page has the same route, otherwise one invalid-route error when
the leading slash is missing, otherwise nothing. -/
def routeContrib (pages : List PageDecl) (jp : Nat × PageDecl) : List Diagnostic :=
  if (pages.take jp.1).any (fun q => q.route == jp.2.route) then [dupRouteDiag jp.2]
  else if !startsWithSlash jp.2.route then [invalidRouteDiag jp.2] else []

theorem dupRouteDiag_ne_invalidRouteDiag (p : PageDecl) :
    dupRouteDiag p ≠ invalidRouteDiag p := by
  intro h
  have hm := congrArg Diagnostic.message h
  have hd := congrArg String.data hm
  simp only [dupRouteDiag, invalidRouteDiag, String.data_append] at hd
  have h0 := congrArg List.head? hd
  simp only [List.head?_append] at h0
  have h1 : ("Duplicate route: '".data).head? = some 'D' := rfl
  have h2 : ("Invalid route: '".data).head? = some 'I' := rfl
  rw [h1, h2] at h0
  simp at h0

/-- C4: for every program, the route checks of the validate pass emit, per
page in source order, exactly the `routeContrib` diagnostics: a page whose
route equals an earlier page's route gets exactly one duplicate-route
error and no invalid-route error (even when the route also lacks the
leading slash); a page with a fresh route lacking the leading slash gets
exactly one invalid-route error; no page gets both. -/
theorem c4_route_duplicate_precedence (prog : Program) (st : AnalyzerState) :
    ((prog.body.foldl routeStep (st, [])).1.diagnostics =
      st.diagnostics ++
        ((pagesOf prog.body).enum.map (routeContrib (pagesOf prog.body))).flatten) ∧
    (∀ j p, (pagesOf prog.body).get? j = some p →
      (∃ q ∈ (pagesOf prog.body).take j, q.route = p.route) →
        routeContrib (pagesOf prog.body) (j, p) = [dupRouteDiag p]) ∧
    (∀ j p, (pagesOf prog.body).get? j = some p →
      (∀ q ∈ (pagesOf prog.body).take j, q.route ≠ p.route) →
      startsWithSlash p.route = false →
        routeContrib (pagesOf prog.body) (j, p) = [invalidRouteDiag p]) ∧
    (∀ jp : Nat × PageDecl,
      ¬ (dupRouteDiag jp.2 ∈ routeContrib (pagesOf prog.body) jp ∧
         invalidRouteDiag jp.2 ∈ routeContrib (pagesOf prog.body) jp)) := by
  refine ⟨?_, ?_, ?_, ?_⟩
  · rcases route_fold prog.body st [] with ⟨_, h2⟩
    rw [h2, routeMarks_enumFrom prog.body [] 0]
    rfl
  · intro j p _ hdup
    rcases hdup with ⟨q, hq, hr⟩
    unfold routeContrib
    rw [if_pos]
    exact List.any_eq_true.mpr ⟨q, hq, by simp [hr]⟩
  · intro j p _ hfresh hs
    unfold routeContrib
    rw [if_neg, if_pos]
    · simp [hs]
    · intro hany
      rcases List.any_eq_true.mp hany with ⟨q, hq, hr⟩
      exact hfresh q hq (by simpa using hr)
  · intro jp ⟨hdup, hinv⟩
    unfold routeContrib at hdup hinv
    by_cases h1 : ((pagesOf prog.body).take jp.1).any (fun q => q.route == jp.2.route)
    · rw [if_pos h1] at hinv
      have := List.mem_singleton.mp hinv
      exact dupRouteDiag_ne_invalidRouteDiag jp.2 this.symm
    · rw [if_neg h1] at hdup
      by_cases h2 : !startsWithSlash jp.2.route
      · rw [if_pos h2] at hdup
        have := List.mem_singleton.mp hdup
        exact dupRouteDiag_ne_invalidRouteDiag jp.2 this
      · rw [if_neg h2] at hdup
        simp at hdup

/-- A two-page program whose pages share the route `"home"`, which also
lacks the leading slash. -/
def pageHome : PageDecl := ⟨"home", "home", [], ⟨1, 1, 0, 19⟩⟩

def pageLanding : PageDecl := ⟨"landing", "home", [], ⟨2, 1, 20, 42⟩⟩

def progTwoRoutes : Program := ⟨[.page pageHome, .page pageLanding], ⟨1, 1, 0, 42⟩⟩

theorem c4_route_duplicate_precedence_witness :
    routeContrib (pagesOf progTwoRoutes.body) (1, pageLanding) = [dupRouteDiag pageLanding] ∧
    routeContrib (pagesOf progTwoRoutes.body) (0, pageHome) = [invalidRouteDiag pageHome] := by
  have h := c4_route_duplicate_precedence progTwoRoutes ⟨.empty, []⟩
  refine ⟨h.2.1 1 pageLanding rfl ⟨pageHome, ?_, rfl⟩, h.2.2.1 0 pageHome rfl ?_ ?_⟩
  · show pageHome ∈ List.take 1 (pagesOf progTwoRoutes.body)
    exact List.mem_singleton.mpr rfl
  · intro q hq
    simp [pagesOf, progTwoRoutes] at hq
  · decide

/-! ## Staged structure of the analyzer passes

Every pass only appends diagnostics, reads the diagnostics of nothing, and
changes the symbol table in a way that depends only on the symbol table.
`RStage` captures this; it lets the full `analyzeWith` output be decomposed
into per-pass contributions. -/

def RStage (F : AnalyzerState → AnalyzerState) : Prop :=
  ∀ st, F st = ⟨(F ⟨st.symbols, []⟩).symbols,
                st.diagnostics ++ (F ⟨st.symbols, []⟩).diagnostics⟩ ∧
        ((F st).symbols).names = st.symbols.names

theorem rstage_id : RStage (fun st => st) := by
  intro st
  exact ⟨by simp, rfl⟩

theorem RStage.comp {F G : AnalyzerState → AnalyzerState}
    (hF : RStage F) (hG : RStage G) : RStage (fun st => G (F st)) := by
  intro st
  dsimp only
  have h1 := (hF st).1
  have hsym : (F st).symbols = (F ⟨st.symbols, []⟩).symbols := by rw [h1]
  have hdia : (F st).diagnostics = st.diagnostics ++ (F ⟨st.symbols, []⟩).diagnostics := by
    rw [h1]
  constructor
  · rw [(hG (F st)).1, hsym, hdia, (hG (F ⟨st.symbols, []⟩)).1]
    simp [List.append_assoc]
  · rw [(hG (F st)).2, hsym, ← hsym]
    exact (hF st).2

theorem addUsage_names (t : SymbolTable) (name : String) (loc : Location) :
    (t.addUsage name loc).names = t.names := by
  rcases t with ⟨l⟩
  simp only [SymbolTable.addUsage, SymbolTable.names, List.map_map]
  apply List.map_congr_left
  intro s _
  by_cases h : s.name = name <;> simp [h]

/-- The symbol-lookup step of `resolve_node` at a `ComponentRef`. -/
theorem refStep_rstage (name : String) (loc : Location) :
    RStage (fun st =>
      if st.symbols.has name then
        st.symbols.addUsage name loc |> ({ st with symbols := · })
      else st.error ("Undefined component: '" ++ name ++ "'") loc) := by
  intro st
  by_cases h : st.symbols.has name
  · refine ⟨?_, ?_⟩ <;> simp [h, addUsage_names]
  · have h' : st.symbols.has name = false := by simpa using h
    refine ⟨?_, ?_⟩ <;> simp [h', AnalyzerState.error]

mutual

theorem resolveNode_rstage (n : Node) : RStage (fun st => resolveNode st n) := by
  cases n with
  | element tag attrs children loc =>
    exact resolveNodes_rstage children
  | componentRef name params children loc =>
    exact RStage.comp (refStep_rstage name loc) (resolveNodes_rstage children)
  | text content isDyn loc => exact rstage_id
  | slot loc => exact rstage_id
  | eachStmt it item idx body loc => exact resolveNodes_rstage body
  | ifStmt stmt =>
    cases stmt with
    | mk c cons alt l =>
      cases alt with
      | none => exact resolveNodes_rstage cons
      | some a =>
        cases a with
        | block ns =>
          exact RStage.comp (resolveNodes_rstage cons) (resolveNodes_rstage ns)
        | elseIf stmt2 =>
          cases stmt2 with
          | mk c2 econs ealt l2 =>
            cases ealt with
            | none =>
              exact RStage.comp (resolveNodes_rstage cons) (resolveNodes_rstage econs)
            | some a2 =>
              cases a2 with
              | block ns2 =>
                exact RStage.comp (resolveNodes_rstage cons)
                  (RStage.comp (resolveNodes_rstage econs) (resolveNodes_rstage ns2))
              | elseIf stmt3 =>
                exact RStage.comp (resolveNodes_rstage cons) (resolveNodes_rstage econs)

theorem resolveNodes_rstage (ns : List Node) : RStage (fun st => resolveNodes st ns) := by
  cases ns with
  | nil => exact rstage_id
  | cons n rest =>
    exact RStage.comp (resolveNode_rstage n) (resolveNodes_rstage rest)

end

theorem resolveFold_rstage (ds : List Declaration) :
    RStage (fun st => ds.foldl (fun st d => resolveNodes st d.body) st) := by
  induction ds with
  | nil => exact rstage_id
  | cons d rest ih =>
    have := RStage.comp (resolveNodes_rstage d.body) ih
    intro st
    exact this st

theorem resolveReferences_rstage (prog : Program) :
    RStage (fun st => resolveReferences st prog) :=
  resolveFold_rstage prog.body

/-- The unused-component warning fold appends exactly one warning per
listed symbol, in list order. -/
theorem warn_fold (us : List Symbol) (st : AnalyzerState) :
    us.foldl (fun st s => st.warning (unusedMessage s.name) s.location) st =
      ⟨st.symbols, st.diagnostics ++ us.map unusedWarnDiag⟩ := by
  induction us generalizing st with
  | nil => simp
  | cons u rest ih =>
    simp only [List.foldl_cons, List.map_cons]
    rw [ih]
    simp [AnalyzerState.warning, unusedWarnDiag]

/-- The no-pages warning of the validate pass. -/
def noPagesWarn (prog : Program) : Diagnostic :=
  ⟨.warning, "No pages defined - at least one page is recommended", prog.loc, some "W001"⟩

/-- The symbols the validate pass warns about, in enumeration order:
component symbols whose usage list is empty. -/
def unusedComponents (t : SymbolTable) (order : List String) : List Symbol :=
  (t.allWith order).filter (fun s => s.kind == .component && s.usages.isEmpty)

/-- Decomposition of the validate pass: route diagnostics in page order,
then one warning per unused component in enumeration order, then the
no-pages warning; the symbol table is untouched. -/
theorem validateWith_decomp (st : AnalyzerState) (prog : Program) (order : List String) :
    (validateWith st prog order).symbols = st.symbols ∧
    (validateWith st prog order).diagnostics =
      st.diagnostics ++ routeMarks [] prog.body ++
      (unusedComponents st.symbols order).map unusedWarnDiag ++
      (if (st.symbols.byKind .page).length = 0 then [noPagesWarn prog] else []) := by
  rcases route_fold prog.body st [] with ⟨h1, h2⟩
  unfold validateWith
  dsimp only
  rw [warn_fold, h1, h2]
  by_cases hp : (st.symbols.byKind .page).length = 0
  · simp [hp, AnalyzerState.warning, noPagesWarn, unusedComponents, List.append_assoc]
  · simp [hp, unusedComponents, List.append_assoc]

/-- Decomposition of `analyzeWith` into per-pass diagnostic yields. -/
theorem analyzeWith_decomp (prog : Program) (order : List String) :
    (analyzeWith prog order).1 =
      (resolveReferences ⟨(collectDeclarations ⟨.empty, []⟩ prog).symbols, []⟩ prog).symbols ∧
    (analyzeWith prog order).2 =
      (collectDeclarations ⟨.empty, []⟩ prog).diagnostics ++
      (resolveReferences ⟨(collectDeclarations ⟨.empty, []⟩ prog).symbols, []⟩ prog).diagnostics ++
      routeMarks [] prog.body ++
      (unusedComponents
        (resolveReferences ⟨(collectDeclarations ⟨.empty, []⟩ prog).symbols, []⟩ prog).symbols
        order).map unusedWarnDiag ++
      (if (((resolveReferences ⟨(collectDeclarations ⟨.empty, []⟩ prog).symbols, []⟩
              prog).symbols).byKind .page).length = 0
       then [noPagesWarn prog] else []) := by
  have hres := (resolveReferences_rstage prog) (collectDeclarations ⟨.empty, []⟩ prog)
  dsimp only at hres
  rcases validateWith_decomp (resolveReferences (collectDeclarations ⟨.empty, []⟩ prog) prog)
    prog order with ⟨hv1, hv2⟩
  unfold analyzeWith
  dsimp only
  constructor
  · rw [hv1, hres.1]
  · rw [hv2, hres.1]

/-! ## Claim C8: ordering of the validate-pass warnings -/

theorem filterMap_lookup_names (l : List Symbol)
    (h : (l.map (fun s => s.name)).Nodup) :
    (l.map (fun s => s.name)).filterMap (SymbolTable.lookup ⟨l⟩) = l := by
  induction l with
  | nil => rfl
  | cons s rest ih =>
    rcases List.nodup_cons.mp h with ⟨hnot, hrest⟩
    have hhead : SymbolTable.lookup ⟨s :: rest⟩ s.name = some s := by
      simp [SymbolTable.lookup, List.find?_cons_of_pos]
    simp only [List.map_cons, List.filterMap_cons, hhead]
    congr 1
    have hcongr : ∀ n ∈ rest.map (fun s => s.name),
        SymbolTable.lookup ⟨s :: rest⟩ n = SymbolTable.lookup ⟨rest⟩ n := by
      intro n hn
      have hne : (s.name == n) = false := by
        cases hbe : s.name == n
        · rfl
        · refine absurd ?_ hnot
          show s.name ∈ List.map (fun s => s.name) rest
          rw [beq_iff_eq.mp hbe]
          exact hn
      simp [SymbolTable.lookup, List.find?_cons_of_neg, hne]
    rw [List.filterMap_congr hcongr]
    exact ih hrest

/-- Enumerating the table in any permutation of its key list yields a
permutation of its symbols. -/
theorem allWith_perm (t : SymbolTable) (order : List String)
    (hn : t.names.Nodup) (h : order.Perm t.names) :
    (t.allWith order).Perm t.symbols := by
  have hp : (order.filterMap t.lookup).Perm (t.names.filterMap t.lookup) :=
    h.filterMap _
  rcases t with ⟨l⟩
  rw [show SymbolTable.names ⟨l⟩ = l.map (fun s => s.name) from rfl,
    filterMap_lookup_names l hn] at hp
  exact hp

/-- C8 (amended): `analyze`'s diagnostics are the concatenation of the
pass yields — collect, resolve, then within validate the route errors in
page source order, the unused-component warnings, and the no-pages
warning.  The unused-component warnings follow the symbol table's
enumeration order `order` (for the Rust `HashMap`, an unspecified order):
they are one warning per unused component — a permutation of the unused
components — but not necessarily in source-declaration order. -/
theorem c8_validate_warning_order (prog : Program) (order : List String)
    (h : order.Perm
      ((resolveReferences ⟨(collectDeclarations ⟨.empty, []⟩ prog).symbols, []⟩
        prog).symbols).names) :
    (analyzeWith prog order).2 =
      (collectDeclarations ⟨.empty, []⟩ prog).diagnostics ++
      (resolveReferences ⟨(collectDeclarations ⟨.empty, []⟩ prog).symbols, []⟩
        prog).diagnostics ++
      routeMarks [] prog.body ++
      (unusedComponents
        (resolveReferences ⟨(collectDeclarations ⟨.empty, []⟩ prog).symbols, []⟩
          prog).symbols order).map unusedWarnDiag ++
      (if (((resolveReferences ⟨(collectDeclarations ⟨.empty, []⟩ prog).symbols, []⟩
              prog).symbols).byKind .page).length = 0
       then [noPagesWarn prog] else []) ∧
    (unusedComponents
      (resolveReferences ⟨(collectDeclarations ⟨.empty, []⟩ prog).symbols, []⟩
        prog).symbols order).Perm
      (((resolveReferences ⟨(collectDeclarations ⟨.empty, []⟩ prog).symbols, []⟩
          prog).symbols).symbols.filter
        (fun s => s.kind == .component && s.usages.isEmpty)) := by
  refine ⟨(analyzeWith_decomp prog order).2, ?_⟩
  have hnames :
      ((resolveReferences ⟨(collectDeclarations ⟨.empty, []⟩ prog).symbols, []⟩
        prog).symbols).names =
      ((collectDeclarations ⟨.empty, []⟩ prog).symbols).names := by
    have := ((resolveReferences_rstage prog)
      ⟨(collectDeclarations ⟨.empty, []⟩ prog).symbols, []⟩).2
    exact this
  have hnodup :
      ((resolveReferences ⟨(collectDeclarations ⟨.empty, []⟩ prog).symbols, []⟩
        prog).symbols).names.Nodup := by
    rw [hnames]
    exact collect_nodup prog.body ⟨.empty, []⟩ (by simp [SymbolTable.names, SymbolTable.empty])
  exact (allWith_perm _ order hnodup h).filter _

/-- Two never-referenced components, declared `A` before `B`. -/
def compDeclA : ComponentDecl := ⟨"A", [], [], [], ⟨1, 1, 0, 16⟩⟩

def compDeclB : ComponentDecl := ⟨"B", [], [], [], ⟨2, 1, 17, 33⟩⟩

def progTwoUnused : Program := ⟨[.component compDeclA, .component compDeclB], ⟨1, 1, 0, 33⟩⟩

/-- C8 counterexample: with the enumeration order `["B", "A"]` — a valid
hash-map order, being a permutation of the key set — the unused-component
warnings come out in the order B, A, not in source-declaration order A, B.
The emitted list is therefore not the one the claim requires. -/
theorem c8_counterexample :
    ["B", "A"].Perm
      ((resolveReferences ⟨(collectDeclarations ⟨.empty, []⟩ progTwoUnused).symbols, []⟩
        progTwoUnused).symbols).names ∧
    (analyzeWith progTwoUnused ["B", "A"]).2 =
      [unusedWarnDiag ⟨"B", .component, ⟨2, 1, 17, 33⟩, []⟩,
       unusedWarnDiag ⟨"A", .component, ⟨1, 1, 0, 16⟩, []⟩,
       noPagesWarn progTwoUnused] ∧
    (analyzeWith progTwoUnused ["B", "A"]).2 ≠
      [unusedWarnDiag ⟨"A", .component, ⟨1, 1, 0, 16⟩, []⟩,
       unusedWarnDiag ⟨"B", .component, ⟨2, 1, 17, 33⟩, []⟩,
       noPagesWarn progTwoUnused] :=
  ⟨by decide, by decide, by decide⟩

theorem c8_validate_warning_order_witness :
    (unusedComponents
      (resolveReferences ⟨(collectDeclarations ⟨.empty, []⟩ progTwoUnused).symbols, []⟩
        progTwoUnused).symbols ["B", "A"]).Perm
      (((resolveReferences ⟨(collectDeclarations ⟨.empty, []⟩ progTwoUnused).symbols, []⟩
          progTwoUnused).symbols).symbols.filter
        (fun s => s.kind == .component && s.usages.isEmpty)) :=
  (c8_validate_warning_order progTwoUnused ["B", "A"] (by decide)).2

/-! ## Claims C2 and C5: the resolver's else-if blind spot -/

/-- A reference to an undefined component, sitting in the consequent of
the third `@if` of an else-if chain. -/
def refMissingNode : Node := .componentRef "Missing" [] [] ⟨3, 5, 60, 67⟩

def ifThirdMissing : IfStatement :=
  .mk (.bool true ⟨3, 1, 50, 54⟩) [refMissingNode] none ⟨3, 1, 50, 70⟩

def ifSecondMissing : IfStatement :=
  .mk (.bool true ⟨2, 1, 30, 34⟩) [] (some (.elseIf ifThirdMissing)) ⟨2, 1, 30, 70⟩

def progDeepElseIf : Program :=
  ⟨[.page ⟨"home", "/",
      [.ifStmt (.mk (.bool true ⟨1, 20, 19, 23⟩) [] (some (.elseIf ifSecondMissing))
        ⟨1, 16, 15, 70⟩)], ⟨1, 1, 0, 70⟩⟩], ⟨1, 1, 0, 70⟩⟩

/-- C2 (code bug): the program references the undefined component
`Missing` (the reference traversal that follows the claim's words finds
it), yet `analyze` emits no diagnostic at all — the resolver's manual
two-level unrolling of the else-if chain never visits the third branch,
contradicting its own `Recursive handled above` comment. -/
theorem c2_resolver_skips_third_else_if :
    "Missing" ∈ specRefs progDeepElseIf ∧
    (analyze progDeepElseIf).1.has "Missing" = false ∧
    (analyze progDeepElseIf).2 = [] :=
  ⟨by decide, by decide, by decide⟩

/-- A component `Used`, referenced only in the third branch of an else-if
chain. -/
def refUsedNode : Node := .componentRef "Used" [] [] ⟨4, 5, 80, 84⟩

def ifThirdUsed : IfStatement :=
  .mk (.bool true ⟨4, 1, 70, 74⟩) [refUsedNode] none ⟨4, 1, 70, 90⟩

def ifSecondUsed : IfStatement :=
  .mk (.bool true ⟨3, 1, 50, 54⟩) [] (some (.elseIf ifThirdUsed)) ⟨3, 1, 50, 90⟩

def progDeepUsage : Program :=
  ⟨[.component ⟨"Used", [], [], [], ⟨1, 1, 0, 18⟩⟩,
    .page ⟨"home", "/",
      [.ifStmt (.mk (.bool true ⟨2, 20, 39, 43⟩) [] (some (.elseIf ifSecondUsed))
        ⟨2, 16, 35, 90⟩)], ⟨2, 1, 19, 90⟩⟩], ⟨1, 1, 0, 90⟩⟩

/-- C5 (code bug): the program declares N = 1 component and references it
(M = 1; the reference traversal that follows the claim's words finds
`Used`), so the claim predicts N − M = 0 unused-component warnings; yet
`analyze` emits exactly one such warning, because the resolver never
visits the third else-if branch where the only reference sits. -/
theorem c5_unused_warning_miscount :
    ((collectDeclarations ⟨.empty, []⟩ progDeepUsage).symbols.byKind .component).length = 1 ∧
    "Used" ∈ specRefs progDeepUsage ∧
    (analyze progDeepUsage).2 =
      [unusedWarnDiag ⟨"Used", .component, ⟨1, 1, 0, 18⟩, []⟩] :=
  ⟨by decide, by decide, by decide⟩

/-! ## Scanner lemmas: every iteration consumes between 1 and `cs.length`
characters -/

theorem head_some_length {l : List Char} {a : Char} (h : l.head? = some a) :
    1 ≤ l.length := by
  cases l with
  | nil => simp at h
  | cons _ _ => simp

theorem findStarSlash_le (l : List Char) (k : Nat) (h : findStarSlash l = some k) :
    k + 2 ≤ l.length := by
  induction l generalizing k with
  | nil => simp [findStarSlash] at h
  | cons c rest ih =>
    rw [findStarSlash] at h
    split at h
    · next hc =>
      have hcp : c = '*' ∧ rest.head? = some '/' := by simpa using hc
      have := head_some_length hcp.2
      have hk : 0 = k := Option.some.inj h
      simp only [List.length_cons]
      omega
    · rcases Option.map_eq_some'.mp h with ⟨m, hm, hmk⟩
      have := ih m hm
      simp only [List.length_cons]
      omega

theorem findClose_le (l : List Char) (k : Nat) (h : findClose l = some k) :
    k + 2 ≤ l.length := by
  induction l generalizing k with
  | nil => simp [findClose] at h
  | cons c rest ih =>
    rw [findClose] at h
    split at h
    · next hc =>
      have hcp : c = '\x7d' ∧ rest.head? = some '\x7d' := by simpa using hc
      have := head_some_length hcp.2
      have hk : 0 = k := Option.some.inj h
      simp only [List.length_cons]
      omega
    · rcases Option.map_eq_some'.mp h with ⟨m, hm, hmk⟩
      have := ih m hm
      simp only [List.length_cons]
      omega

theorem ctxChainGo_le (fuel : Nat) : ∀ cs : List Char, ctxChainGo fuel cs ≤ cs.length := by
  induction fuel with
  | zero => intro cs; simp [ctxChainGo]
  | succ f ih =>
    intro cs
    match cs with
    | [] => simp [ctxChainGo]
    | [a] => simp [ctxChainGo]
    | a :: b :: rest =>
      show (if a = '.' && (identStart b || upperStart b) then
          2 + identLen rest + ctxChainGo f (rest.drop (identLen rest)) else 0) ≤ _
      split
      · have h1 : identLen rest ≤ rest.length := takeWhile_length_le _ _
        have h2 := ih (rest.drop (identLen rest))
        simp only [List.length_drop] at h2
        simp only [List.length_cons]
        omega
      · simp

theorem ctxChain_le (cs : List Char) : ctxChain cs ≤ cs.length :=
  ctxChainGo_le _ cs

theorem blockCommentLexed_pos (l : List Char) :
    1 ≤ ((findStarSlash l).elim Lexed.invalid
          (fun k => Lexed.token .blockComment (4 + k))).consumed := by
  rcases findStarSlash l with _ | k <;> simp only [Option.elim, Lexed.consumed] <;> omega

theorem blockCommentLexed_le (l : List Char) :
    ((findStarSlash l).elim Lexed.invalid
        (fun k => Lexed.token .blockComment (4 + k))).consumed ≤ l.length + 2 := by
  rcases hfs : findStarSlash l with _ | k
  · simp only [Option.elim, Lexed.consumed]
    omega
  · have hk := findStarSlash_le _ _ hfs
    simp only [Option.elim, Lexed.consumed]
    omega

theorem classifyWord_consumed_pos (w : List Char) (n : Nat) (after : List Char)
    (h : 1 ≤ n) : 1 ≤ (classifyWord w n after).consumed := by
  rw [classifyWord]
  repeat' split
  all_goals simp only [Lexed.consumed]
  all_goals omega

theorem classifyWord_consumed_le (w : List Char) (n : Nat) (after : List Char) :
    (classifyWord w n after).consumed ≤ n + after.length := by
  have hc := ctxChain_le after
  rw [classifyWord]
  repeat' split
  all_goals simp only [Lexed.consumed]
  all_goals omega

theorem nextTokOther_consumed_pos (c : Char) (rest : List Char) :
    1 ≤ (nextTokOther c rest).consumed := by
  rw [nextTokOther]
  repeat' split
  all_goals first
  | (simp only [Lexed.consumed]; omega)
  | omega
  | exact classifyWord_consumed_pos _ _ _ (by omega)

theorem nextTokOther_consumed_le (c : Char) (rest : List Char) :
    (nextTokOther c rest).consumed ≤ rest.length + 1 := by
  rw [nextTokOther]
  repeat' split
  all_goals first
  | (simp only [Lexed.consumed]; omega)
  | omega
  | (have hd := takeWhile_length_le isDigit rest; try simp only [digitLen] at *;
     simp only [Lexed.consumed]; omega)
  | (refine le_trans (classifyWord_consumed_le _ _ _) ?_;
     have hi := takeWhile_length_le identRest rest;
     simp only [identLen, List.length_drop]; omega)
  | (have hi := takeWhile_length_le identRest rest; try simp only [identLen] at *;
     simp only [Lexed.consumed]; omega)

set_option maxHeartbeats 2000000 in
theorem nextTokArith_consumed_pos (c : Char) (rest : List Char) :
    1 ≤ (nextTokArith c rest).consumed := by
  rw [nextTokArith]
  repeat' split
  all_goals first
  | (simp only [Lexed.consumed]; omega)
  | omega
  | exact blockCommentLexed_pos _
  | exact nextTokOther_consumed_pos c rest

set_option maxHeartbeats 2000000 in
theorem nextTokArith_consumed_le (c : Char) (rest : List Char) :
    (nextTokArith c rest).consumed ≤ rest.length + 1 := by
  rw [nextTokArith]
  repeat' split
  all_goals first
  | (simp only [Lexed.consumed]; omega)
  | omega
  | exact nextTokOther_consumed_le c rest
  | (rename_i h; have hh := head_some_length h;
     have ht := takeWhile_length_le (fun x => x ≠ '\n') (rest.drop 1);
     simp only [List.length_drop] at ht; simp only [Lexed.consumed]; omega)
  | (rename_i h; have hh := head_some_length h;
     refine le_trans (blockCommentLexed_le (rest.drop 1)) ?_;
     simp only [List.length_drop]; omega)
  | (rename_i h; have h4 : (rest.take 4).length = 4 := by rw [h]; rfl
     rw [List.length_take] at h4; simp only [Lexed.consumed]; omega)
  | (rename_i h; have h4 : (rest.take 2).length = 2 := by rw [h]; rfl
     rw [List.length_take] at h4; simp only [Lexed.consumed]; omega)

set_option maxHeartbeats 2000000 in
theorem nextTokOp_consumed_pos (c : Char) (rest : List Char) :
    1 ≤ (nextTokOp c rest).consumed := by
  rw [nextTokOp]
  repeat' split
  all_goals first
  | (simp only [Lexed.consumed]; omega)
  | omega
  | exact nextTokArith_consumed_pos c rest

set_option maxHeartbeats 2000000 in
theorem nextTokOp_consumed_le (c : Char) (rest : List Char) :
    (nextTokOp c rest).consumed ≤ rest.length + 1 := by
  rw [nextTokOp]
  repeat' split
  all_goals first
  | (simp only [Lexed.consumed]; omega)
  | omega
  | exact nextTokArith_consumed_le c rest
  | (rename_i h; have hh := head_some_length h; simp only [Lexed.consumed]; omega)

set_option maxHeartbeats 2000000 in
theorem nextTok_consumed_pos (c : Char) (rest : List Char) :
    1 ≤ (nextTok (c :: rest)).consumed := by
  rw [nextTok]
  repeat' split
  all_goals first
  | (simp only [Lexed.consumed]; omega)
  | omega
  | exact nextTokOp_consumed_pos c rest

set_option maxHeartbeats 2000000 in
theorem nextTok_consumed_le (c : Char) (rest : List Char) :
    (nextTok (c :: rest)).consumed ≤ rest.length + 1 := by
  rw [nextTok]
  repeat' split
  all_goals first
  | (simp only [Lexed.consumed]; omega)
  | omega
  | exact nextTokOp_consumed_le c rest
  | (rename_i h; have hh := head_some_length h; simp only [Lexed.consumed]; omega)

/-- One scan iteration consumes at least one and at most all remaining
characters. -/
theorem scanStep_consumed_bounds (c : Char) (t : List Char) (pos line lineStart : Nat) :
    1 ≤ (scanStep (c :: t) pos line lineStart).2.1 ∧
    (scanStep (c :: t) pos line lineStart).2.1 ≤ t.length + 1 := by
  have h1 := nextTok_consumed_pos c t
  have h2 := nextTok_consumed_le c t
  rw [scanStep]
  rcases hnt : nextTok (c :: t) with ⟨k, n⟩ | ⟨n⟩ | ⟨⟩ <;>
    rw [hnt] at h1 h2 <;> simp only [Lexed.consumed] at h1 h2
  · cases k
    case blockComment =>
      dsimp only
      exact ⟨h1, h2⟩
    case newline =>
      dsimp only
      exact ⟨Nat.le_refl 1, by omega⟩
    case textOpen =>
      dsimp only
      rcases hfc : findClose ((c :: t).drop 2) with _ | j
      · dsimp only
        exact ⟨by simp, by simp⟩
      · dsimp only
        have hk := findClose_le _ _ hfc
        simp only [List.length_drop, List.length_cons] at hk
        refine ⟨by omega, ?_⟩
        try simp only [List.length_cons]
        omega
    all_goals exact ⟨h1, h2⟩
  · exact ⟨h1, h2⟩
  · dsimp only
    exact ⟨Nat.le_refl 1, by omega⟩

/-- Fuel irrelevance: any fuel bound strictly above the remaining length
computes the same scan as `scanLoop`'s canonical `length + 1` budget. -/
theorem scanGo_fuel : ∀ (fuel : Nat) (cs : List Char) (pos line lineStart : Nat),
    cs.length < fuel →
    scanGo fuel cs pos line lineStart = scanGo (cs.length + 1) cs pos line lineStart := by
  intro fuel
  induction fuel using Nat.strong_induction_on with
  | _ fuel ih =>
    intro cs pos line lineStart hlt
    cases fuel with
    | zero => exact absurd hlt (Nat.not_lt_zero _)
    | succ f =>
      cases cs with
      | nil => rfl
      | cons c t =>
        simp only [List.length_cons] at hlt
        conv_lhs => rw [scanGo]
        conv_rhs => rw [scanGo]
        rcases hs : scanStep (c :: t) pos line lineStart with ⟨⟨ts, es⟩, n, l2, s2⟩
        have hb := scanStep_consumed_bounds c t pos line lineStart
        rw [hs] at hb
        dsimp only at hb
        dsimp only
        rw [ih f (by omega) ((c :: t).drop n) (pos + n) l2 s2
              (by simp only [List.length_drop, List.length_cons]; omega),
            ih ((c :: t).length) (by simp only [List.length_cons]; omega)
              ((c :: t).drop n) (pos + n) l2 s2
              (by simp only [List.length_drop, List.length_cons]; omega)]

/-- The token list always ends with the zero-width end-of-input token whose
position is the end of the input. -/
theorem scanGo_last_eof : ∀ (fuel : Nat) (cs : List Char) (pos line lineStart : Nat),
    cs.length < fuel →
    ∃ l2 s2, (scanGo fuel cs pos line lineStart).1.getLast? =
      some (eofToken (pos + cs.length) l2 s2) := by
  intro fuel
  induction fuel using Nat.strong_induction_on with
  | _ fuel ih =>
    intro cs pos line lineStart hlt
    cases fuel with
    | zero => exact absurd hlt (Nat.not_lt_zero _)
    | succ f =>
      cases cs with
      | nil => exact ⟨line, lineStart, by simp [scanGo]⟩
      | cons c t =>
        simp only [List.length_cons] at hlt
        simp only [scanGo, List.length_cons]
        rcases hs : scanStep (c :: t) pos line lineStart with ⟨⟨ts, es⟩, n, l2, s2⟩
        have hb := scanStep_consumed_bounds c t pos line lineStart
        rw [hs] at hb
        dsimp only at hb
        rcases ih f (by omega) ((c :: t).drop n) (pos + n) l2 s2
            (by simp only [List.length_drop, List.length_cons]; omega)
          with ⟨l3, s3, hlast⟩
        refine ⟨l3, s3, ?_⟩
        dsimp only
        rcases hg : scanGo f ((c :: t).drop n) (pos + n) l2 s2 with ⟨ts', es'⟩
        rw [hg] at hlast
        dsimp only at hlast
        have hne : ts' ≠ [] := by
          intro he
          rw [he] at hlast
          simp at hlast
        rw [List.getLast?_append_of_ne_nil ts hne, hlast]
        have harith : pos + n + (List.drop n (c :: t)).length = pos + (t.length + 1) := by
          simp only [List.length_drop, List.length_cons]
          omega
        rw [harith]

/-! ## C3: text-content capture -/

/-- The convenient projection form of one text-block scanning step. -/
theorem scanStep_textOpen (rest : List Char) (pos line lineStart k : Nat)
    (hfc : findClose rest = some k) :
    scanStep ('\x7b' :: '\x7b' :: rest) pos line lineStart =
      ((⟨.textOpen, "\x7b\x7b", ⟨line, pos - lineStart + 1, pos, pos + 2⟩⟩ ::
          (if k = 0 then []
           else [⟨.textContent, String.mk (rest.take k),
                   ⟨(advanceLines (rest.take k) (pos + 2) line lineStart).1,
                    pos + 2 - (advanceLines (rest.take k) (pos + 2) line lineStart).2 + 1,
                    pos + 2, pos + 2 + k⟩⟩]) ++
          [⟨.textClose, "\x7d\x7d",
             ⟨(advanceLines (rest.take k) (pos + 2) line lineStart).1,
              pos + 2 + k - (advanceLines (rest.take k) (pos + 2) line lineStart).2 + 1,
              pos + 2 + k, pos + 4 + k⟩⟩], []),
       (4 + k, (advanceLines (rest.take k) (pos + 2) line lineStart).1,
               (advanceLines (rest.take k) (pos + 2) line lineStart).2)) := by
  rw [scanStep]
  rw [show nextTok ('\x7b' :: '\x7b' :: rest) = Lexed.token .textOpen 2 from rfl]
  dsimp only
  rw [show List.drop 2 ('\x7b' :: '\x7b' :: rest) = rest from rfl, hfc]

/-- C3 (amended): whenever a `\x7b\x7b` is followed by a matching `\x7d\x7d`
(`findClose rest = some k`), the scan emits the `TextOpen` token, then — only
when the enclosed span is non-empty — exactly one `TextContent` token whose
value is exactly the `k` characters strictly between the markers, verbatim
and unmodified, then the `TextClose` token, and continues scanning after the
closing marker.  An empty span (`k = 0`, source `\x7b\x7b\x7d\x7d`) produces
no `TextContent` token at all, which is the corrected part of the claim. -/
theorem c3_text_content_verbatim (rest : List Char) (pos line lineStart k : Nat)
    (hfc : findClose rest = some k) :
    scanLoop ('\x7b' :: '\x7b' :: rest) pos line lineStart =
      (⟨.textOpen, "\x7b\x7b", ⟨line, pos - lineStart + 1, pos, pos + 2⟩⟩ ::
         ((if k = 0 then []
           else [⟨.textContent, String.mk (rest.take k),
                   ⟨(advanceLines (rest.take k) (pos + 2) line lineStart).1,
                    pos + 2 - (advanceLines (rest.take k) (pos + 2) line lineStart).2 + 1,
                    pos + 2, pos + 2 + k⟩⟩]) ++
          ⟨.textClose, "\x7d\x7d",
             ⟨(advanceLines (rest.take k) (pos + 2) line lineStart).1,
              pos + 2 + k - (advanceLines (rest.take k) (pos + 2) line lineStart).2 + 1,
              pos + 2 + k, pos + 4 + k⟩⟩ ::
          (scanLoop (rest.drop (2 + k)) (pos + 4 + k)
             (advanceLines (rest.take k) (pos + 2) line lineStart).1
             (advanceLines (rest.take k) (pos + 2) line lineStart).2).1),
       (scanLoop (rest.drop (2 + k)) (pos + 4 + k)
          (advanceLines (rest.take k) (pos + 2) line lineStart).1
          (advanceLines (rest.take k) (pos + 2) line lineStart).2).2) := by
  have hdrop : List.drop (4 + k) ('\x7b' :: '\x7b' :: rest) = List.drop (2 + k) rest := by
    have h42 : 4 + k = (2 + k) + 1 + 1 := by omega
    rw [h42, List.drop_succ_cons, List.drop_succ_cons]
  have hk := findClose_le _ _ hfc
  show scanGo (('\x7b' :: '\x7b' :: rest).length + 1) _ _ _ _ = _
  conv_lhs => rw [scanGo]
  rw [scanStep_textOpen rest pos line lineStart k hfc]
  dsimp only
  rw [hdrop]
  have harith : pos + (4 + k) = pos + 4 + k := by omega
  rw [harith]
  rw [scanGo_fuel (('\x7b' :: '\x7b' :: rest).length) (rest.drop (2 + k)) (pos + 4 + k)
        (advanceLines (rest.take k) (pos + 2) line lineStart).1
        (advanceLines (rest.take k) (pos + 2) line lineStart).2
        (by simp only [List.length_drop, List.length_cons]; omega)]
  show (_ ++ _, _ ++ _) = _
  simp only [scanLoop, List.cons_append, List.append_assoc, List.singleton_append,
    List.nil_append]

/-- C3 counterexample to the unamended claim: in `\x7b\x7b\x7d\x7d` the
`\x7b\x7b` is followed by a matching `\x7d\x7d`, yet tokenize emits zero
`TextContent` tokens between `TextOpen` and `TextClose`, not exactly one. -/
theorem c3_counterexample :
    tokenize "\x7b\x7b\x7d\x7d" =
      .ok [⟨.textOpen, "\x7b\x7b", ⟨1, 1, 0, 2⟩⟩,
           ⟨.textClose, "\x7d\x7d", ⟨1, 3, 2, 4⟩⟩,
           ⟨.eof, "", ⟨1, 5, 4, 4⟩⟩] ∧
    (tokenize "\x7b\x7b\x7d\x7d").toOption.map
        (fun ts => ts.countP (fun t => t.kind == .textContent)) = some 0 := by
  constructor
  · decide
  · decide

/-- C3 witness: the specification scenario source. -/
theorem c3_text_content_verbatim_witness :
    findClose (" Hello $\x7bctx.name\x7d! \x7d\x7d".toList) = some 20 ∧
    (scanLoop ('\x7b' :: '\x7b' :: " Hello $\x7bctx.name\x7d! \x7d\x7d".toList) 0 1 0).1.filter
        (fun t => t.kind == .textContent) =
      [⟨.textContent, " Hello $\x7bctx.name\x7d! ", ⟨1, 3, 2, 22⟩⟩] := by
  refine ⟨by decide, ?_⟩
  rw [c3_text_content_verbatim (" Hello $\x7bctx.name\x7d! \x7d\x7d".toList) 0 1 0 20
        (by decide)]
  decide

/-! ## C7: error collection -/

/-- C7: `tokenize` returns `Err` exactly when at least one lexical error was
collected, the `Err` value is the whole collected error list in order of
occurrence, and an invalid character outside a text block contributes exactly
one "Unexpected character" error after which scanning continues with the
very next character. -/
theorem c7_error_collection :
    (∀ source : String,
        ((∃ ts, tokenize source = .ok ts) ↔ (scanLoop source.toList 0 1 0).2 = []) ∧
        ∀ es, tokenize source = .error es → es = (scanLoop source.toList 0 1 0).2) ∧
    (∀ (c : Char) (t : List Char) (pos line lineStart : Nat),
        nextTok (c :: t) = .invalid →
        scanLoop (c :: t) pos line lineStart =
          ((scanLoop t (pos + 1) line lineStart).1,
           unexpectedCharError c ⟨line, pos - lineStart + 1, pos, pos + 1⟩ ::
             (scanLoop t (pos + 1) line lineStart).2)) := by
  constructor
  · intro source
    rcases hsl : scanLoop source.toList 0 1 0 with ⟨toks, errs⟩
    have ht : tokenize source = if errs.isEmpty then .ok toks else .error errs := by
      rw [tokenize, hsl]
    cases errs with
    | nil =>
      refine ⟨⟨fun _ => rfl, fun _ => ⟨toks, by simp [ht]⟩⟩, ?_⟩
      intro es he
      rw [ht] at he
      simp at he
    | cons e es' =>
      refine ⟨⟨?_, ?_⟩, ?_⟩
      · rintro ⟨ts, hts⟩
        rw [ht] at hts
        simp at hts
      · intro h
        simp at h
      · intro es he
        rw [ht] at he
        simp at he
        exact he.symm
  · intro c t pos line lineStart h
    have hstep : scanStep (c :: t) pos line lineStart =
        (([], [unexpectedCharError c ⟨line, pos - lineStart + 1, pos, pos + 1⟩]),
         (1, line, lineStart)) := by
      rw [scanStep, h]
    show scanGo ((c :: t).length + 1) _ _ _ _ = _
    conv_lhs => rw [scanGo]
    rw [hstep]
    dsimp only
    rw [show List.drop 1 (c :: t) = t from rfl]
    rw [scanGo_fuel ((c :: t).length) t (pos + 1) line lineStart
          (by simp only [List.length_cons]; omega)]
    show (_ ++ _, _ ++ _) = _
    simp only [scanLoop, List.nil_append, List.singleton_append]

/-- C7 witness: `#~` has two consecutive invalid characters; the first
yields one error and scanning continues with the second. -/
theorem c7_error_collection_witness :
    nextTok ('#' :: ['~']) = Lexed.invalid ∧
    scanLoop ('#' :: ['~']) 0 1 0 =
      ((scanLoop ['~'] 1 1 0).1,
       unexpectedCharError '#' ⟨1, 1, 0, 1⟩ :: (scanLoop ['~'] 1 1 0).2) :=
  ⟨by decide, c7_error_collection.2 '#' ['~'] 0 1 0 (by decide)⟩

/-! ## Parser (`parser/grammar.rs`)

The recursive-descent parser walks the token array through a `current`
index.  A production is modelled as a function `List Token → Nat →
Option (Except ParseError α × Nat)`: the `Nat` is `current`, `Except`
carries the production's `Result`, and the outer `Option` is `none`
exactly when the Rust code would index the token slice out of bounds
(`peek` with `current ≥ tokens.len()`, or `previous` with `current = 0`)
and panic.  The mutual recursion is made structural with a fuel
parameter; running out of fuel returns a sentinel `ParseError`, never
`none`, so crash-freedom is a statement about every fuel. -/

/-- The parser action type: `current`-indexed state over the fixed token
array, `none` modelling an out-of-bounds panic. -/
def PM (α : Type) : Type :=
  List Token → Nat → Option (Except ParseError α × Nat)

/-- Sequencing of parser actions: a panic or an `Err` short-circuits. -/
def pmBind (m : PM α) (f : α → PM β) : PM β := fun ts pos =>
  match m ts pos with
  | none => none
  | some (.error e, p) => some (.error e, p)
  | some (.ok a, p) => f a ts p

def pmPure (a : α) : PM α := fun _ pos => some (.ok a, pos)

instance : Monad PM where
  pure := pmPure
  bind := pmBind

/-- Sentinel result when the structural fuel runs out; not a behavior of
the Rust code, which simply recurses. -/
def fuelOut : PM α := fun _ pos =>
  some (.error ⟨"parser fuel exhausted", ⟨0, 0, 0, 0⟩⟩, pos)

/-- `Parser::peek`: `self.tokens[self.current]`, a panic when out of range. -/
def peekM : PM Token := fun ts pos =>
  (ts.get? pos).map (fun t => (.ok t, pos))

/-- `Parser::current_location`. -/
def curLocM : PM Location := fun ts pos =>
  (ts.get? pos).map (fun t => (.ok t.location, pos))

/-- `Parser::is_at_end`: `peek().kind == Eof`. -/
def isAtEndM : PM Bool := fun ts pos =>
  (ts.get? pos).map (fun t => (.ok (t.kind == .eof), pos))

/-- `Parser::check`: `false` at end of input, else compare `peek`'s kind. -/
def checkM (k : TokenKind) : PM Bool := fun ts pos =>
  (ts.get? pos).map (fun t => (.ok (if t.kind == .eof then false else t.kind == k), pos))

/-- `Parser::previous`: `self.tokens[self.current - 1]`, a panic when
`current = 0` or out of range. -/
def previousM : PM Token := fun ts pos =>
  if pos = 0 then none
  else (ts.get? (pos - 1)).map (fun t => (.ok t, pos))

/-- `Parser::advance`: step past the current token unless at end, then
return `previous()`. -/
def advanceM : PM Token := fun ts pos =>
  match ts.get? pos with
  | none => none
  | some t0 =>
    let pos' := if t0.kind == .eof then pos else pos + 1
    if pos' = 0 then none
    else (ts.get? (pos' - 1)).map (fun t => (.ok t, pos'))

/-- `Parser::error`: an error naming the offending token's kind, at its
location. -/
def errM (msg : String) : PM α := fun ts pos =>
  (ts.get? pos).map
    (fun t => (.error ⟨msg ++ " (got " ++ t.kind.name ++ ")", t.location⟩, pos))

/-- `Parser::match_token`. -/
def matchM (k : TokenKind) : PM Bool := do
  let c ← checkM k
  if c then do
    let _ ← advanceM
    pure true
  else pure false

/-- `Parser::consume`. -/
def consumeM (k : TokenKind) (msg : String) : PM Token := do
  let c ← checkM k
  if c then advanceM else errM msg

/-- `Parser::location_from`. -/
def locFromM (start : Location) : PM Location := do
  let p ← previousM
  pure ⟨start.line, start.column, start.start, p.location.stop⟩

/-- The guarded two-token lookahead of `Parser::node`:
`lookahead_pos < self.tokens.len() && self.tokens[lookahead_pos].kind == Dot`. -/
def lookaheadDotM : PM Bool := fun ts pos =>
  some (.ok (match ts.get? (pos + 1) with
             | some t => t.kind == .dot
             | none => false), pos)

/-- Rust `char::is_whitespace`: true exactly on the code points with the
Unicode `White_Space` property (U+0009..U+000D, U+0020, U+0085, U+00A0,
U+1680, U+2000..U+200A, U+2028, U+2029, U+202F, U+205F, U+3000). -/
def rustIsWhitespace (c : Char) : Bool :=
  let n := c.toNat
  (0x09 ≤ n && n ≤ 0x0D) || n == 0x20 || n == 0x85 || n == 0xA0 ||
  n == 0x1680 || (0x2000 ≤ n && n ≤ 0x200A) || n == 0x2028 || n == 0x2029 ||
  n == 0x202F || n == 0x205F || n == 0x3000

/-- `str::trim` on the character list: drop Unicode whitespace
(`char::is_whitespace`) from both ends. -/
def trimChars (cs : List Char) : List Char :=
  ((cs.dropWhile rustIsWhitespace).reverse.dropWhile rustIsWhitespace).reverse

/-- `str::trim().to_string()`. -/
def trimString (s : String) : String := String.mk (trimChars s.toList)

/-- `Parser::expr_to_string`. -/
def exprToString : Expression → String
  | .contextPath p _ => p
  | .ident n _ => n
  | .member o prop _ => exprToString o ++ "." ++ prop
  | _ => ""

/-- `Parser::text_node`: consume `TextOpen`, an optional `TextContent`
whose value is trimmed, and `TextClose`; never dynamic. -/
def pTextNode : PM Node := do
  let start ← curLocM
  let _ ← consumeM .textOpen "Expected '\x7b\x7b'"
  let c ← checkM .textContent
  let content ←
    if c then do
      let tok ← advanceM
      pure tok.value
    else pure ""
  let _ ← consumeM .textClose "Expected '\x7d\x7d'"
  let loc ← locFromM start
  pure (.text (trimString content) false loc)

/-- `Parser::dynamic_text`. -/
def pDynamicText : PM Node := do
  let start ← curLocM
  let tok ← consumeM .contextPath "Expected context path"
  let loc ← locFromM start
  pure (.text tok.value true loc)

/-- `Parser::slot`. -/
def pSlot : PM Node := do
  let start ← curLocM
  let _ ← consumeM .slotTok "Expected '@slot'"
  let loc ← locFromM start
  pure (.slot loc)

/-- `Parser::parameter`. -/
def pParameter : PM Parameter := do
  let start ← curLocM
  let n ← consumeM .identifier "Expected parameter name"
  let _ ← consumeM .colon "Expected ':'"
  let b ← consumeM .identifier "Expected binding name"
  let loc ← locFromM start
  pure ⟨n.value, b.value, loc⟩

/-- The `loop` of `Parser::parameter_list`. -/
def pParamsLoop : Nat → List Parameter → PM (List Parameter)
  | 0, _ => fuelOut
  | f + 1, acc => do
    let p ← pParameter
    let m ← matchM .comma
    if m then pParamsLoop f (acc ++ [p]) else pure (acc ++ [p])

/-- `Parser::parameter_list`. -/
def pParameterList (fuel : Nat) : PM (List Parameter) := do
  let _ ← consumeM .lparen "Expected '('"
  let cr ← checkM .rparen
  let params ← if cr then pure [] else pParamsLoop fuel []
  let _ ← consumeM .rparen "Expected ')'"
  pure params

mutual

/-- `Parser::expression`. -/
def pExpression : Nat → PM Expression
  | 0 => fuelOut
  | f + 1 => pTernary f

/-- `Parser::ternary`. -/
def pTernary : Nat → PM Expression
  | 0 => fuelOut
  | f + 1 => do
    let start ← curLocM
    let e ← pOr f
    let q ← matchM .question
    if q then do
      let cons ← pExpression f
      let _ ← consumeM .colon "Expected ':' in ternary"
      let alt ← pExpression f
      let loc ← locFromM start
      pure (.ternary e cons alt loc)
    else pure e

/-- `Parser::or`. -/
def pOr : Nat → PM Expression
  | 0 => fuelOut
  | f + 1 => do
    let start ← curLocM
    let left ← pAnd f
    pOrLoop f start left

/-- The `while` of `Parser::or`. -/
def pOrLoop : Nat → Location → Expression → PM Expression
  | 0, _, _ => fuelOut
  | f + 1, start, left => do
    let m ← matchM .orOp
    if m then do
      let right ← pAnd f
      let loc ← locFromM start
      pOrLoop f start (.binary .or left right loc)
    else pure left

/-- `Parser::and`. -/
def pAnd : Nat → PM Expression
  | 0 => fuelOut
  | f + 1 => do
    let start ← curLocM
    let left ← pEquality f
    pAndLoop f start left

/-- The `while` of `Parser::and`. -/
def pAndLoop : Nat → Location → Expression → PM Expression
  | 0, _, _ => fuelOut
  | f + 1, start, left => do
    let m ← matchM .andOp
    if m then do
      let right ← pEquality f
      let loc ← locFromM start
      pAndLoop f start (.binary .and left right loc)
    else pure left

/-- `Parser::equality`. -/
def pEquality : Nat → PM Expression
  | 0 => fuelOut
  | f + 1 => do
    let start ← curLocM
    let left ← pComparison f
    pEqLoop f start left

/-- The `loop` of `Parser::equality`. -/
def pEqLoop : Nat → Location → Expression → PM Expression
  | 0, _, _ => fuelOut
  | f + 1, start, left => do
    let m1 ← matchM .eqOp
    if m1 then do
      let right ← pComparison f
      let loc ← locFromM start
      pEqLoop f start (.binary .eq left right loc)
    else do
      let m2 ← matchM .neOp
      if m2 then do
        let right ← pComparison f
        let loc ← locFromM start
        pEqLoop f start (.binary .ne left right loc)
      else pure left

/-- `Parser::comparison`. -/
def pComparison : Nat → PM Expression
  | 0 => fuelOut
  | f + 1 => do
    let start ← curLocM
    let left ← pAdditive f
    pCmpLoop f start left

/-- The `loop` of `Parser::comparison`. -/
def pCmpLoop : Nat → Location → Expression → PM Expression
  | 0, _, _ => fuelOut
  | f + 1, start, left => do
    let m1 ← matchM .gtOp
    if m1 then do
      let right ← pAdditive f
      let loc ← locFromM start
      pCmpLoop f start (.binary .gt left right loc)
    else do
      let m2 ← matchM .geOp
      if m2 then do
        let right ← pAdditive f
        let loc ← locFromM start
        pCmpLoop f start (.binary .ge left right loc)
      else do
        let m3 ← matchM .ltOp
        if m3 then do
          let right ← pAdditive f
          let loc ← locFromM start
          pCmpLoop f start (.binary .lt left right loc)
        else do
          let m4 ← matchM .leOp
          if m4 then do
            let right ← pAdditive f
            let loc ← locFromM start
            pCmpLoop f start (.binary .le left right loc)
          else pure left

/-- `Parser::additive`. -/
def pAdditive : Nat → PM Expression
  | 0 => fuelOut
  | f + 1 => do
    let start ← curLocM
    let left ← pPostfix f
    pAddLoop f start left

/-- The `loop` of `Parser::additive`. -/
def pAddLoop : Nat → Location → Expression → PM Expression
  | 0, _, _ => fuelOut
  | f + 1, start, left => do
    let m1 ← matchM .plus
    if m1 then do
      let right ← pPostfix f
      let loc ← locFromM start
      pAddLoop f start (.binary .add left right loc)
    else do
      let m2 ← matchM .minus
      if m2 then do
        let right ← pPostfix f
        let loc ← locFromM start
        pAddLoop f start (.binary .sub left right loc)
      else pure left

/-- `Parser::postfix`. -/
def pPostfix : Nat → PM Expression
  | 0 => fuelOut
  | f + 1 => do
    let start ← curLocM
    let e ← pPrimary f
    pPostfixLoop f start e

/-- The `loop` of `Parser::postfix`: member access and calls on identifiers. -/
def pPostfixLoop : Nat → Location → Expression → PM Expression
  | 0, _, _ => fuelOut
  | f + 1, start, expr => do
    let m ← matchM .dot
    if m then do
      let prop ← consumeM .identifier "Expected property name after '.'"
      let loc ← locFromM start
      pPostfixLoop f start (.member expr prop.value loc)
    else do
      let c ← checkM .lparen
      if c then
        match expr with
        | .ident name _ => do
          let _ ← advanceM
          let cr ← checkM .rparen
          let args ← if cr then pure [] else pArgsLoop f []
          let _ ← consumeM .rparen "Expected ')'"
          let loc ← locFromM start
          pPostfixLoop f start (.call name args loc)
        | e2 => pure e2
      else pure expr

/-- The argument `loop` of `Parser::postfix`. -/
def pArgsLoop : Nat → List Expression → PM (List Expression)
  | 0, _ => fuelOut
  | f + 1, acc => do
    let e ← pExpression f
    let m ← matchM .comma
    if m then pArgsLoop f (acc ++ [e]) else pure (acc ++ [e])

/-- `Parser::primary`. -/
def pPrimary : Nat → PM Expression
  | 0 => fuelOut
  | f + 1 => do
    let start ← curLocM
    let c1 ← checkM .strLit
    if c1 then do
      let t ← advanceM
      let loc ← locFromM start
      pure (.str t.value loc)
    else do
      let c2 ← checkM .numLit
      if c2 then do
        let t ← advanceM
        let loc ← locFromM start
        pure (.num t.value loc)
      else do
        let c3 ← checkM .trueLit
        if c3 then do
          let _ ← advanceM
          let loc ← locFromM start
          pure (.bool true loc)
        else do
          let c4 ← checkM .falseLit
          if c4 then do
            let _ ← advanceM
            let loc ← locFromM start
            pure (.bool false loc)
          else do
            let c5 ← checkM .contextPath
            if c5 then do
              let t ← advanceM
              let loc ← locFromM start
              pure (.contextPath t.value loc)
            else do
              let c6 ← checkM .identifier
              if c6 then do
                let t ← advanceM
                let loc ← locFromM start
                pure (.ident t.value loc)
              else do
                let c7 ← checkM .lparen
                if c7 then do
                  let _ ← advanceM
                  let e ← pExpression f
                  let _ ← consumeM .rparen "Expected ')'"
                  pure e
                else errM "Expected expression"

/-- `Parser::attribute`. -/
def pAttribute : Nat → PM Attr
  | 0 => fuelOut
  | f + 1 => do
    let start ← curLocM
    let n ← consumeM .identifier "Expected attribute name"
    let _ ← consumeM .colon "Expected ':'"
    let v ← pExpression f
    let loc ← locFromM start
    pure ⟨n.value, v, loc⟩

/-- The `loop` of `Parser::attribute_list`. -/
def pAttrsLoop : Nat → List Attr → PM (List Attr)
  | 0, _ => fuelOut
  | f + 1, acc => do
    let a ← pAttribute f
    let m ← matchM .comma
    if m then pAttrsLoop f (acc ++ [a]) else pure (acc ++ [a])

/-- `Parser::attribute_list`. -/
def pAttributeList : Nat → PM (List Attr)
  | 0 => fuelOut
  | f + 1 => do
    let _ ← consumeM .lbracket "Expected '['"
    let cr ← checkM .rbracket
    let attrs ← if cr then pure [] else pAttrsLoop f []
    let _ ← consumeM .rbracket "Expected ']'"
    pure attrs

/-- `Parser::parameter_binding`. -/
def pParameterBinding : Nat → PM ParameterBinding
  | 0 => fuelOut
  | f + 1 => do
    let start ← curLocM
    let n ← consumeM .identifier "Expected parameter name"
    let _ ← consumeM .colon "Expected ':'"
    let v ← pExpression f
    let loc ← locFromM start
    pure ⟨n.value, v, loc⟩

/-- The `loop` of `Parser::parameter_binding_list`. -/
def pBindingsLoop : Nat → List ParameterBinding → PM (List ParameterBinding)
  | 0, _ => fuelOut
  | f + 1, acc => do
    let b ← pParameterBinding f
    let m ← matchM .comma
    if m then pBindingsLoop f (acc ++ [b]) else pure (acc ++ [b])

/-- `Parser::parameter_binding_list`. -/
def pParameterBindingList : Nat → PM (List ParameterBinding)
  | 0 => fuelOut
  | f + 1 => do
    let _ ← consumeM .lparen "Expected '('"
    let cr ← checkM .rparen
    let bindings ← if cr then pure [] else pBindingsLoop f []
    let _ ← consumeM .rparen "Expected ')'"
    pure bindings

/-- `Parser::dynamic_expression_text`. -/
def pDynamicExpressionText : Nat → PM Node
  | 0 => fuelOut
  | f + 1 => do
    let start ← curLocM
    let e ← pExpression f
    let loc ← locFromM start
    pure (.text (exprToString e) true loc)

/-- `Parser::if_statement`. -/
def pIfStatement : Nat → PM IfStatement
  | 0 => fuelOut
  | f + 1 => do
    let start ← curLocM
    let _ ← consumeM .ifTok "Expected '@if'"
    let cond ← pExpression f
    let cons ← pBlock f
    let m ← matchM .elseTok
    let alt ←
      if m then do
        let c ← checkM .ifTok
        if c then do
          let nested ← pIfStatement f
          pure (some (Alternate.elseIf nested))
        else do
          let b ← pBlock f
          pure (some (Alternate.block b))
      else pure none
    let loc ← locFromM start
    pure (.mk cond cons alt loc)

/-- `Parser::each_statement` (the `EachStatement` payload is inlined into
`Node.eachStmt`). -/
def pEachStatement : Nat → PM Node
  | 0 => fuelOut
  | f + 1 => do
    let start ← curLocM
    let _ ← consumeM .eachTok "Expected '@each'"
    let iterable ← pExpression f
    let _ ← consumeM .asTok "Expected 'as'"
    let item ← consumeM .identifier "Expected item name"
    let m ← matchM .comma
    let idx ←
      if m then do
        let n ← consumeM .identifier "Expected index name"
        pure (some n.value)
      else pure none
    let body ← pBlock f
    let loc ← locFromM start
    pure (.eachStmt iterable item.value idx body loc)

/-- `Parser::node`. -/
def pNode : Nat → PM Node
  | 0 => fuelOut
  | f + 1 => do
    let c1 ← checkM .ifTok
    if c1 then do
      let s ← pIfStatement f
      pure (.ifStmt s)
    else do
      let c2 ← checkM .eachTok
      if c2 then pEachStatement f
      else do
        let c3 ← checkM .slotTok
        if c3 then pSlot
        else do
          let c4 ← checkM .textOpen
          if c4 then pTextNode
          else do
            let c5 ← checkM .contextPath
            if c5 then pDynamicText
            else do
              let c6 ← checkM .componentName
              if c6 then pComponentRef f
              else do
                let c7 ← checkM .identifier
                if c7 then do
                  let la ← lookaheadDotM
                  if la then pDynamicExpressionText f else pElement f
                else errM "Expected element, component, or directive"

/-- `Parser::element` (the `Element` payload is inlined into
`Node.element`). -/
def pElement : Nat → PM Node
  | 0 => fuelOut
  | f + 1 => do
    let start ← curLocM
    let tag ← consumeM .identifier "Expected tag name"
    let cb ← checkM .lbracket
    let attrs ← if cb then pAttributeList f else pure []
    let ct ← checkM .textOpen
    let children ←
      if ct then do
        let t ← pTextNode
        pure [t]
      else do
        let cl ← checkM .lbrace
        if cl then pBlock f else pure []
    let loc ← locFromM start
    pure (.element tag.value attrs children loc)

/-- `Parser::component_ref` (the `ComponentRef` payload is inlined into
`Node.componentRef`). -/
def pComponentRef : Nat → PM Node
  | 0 => fuelOut
  | f + 1 => do
    let start ← curLocM
    let name ← consumeM .componentName "Expected component name"
    let cp ← checkM .lparen
    let params ← if cp then pParameterBindingList f else pure []
    let cl ← checkM .lbrace
    let children ← if cl then pBlock f else pure []
    let loc ← locFromM start
    pure (.componentRef name.value params children loc)

/-- The `while` of `Parser::block`. -/
def pBlockLoop : Nat → List Node → PM (List Node)
  | 0, _ => fuelOut
  | f + 1, acc => do
    let cr ← checkM .rbrace
    let ae ← isAtEndM
    if !cr && !ae then do
      let n ← pNode f
      pBlockLoop f (acc ++ [n])
    else pure acc

/-- `Parser::block`. -/
def pBlock : Nat → PM (List Node)
  | 0 => fuelOut
  | f + 1 => do
    let _ ← consumeM .lbrace "Expected '\x7b'"
    let nodes ← pBlockLoop f []
    let _ ← consumeM .rbrace "Expected '\x7d'"
    pure nodes

/-- `Parser::component_decl`. -/
def pComponentDecl : Nat → PM ComponentDecl
  | 0 => fuelOut
  | f + 1 => do
    let start ← curLocM
    let _ ← consumeM .component "Expected 'component'"
    let n ← consumeM .componentName "Expected component name"
    let cp ← checkM .lparen
    let params ← if cp then pParameterList f else pure []
    let cb ← checkM .lbracket
    let attrs ← if cb then pAttributeList f else pure []
    let body ← pBlock f
    let loc ← locFromM start
    pure ⟨n.value, params, attrs, body, loc⟩

/-- `Parser::section_decl`. -/
def pSectionDecl : Nat → PM SectionDecl
  | 0 => fuelOut
  | f + 1 => do
    let start ← curLocM
    let _ ← consumeM .sectionTok "Expected 'section'"
    let n ← consumeM .componentName "Expected section name"
    let body ← pBlock f
    let loc ← locFromM start
    pure ⟨n.value, body, loc⟩

/-- `Parser::page_decl`. -/
def pPageDecl : Nat → PM PageDecl
  | 0 => fuelOut
  | f + 1 => do
    let start ← curLocM
    let _ ← consumeM .page "Expected 'page'"
    let n ← consumeM .identifier "Expected page name"
    let route ← consumeM .strLit "Expected route string"
    let body ← pBlock f
    let loc ← locFromM start
    pure ⟨n.value, route.value, body, loc⟩

/-- `Parser::declaration`. -/
def pDeclaration : Nat → PM Declaration
  | 0 => fuelOut
  | f + 1 => do
    let c1 ← checkM .component
    if c1 then do
      let d ← pComponentDecl f
      pure (.component d)
    else do
      let c2 ← checkM .sectionTok
      if c2 then do
        let d ← pSectionDecl f
        pure (.sectionDecl d)
      else do
        let c3 ← checkM .page
        if c3 then do
          let d ← pPageDecl f
          pure (.page d)
        else errM "Expected 'component', 'section', or 'page'"

end

/-- The `while` of `Parser::synchronize`. -/
def pSyncLoop : Nat → PM Unit
  | 0 => fuelOut
  | f + 1 => do
    let ae ← isAtEndM
    if ae then pure ()
    else do
      let p ← previousM
      if p.kind == .rbrace then pure ()
      else do
        let t ← peekM
        if t.kind == .component || t.kind == .sectionTok || t.kind == .page then pure ()
        else do
          let _ ← advanceM
          pSyncLoop f

/-- `Parser::synchronize`. -/
def pSynchronize (fuel : Nat) : PM Unit := do
  let _ ← advanceM
  pSyncLoop fuel

/-- The `while` of `Parser::parse`: parse declarations, catching each
declaration error and recovering via `synchronize`. -/
def pParseLoop : Nat → List Declaration → List ParseError → List Token → Nat →
    Option ((List Declaration × List ParseError) × Nat)
  | 0, body, errs, _, pos =>
    some ((body, errs ++ [⟨"parser fuel exhausted", ⟨0, 0, 0, 0⟩⟩]), pos)
  | f + 1, body, errs, ts, pos =>
    match ts.get? pos with
    | none => none
    | some t =>
      if t.kind == .eof then some ((body, errs), pos)
      else
        match pDeclaration f ts pos with
        | none => none
        | some (.ok d, pos') => pParseLoop f (body ++ [d]) errs ts pos'
        | some (.error e, pos') =>
          match pSynchronize f ts pos' with
          | none => none
          | some (_, pos'') => pParseLoop f body (errs ++ [e]) ts pos''

/-- `Parser::parse` (via `parser::parse`): run the declaration loop from
index 0 and package the result; `none` is an out-of-bounds token access. -/
def pParse (fuel : Nat) (ts : List Token) : Option (Except (List ParseError) Program) :=
  match ts.get? 0 with
  | none => none
  | some t0 =>
    match pParseLoop fuel [] [] ts 0 with
    | none => none
    | some ((body, errs), pos) =>
      if errs.isEmpty then
        match ts.get? pos with
        | none => none
        | some tEnd =>
          some (.ok ⟨body, ⟨t0.location.line, t0.location.column, t0.location.start,
                            tEnd.location.stop⟩⟩)
      else some (.error errs)

/-! ## C9 infrastructure: the parser never reads out of bounds -/

/-- The shape `tokenize` guarantees: the last token is the end-of-input
marker. -/
def GoodTokens (ts : List Token) : Prop :=
  ∃ t, ts.getLast? = some t ∧ t.kind = .eof

/-- Safety contract of a parser action started at `pos`: it returns (no
out-of-bounds access), the cursor does not move backwards, it stays within
the array, and a successful outcome has consumed at least one token since
the start of the enclosing production. -/
def POk (ts : List Token) (pos : Nat) (r : Option (Except ParseError α × Nat)) : Prop :=
  ∃ x p', r = some (x, p') ∧ pos ≤ p' ∧ p' < ts.length ∧
    (∀ a, x = Except.ok a → 1 ≤ p')

theorem pmBind_def (m : PM α) (f : α → PM β) : m >>= f = pmBind m f := rfl

theorem pmPure_def (a : α) : (pure a : PM α) = pmPure a := rfl

theorem pmBind_ok_eq {m : PM α} {f : α → PM β} {ts : List Token} {pos : Nat}
    {a : α} {p : Nat} (hm : m ts pos = some (.ok a, p)) :
    pmBind m f ts pos = f a ts p := by
  unfold pmBind
  rw [hm]

theorem pmBind_err_eq {m : PM α} {f : α → PM β} {ts : List Token} {pos : Nat}
    {e : ParseError} {p : Nat} (hm : m ts pos = some (.error e, p)) :
    pmBind m f ts pos = some (.error e, p) := by
  unfold pmBind
  rw [hm]

theorem pmBind_POk {m : PM α} {f : α → PM β} {ts : List Token} {pos : Nat}
    (hm : POk ts pos (m ts pos))
    (hf : ∀ a p, pos ≤ p → p < ts.length → 1 ≤ p → POk ts p (f a ts p)) :
    POk ts pos (pmBind m f ts pos) := by
  rcases hm with ⟨x, p', hr, h1, h2, h3⟩
  cases x with
  | error e =>
    refine ⟨.error e, p', ?_, h1, h2, ?_⟩
    · rw [pmBind_err_eq hr]
    · intro a ha
      cases ha
  | ok a =>
    rcases hf a p' h1 h2 (h3 a rfl) with ⟨y, q, hq, hq1, hq2, hq3⟩
    exact ⟨y, q, by rw [pmBind_ok_eq hr]; exact hq, le_trans h1 hq1, hq2, hq3⟩

theorem get?_of_lt {ts : List Token} {pos : Nat} (h : pos < ts.length) :
    ∃ t, ts.get? pos = some t :=
  ⟨ts.get ⟨pos, h⟩, List.get?_eq_get h⟩

theorem lt_of_get? {ts : List Token} {pos : Nat} {t : Token}
    (h : ts.get? pos = some t) : pos < ts.length := by
  rcases List.get?_eq_some.mp h with ⟨hlt, _⟩
  exact hlt

/-- With the end-of-input marker last, a non-`eof` token is never the last
one, so stepping past it stays within the array. -/
theorem good_step {ts : List Token} {pos : Nat} {t : Token}
    (hg : GoodTokens ts) (h : ts.get? pos = some t) (hk : ¬t.kind = .eof) :
    pos + 1 < ts.length := by
  rcases hg with ⟨te, hlast, hke⟩
  have hpos := lt_of_get? h
  by_contra hcon
  have heq : pos = ts.length - 1 := by omega
  rw [List.getLast?_eq_getElem?] at hlast
  rw [List.get?_eq_getElem?, heq] at h
  rw [h] at hlast
  cases hlast
  exact hk hke

theorem checkM_ok {ts : List Token} {pos : Nat} (k : TokenKind)
    (hpos : pos < ts.length) :
    ∃ b, checkM k ts pos = some (.ok b, pos) ∧
      (b = true → ∃ t, ts.get? pos = some t ∧ t.kind = k ∧ ¬t.kind = .eof) := by
  rcases get?_of_lt hpos with ⟨t, ht⟩
  refine ⟨_, by unfold checkM; rw [ht]; rfl, ?_⟩
  intro hb
  by_cases he : t.kind = .eof
  · simp [he] at hb
  · refine ⟨t, ht, ?_, he⟩
    simp [he] at hb
    exact hb

theorem isAtEndM_ok {ts : List Token} {pos : Nat} (hpos : pos < ts.length) :
    ∃ b, isAtEndM ts pos = some (.ok b, pos) ∧
      (b = false → ∃ t, ts.get? pos = some t ∧ ¬t.kind = .eof) := by
  rcases get?_of_lt hpos with ⟨t, ht⟩
  refine ⟨_, by unfold isAtEndM; rw [ht]; rfl, ?_⟩
  intro hb
  refine ⟨t, ht, ?_⟩
  intro he
  simp [he] at hb

theorem curLocM_ok {ts : List Token} {pos : Nat} (hpos : pos < ts.length) :
    ∃ l, curLocM ts pos = some (.ok l, pos) := by
  rcases get?_of_lt hpos with ⟨t, ht⟩
  exact ⟨t.location, by unfold curLocM; rw [ht]; rfl⟩

theorem peekM_ok {ts : List Token} {pos : Nat} (hpos : pos < ts.length) :
    ∃ t, peekM ts pos = some (.ok t, pos) ∧ ts.get? pos = some t := by
  rcases get?_of_lt hpos with ⟨t, ht⟩
  exact ⟨t, by unfold peekM; rw [ht]; rfl, ht⟩

theorem errM_ok {α : Type} {ts : List Token} {pos : Nat} (msg : String)
    (hpos : pos < ts.length) :
    ∃ e, errM (α := α) msg ts pos = some (.error e, pos) := by
  rcases get?_of_lt hpos with ⟨t, ht⟩
  exact ⟨_, by unfold errM; rw [ht]; rfl⟩

theorem errM_POk {α : Type} {ts : List Token} {pos : Nat} (msg : String)
    (hpos : pos < ts.length) : POk ts pos (errM (α := α) msg ts pos) := by
  rcases errM_ok (α := α) msg hpos with ⟨e, he⟩
  exact ⟨.error e, pos, he, le_refl _, hpos, by intro a ha; cases ha⟩

theorem pmPure_POk {ts : List Token} {pos : Nat} (a : α)
    (hpos : pos < ts.length) (h1 : 1 ≤ pos) : POk ts pos (pmPure a ts pos) :=
  ⟨.ok a, pos, rfl, le_refl _, hpos, fun _ _ => h1⟩

theorem fuelOut_POk {ts : List Token} {pos : Nat} (hpos : pos < ts.length) :
    POk ts pos (fuelOut (α := α) ts pos) :=
  ⟨.error _, pos, rfl, le_refl _, hpos, by intro a ha; cases ha⟩

theorem previousM_ok {ts : List Token} {pos : Nat}
    (hpos : pos < ts.length) (h1 : 1 ≤ pos) :
    ∃ t, previousM ts pos = some (.ok t, pos) := by
  rcases get?_of_lt (show pos - 1 < ts.length by omega) with ⟨t, ht⟩
  refine ⟨t, ?_⟩
  unfold previousM
  rw [if_neg (by omega), ht]
  rfl

theorem locFromM_ok {ts : List Token} {pos : Nat} (start : Location)
    (hpos : pos < ts.length) (h1 : 1 ≤ pos) :
    ∃ l, locFromM start ts pos = some (.ok l, pos) := by
  rcases previousM_ok hpos h1 with ⟨t, ht⟩
  refine ⟨⟨start.line, start.column, start.start, t.location.stop⟩, ?_⟩
  unfold locFromM
  rw [pmBind_def, pmBind_ok_eq ht]
  rfl

theorem locFromM_POk {ts : List Token} {pos : Nat} (start : Location)
    (hpos : pos < ts.length) (h1 : 1 ≤ pos) :
    POk ts pos (locFromM start ts pos) := by
  rcases locFromM_ok start hpos h1 with ⟨l, hl⟩
  exact ⟨.ok l, pos, hl, le_refl _, hpos, fun _ _ => h1⟩

/-- `advance` is safe whenever the parser is not at the very start while
already at end of input; it never moves past the end-of-input marker. -/
theorem advanceM_ok {ts : List Token} {pos : Nat}
    (hg : GoodTokens ts) (hpos : pos < ts.length)
    (hor : 1 ≤ pos ∨ (∃ t, ts.get? pos = some t ∧ ¬t.kind = .eof)) :
    ∃ tk p', advanceM ts pos = some (.ok tk, p') ∧ pos ≤ p' ∧ p' < ts.length ∧
      1 ≤ p' ∧ p' ≤ pos + 1 := by
  rcases get?_of_lt hpos with ⟨t0, ht0⟩
  by_cases he : t0.kind = .eof
  · have h1 : 1 ≤ pos := by
      rcases hor with h | ⟨t, ht, hk⟩
      · exact h
      · rw [ht0] at ht
        cases ht
        exact absurd he hk
    rcases get?_of_lt (show pos - 1 < ts.length by omega) with ⟨tp, htp⟩
    refine ⟨tp, pos, ?_, le_refl _, hpos, h1, by omega⟩
    unfold advanceM
    rw [ht0]
    simp only [he, beq_self_eq_true, if_true, if_neg (by omega : ¬pos = 0), htp]
    rfl
  · have hlt := good_step hg ht0 he
    rcases get?_of_lt (show pos + 1 - 1 < ts.length by omega) with ⟨tp, htp⟩
    refine ⟨tp, pos + 1, ?_, by omega, hlt, by omega, by omega⟩
    unfold advanceM
    rw [ht0]
    have hb : (t0.kind == TokenKind.eof) = false := by
      cases hq : t0.kind == TokenKind.eof
      · rfl
      · exact absurd (by simpa using hq) he
    simp only [hb, Bool.false_eq_true, if_false, if_neg (by omega : ¬pos + 1 = 0), htp]
    rfl

/-- `match_token` never crashes and only steps over a token of the wanted
kind. -/
theorem matchM_ok {ts : List Token} {pos : Nat} (k : TokenKind)
    (hg : GoodTokens ts) (hpos : pos < ts.length) :
    ∃ b p', matchM k ts pos = some (.ok b, p') ∧ pos ≤ p' ∧ p' < ts.length ∧
      (b = true → p' = pos + 1) ∧ (b = false → p' = pos) := by
  rcases checkM_ok k hpos with ⟨b, hc, hb⟩
  cases b with
  | false =>
    refine ⟨false, pos, ?_, le_refl _, hpos, ?_, fun _ => rfl⟩
    · unfold matchM
      rw [pmBind_def, pmBind_ok_eq hc]
      rfl
    · intro h
      cases h
  | true =>
    rcases hb rfl with ⟨t, ht, hk, hne⟩
    rcases advanceM_ok hg hpos (Or.inr ⟨t, ht, hne⟩) with ⟨tk, p', ha, hle, hlt, h1, hup⟩
    have hp' : p' = pos + 1 := by
      rcases get?_of_lt hpos with ⟨t0, ht0⟩
      rw [ht0] at ht
      cases ht
      unfold advanceM at ha
      rw [ht0] at ha
      have hb0 : (t.kind == TokenKind.eof) = false := by
        cases hq : t.kind == TokenKind.eof
        · rfl
        · exact absurd (by simpa using hq) hne
      simp only [hb0, Bool.false_eq_true, if_false,
        if_neg (by omega : ¬pos + 1 = 0)] at ha
      rcases Option.map_eq_some'.mp ha with ⟨u, _, hu⟩
      cases hu
      rfl
    refine ⟨true, p', ?_, hle, hlt, fun _ => hp', ?_⟩
    · unfold matchM
      rw [pmBind_def, pmBind_ok_eq hc]
      show pmBind advanceM _ ts pos = _
      rw [pmBind_ok_eq ha]
      rfl
    · intro h
      cases h

/-- `consume` never crashes: it either errors in place or steps one token. -/
theorem consumeM_ok {ts : List Token} {pos : Nat} (k : TokenKind) (msg : String)
    (hg : GoodTokens ts) (hpos : pos < ts.length) :
    (∃ e, consumeM k msg ts pos = some (.error e, pos)) ∨
    (∃ t, consumeM k msg ts pos = some (.ok t, pos + 1) ∧ pos + 1 < ts.length ∧
      ∃ t0, ts.get? pos = some t0 ∧ t0.kind = k) := by
  rcases checkM_ok k hpos with ⟨b, hc, hb⟩
  cases b with
  | false =>
    rcases errM_ok msg hpos with ⟨e, he⟩
    refine Or.inl ⟨e, ?_⟩
    unfold consumeM
    rw [pmBind_def, pmBind_ok_eq hc]
    exact he
  | true =>
    rcases hb rfl with ⟨t, ht, hk, hne⟩
    rcases advanceM_ok hg hpos (Or.inr ⟨t, ht, hne⟩) with ⟨tk, p', ha, hle, hlt, h1, hup⟩
    have hp' : p' = pos + 1 := by
      rcases get?_of_lt hpos with ⟨t0, ht0⟩
      rw [ht0] at ht
      cases ht
      unfold advanceM at ha
      rw [ht0] at ha
      have hb0 : (t.kind == TokenKind.eof) = false := by
        cases hq : t.kind == TokenKind.eof
        · rfl
        · exact absurd (by simpa using hq) hne
      simp only [hb0, Bool.false_eq_true, if_false,
        if_neg (by omega : ¬pos + 1 = 0)] at ha
      rcases Option.map_eq_some'.mp ha with ⟨u, _, hu⟩
      cases hu
      rfl
    subst hp'
    refine Or.inr ⟨tk, ?_, hlt, t, ht, hk⟩
    unfold consumeM
    rw [pmBind_def, pmBind_ok_eq hc]
    exact ha

/-- The convenient `POk` packaging of `consumeM_ok`. -/
theorem consumeM_POk {ts : List Token} {pos : Nat} (k : TokenKind) (msg : String)
    (hg : GoodTokens ts) (hpos : pos < ts.length) :
    POk ts pos (consumeM k msg ts pos) := by
  rcases consumeM_ok k msg hg hpos with ⟨e, he⟩ | ⟨t, ht, hlt, _⟩
  · exact ⟨.error e, pos, he, le_refl _, hpos, by intro a ha; cases ha⟩
  · exact ⟨.ok t, pos + 1, ht, by omega, hlt, fun _ _ => by omega⟩

/-- The convenient `POk` packaging of `matchM_ok`. -/
theorem matchM_POk {ts : List Token} {pos : Nat} (k : TokenKind)
    (hg : GoodTokens ts) (hpos : pos < ts.length) (h1 : 1 ≤ pos) :
    POk ts pos (matchM k ts pos) := by
  rcases matchM_ok k hg hpos with ⟨b, p', hm, hle, hlt, _, _⟩
  exact ⟨.ok b, p', hm, hle, hlt, fun _ _ => by omega⟩

theorem lookaheadDotM_ok (ts : List Token) (pos : Nat) :
    ∃ b, lookaheadDotM ts pos = some (.ok b, pos) := ⟨_, rfl⟩

theorem checkM_POk {ts : List Token} {pos : Nat} (k : TokenKind)
    (hpos : pos < ts.length) (h1 : 1 ≤ pos) : POk ts pos (checkM k ts pos) := by
  rcases checkM_ok k hpos with ⟨b, hc, _⟩
  exact ⟨.ok b, pos, hc, le_refl _, hpos, fun _ _ => h1⟩

theorem isAtEndM_POk {ts : List Token} {pos : Nat}
    (hpos : pos < ts.length) (h1 : 1 ≤ pos) : POk ts pos (isAtEndM ts pos) := by
  rcases isAtEndM_ok hpos with ⟨b, hc, _⟩
  exact ⟨.ok b, pos, hc, le_refl _, hpos, fun _ _ => h1⟩

theorem lookaheadDotM_POk {ts : List Token} {pos : Nat}
    (hpos : pos < ts.length) (h1 : 1 ≤ pos) : POk ts pos (lookaheadDotM ts pos) :=
  ⟨.ok _, pos, rfl, le_refl _, hpos, fun _ _ => h1⟩

theorem POk_mono {α : Type} {ts : List Token} {p q : Nat}
    {r : Option (Except ParseError α × Nat)}
    (h : POk ts q r) (hpq : p ≤ q) : POk ts p r := by
  rcases h with ⟨x, p', hr, h1, h2, h3⟩
  exact ⟨x, p', hr, le_trans hpq h1, h2, h3⟩

theorem pTextNode_POk {ts : List Token} {pos : Nat}
    (hg : GoodTokens ts) (hpos : pos < ts.length) :
    POk ts pos (pTextNode ts pos) := by
  simp only [pTextNode, pmBind_def, pmPure_def]
  rcases curLocM_ok hpos with ⟨l0, h0⟩
  rw [pmBind_ok_eq h0]
  refine pmBind_POk (consumeM_POk _ _ hg hpos) ?_
  intro x p hp hplen hp1
  rcases checkM_ok .textContent hplen with ⟨b, hc, hb⟩
  rw [pmBind_ok_eq hc]
  cases b with
  | true =>
    rcases hb rfl with ⟨t, ht, hk, hne⟩
    rcases advanceM_ok hg hplen (Or.inr ⟨t, ht, hne⟩) with ⟨tk, p2, ha, hle2, hlt2, h12, _⟩
    rw [if_pos rfl, pmBind_ok_eq ha,
      pmBind_ok_eq (rfl : pmPure tk.value ts p2 = some (Except.ok tk.value, p2))]
    refine POk_mono ?_ hle2
    refine pmBind_POk (consumeM_POk _ _ hg hlt2) ?_
    intro y q hq hqlen hq1
    refine pmBind_POk (locFromM_POk _ hqlen hq1) ?_
    intro loc r hr hrlen hr1
    exact pmPure_POk _ hrlen hr1
  | false =>
    rw [if_neg (by simp), pmBind_ok_eq (rfl : pmPure "" ts p = some (Except.ok "", p))]
    refine pmBind_POk (consumeM_POk _ _ hg hplen) ?_
    intro y q hq hqlen hq1
    refine pmBind_POk (locFromM_POk _ hqlen hq1) ?_
    intro loc r hr hrlen hr1
    exact pmPure_POk _ hrlen hr1

theorem pDynamicText_POk {ts : List Token} {pos : Nat}
    (hg : GoodTokens ts) (hpos : pos < ts.length) :
    POk ts pos (pDynamicText ts pos) := by
  simp only [pDynamicText, pmBind_def, pmPure_def]
  rcases curLocM_ok hpos with ⟨l0, h0⟩
  rw [pmBind_ok_eq h0]
  refine pmBind_POk (consumeM_POk _ _ hg hpos) ?_
  intro x p hp hplen hp1
  refine pmBind_POk (locFromM_POk _ hplen hp1) ?_
  intro loc r hr hrlen hr1
  exact pmPure_POk _ hrlen hr1

theorem pSlot_POk {ts : List Token} {pos : Nat}
    (hg : GoodTokens ts) (hpos : pos < ts.length) :
    POk ts pos (pSlot ts pos) := by
  simp only [pSlot, pmBind_def, pmPure_def]
  rcases curLocM_ok hpos with ⟨l0, h0⟩
  rw [pmBind_ok_eq h0]
  refine pmBind_POk (consumeM_POk _ _ hg hpos) ?_
  intro x p hp hplen hp1
  refine pmBind_POk (locFromM_POk _ hplen hp1) ?_
  intro loc r hr hrlen hr1
  exact pmPure_POk _ hrlen hr1

theorem pParameter_POk {ts : List Token} {pos : Nat}
    (hg : GoodTokens ts) (hpos : pos < ts.length) :
    POk ts pos (pParameter ts pos) := by
  simp only [pParameter, pmBind_def, pmPure_def]
  rcases curLocM_ok hpos with ⟨l0, h0⟩
  rw [pmBind_ok_eq h0]
  refine pmBind_POk (consumeM_POk _ _ hg hpos) ?_
  intro x p hp hplen hp1
  refine pmBind_POk (consumeM_POk _ _ hg hplen) ?_
  intro y q hq hqlen hq1
  refine pmBind_POk (consumeM_POk _ _ hg hqlen) ?_
  intro z r hr hrlen hr1
  refine pmBind_POk (locFromM_POk _ hrlen hr1) ?_
  intro loc s hs hslen hs1
  exact pmPure_POk _ hslen hs1

theorem pParamsLoop_POk (fuel : Nat) :
    ∀ (ts : List Token), GoodTokens ts → ∀ pos, pos < ts.length → 1 ≤ pos →
      ∀ acc, POk ts pos (pParamsLoop fuel acc ts pos) := by
  induction fuel with
  | zero => intro ts hg pos hpos h1 acc; exact fuelOut_POk hpos
  | succ f ih =>
    intro ts hg pos hpos h1 acc
    simp only [pParamsLoop, pmBind_def, pmPure_def]
    refine pmBind_POk (pParameter_POk hg hpos) ?_
    intro prm p hp hplen hp1
    refine pmBind_POk (matchM_POk _ hg hplen hp1) ?_
    intro m q hq hqlen hq1
    cases m with
    | true =>
      rw [if_pos rfl]
      exact ih ts hg q hqlen hq1 _
    | false =>
      rw [if_neg (by simp)]
      exact pmPure_POk _ hqlen hq1

theorem pParameterList_POk (fuel : Nat) {ts : List Token} {pos : Nat}
    (hg : GoodTokens ts) (hpos : pos < ts.length) :
    POk ts pos (pParameterList fuel ts pos) := by
  simp only [pParameterList, pmBind_def, pmPure_def]
  refine pmBind_POk (consumeM_POk _ _ hg hpos) ?_
  intro x p hp hplen hp1
  refine pmBind_POk (checkM_POk _ hplen hp1) ?_
  intro cr q hq hqlen hq1
  cases cr with
  | true =>
    rw [if_pos rfl, pmBind_ok_eq (rfl : pmPure ([] : List Parameter) ts q =
      some (Except.ok [], q))]
    refine pmBind_POk (consumeM_POk _ _ hg hqlen) ?_
    intro y s hs hslen hs1
    exact pmPure_POk _ hslen hs1
  | false =>
    rw [if_neg (by simp)]
    refine pmBind_POk (pParamsLoop_POk fuel ts hg q hqlen hq1 []) ?_
    intro params r hr hrlen hr1
    refine pmBind_POk (consumeM_POk _ _ hg hrlen) ?_
    intro y s hs hslen hs1
    exact pmPure_POk _ hslen hs1

/-- The per-production safety contract, stated for every function of the
mutual recursive-descent block. -/
structure ParserSafe (fuel : Nat) (ts : List Token) (pos : Nat) : Prop where
  exprS : POk ts pos (pExpression fuel ts pos)
  ternaryS : POk ts pos (pTernary fuel ts pos)
  orS : POk ts pos (pOr fuel ts pos)
  orLoopS : ∀ start left, 1 ≤ pos → POk ts pos (pOrLoop fuel start left ts pos)
  andS : POk ts pos (pAnd fuel ts pos)
  andLoopS : ∀ start left, 1 ≤ pos → POk ts pos (pAndLoop fuel start left ts pos)
  eqS : POk ts pos (pEquality fuel ts pos)
  eqLoopS : ∀ start left, 1 ≤ pos → POk ts pos (pEqLoop fuel start left ts pos)
  cmpS : POk ts pos (pComparison fuel ts pos)
  cmpLoopS : ∀ start left, 1 ≤ pos → POk ts pos (pCmpLoop fuel start left ts pos)
  addS : POk ts pos (pAdditive fuel ts pos)
  addLoopS : ∀ start left, 1 ≤ pos → POk ts pos (pAddLoop fuel start left ts pos)
  postS : POk ts pos (pPostfix fuel ts pos)
  postLoopS : ∀ start e, 1 ≤ pos → POk ts pos (pPostfixLoop fuel start e ts pos)
  argsS : ∀ acc, POk ts pos (pArgsLoop fuel acc ts pos)
  primS : POk ts pos (pPrimary fuel ts pos)
  attrS : POk ts pos (pAttribute fuel ts pos)
  attrsLoopS : ∀ acc, 1 ≤ pos → POk ts pos (pAttrsLoop fuel acc ts pos)
  attrListS : POk ts pos (pAttributeList fuel ts pos)
  pbS : POk ts pos (pParameterBinding fuel ts pos)
  pbLoopS : ∀ acc, 1 ≤ pos → POk ts pos (pBindingsLoop fuel acc ts pos)
  pbListS : POk ts pos (pParameterBindingList fuel ts pos)
  dynExS : POk ts pos (pDynamicExpressionText fuel ts pos)
  ifS : POk ts pos (pIfStatement fuel ts pos)
  eachS : POk ts pos (pEachStatement fuel ts pos)
  nodeS : POk ts pos (pNode fuel ts pos)
  elemS : POk ts pos (pElement fuel ts pos)
  crefS : POk ts pos (pComponentRef fuel ts pos)
  blockLoopS : ∀ acc, 1 ≤ pos → POk ts pos (pBlockLoop fuel acc ts pos)
  blockS : POk ts pos (pBlock fuel ts pos)
  compDeclS : POk ts pos (pComponentDecl fuel ts pos)
  sectDeclS : POk ts pos (pSectionDecl fuel ts pos)
  pageDeclS : POk ts pos (pPageDecl fuel ts pos)
  declS : POk ts pos (pDeclaration fuel ts pos)

/-- Every production of the parser is safe on every array whose last token
is the end-of-input marker: no token access it performs is out of bounds. -/
theorem parser_safe : ∀ (fuel : Nat) (ts : List Token), GoodTokens ts →
    ∀ pos, pos < ts.length → ParserSafe fuel ts pos := by
  intro fuel
  induction fuel with
  | zero =>
    intro ts hg pos hpos
    exact {
      exprS := fuelOut_POk hpos
      ternaryS := fuelOut_POk hpos
      orS := fuelOut_POk hpos
      orLoopS := fun _ _ _ => fuelOut_POk hpos
      andS := fuelOut_POk hpos
      andLoopS := fun _ _ _ => fuelOut_POk hpos
      eqS := fuelOut_POk hpos
      eqLoopS := fun _ _ _ => fuelOut_POk hpos
      cmpS := fuelOut_POk hpos
      cmpLoopS := fun _ _ _ => fuelOut_POk hpos
      addS := fuelOut_POk hpos
      addLoopS := fun _ _ _ => fuelOut_POk hpos
      postS := fuelOut_POk hpos
      postLoopS := fun _ _ _ => fuelOut_POk hpos
      argsS := fun _ => fuelOut_POk hpos
      primS := fuelOut_POk hpos
      attrS := fuelOut_POk hpos
      attrsLoopS := fun _ _ => fuelOut_POk hpos
      attrListS := fuelOut_POk hpos
      pbS := fuelOut_POk hpos
      pbLoopS := fun _ _ => fuelOut_POk hpos
      pbListS := fuelOut_POk hpos
      dynExS := fuelOut_POk hpos
      ifS := fuelOut_POk hpos
      eachS := fuelOut_POk hpos
      nodeS := fuelOut_POk hpos
      elemS := fuelOut_POk hpos
      crefS := fuelOut_POk hpos
      blockLoopS := fun _ _ => fuelOut_POk hpos
      blockS := fuelOut_POk hpos
      compDeclS := fuelOut_POk hpos
      sectDeclS := fuelOut_POk hpos
      pageDeclS := fuelOut_POk hpos
      declS := fuelOut_POk hpos }
  | succ f ih =>
    intro ts hg pos hpos
    exact {
      exprS := (ih ts hg pos hpos).ternaryS
      ternaryS := by
        simp only [pTernary, pmBind_def, pmPure_def]
        rcases curLocM_ok hpos with ⟨l0, h0⟩
        rw [pmBind_ok_eq h0]
        refine pmBind_POk ((ih ts hg pos hpos).orS) ?_
        intro e p hp hplen hp1
        refine pmBind_POk (matchM_POk _ hg hplen hp1) ?_
        intro m q hq hqlen hq1
        cases m with
        | true =>
          rw [if_pos rfl]
          refine pmBind_POk ((ih ts hg q hqlen).exprS) ?_
          intro cons r hr hrlen hr1
          refine pmBind_POk (consumeM_POk _ _ hg hrlen) ?_
          intro y s hs hslen hs1
          refine pmBind_POk ((ih ts hg s hslen).exprS) ?_
          intro alt u hu hulen hu1
          refine pmBind_POk (locFromM_POk _ hulen hu1) ?_
          intro loc v hv hvlen hv1
          exact pmPure_POk _ hvlen hv1
        | false =>
          rw [if_neg (by simp)]
          exact pmPure_POk _ hqlen hq1

      orS := by
        simp only [pOr, pmBind_def, pmPure_def]
        rcases curLocM_ok hpos with ⟨l0, h0⟩
        rw [pmBind_ok_eq h0]
        refine pmBind_POk ((ih ts hg pos hpos).andS) ?_
        intro left p hp hplen hp1
        exact (ih ts hg p hplen).orLoopS l0 left hp1
      orLoopS := by
        intro start left h1
        simp only [pOrLoop, pmBind_def, pmPure_def]
        refine pmBind_POk (matchM_POk _ hg hpos h1) ?_
        intro m0 p0 hp0 hplen0 hone0
        cases m0 with
        | true =>
          rw [if_pos rfl]
          refine pmBind_POk ((ih ts hg p0 hplen0).andS) ?_
          intro right q0 hq0 hqlen0 hqone0
          refine pmBind_POk (locFromM_POk _ hqlen0 hqone0) ?_
          intro loc r0 hr0 hrlen0 hrone0
          exact (ih ts hg r0 hrlen0).orLoopS start _ hrone0
        | false =>
          rw [if_neg (by simp)]
          exact pmPure_POk _ hplen0 hone0
      andS := by
        simp only [pAnd, pmBind_def, pmPure_def]
        rcases curLocM_ok hpos with ⟨l0, h0⟩
        rw [pmBind_ok_eq h0]
        refine pmBind_POk ((ih ts hg pos hpos).eqS) ?_
        intro left p hp hplen hp1
        exact (ih ts hg p hplen).andLoopS l0 left hp1
      andLoopS := by
        intro start left h1
        simp only [pAndLoop, pmBind_def, pmPure_def]
        refine pmBind_POk (matchM_POk _ hg hpos h1) ?_
        intro m0 p0 hp0 hplen0 hone0
        cases m0 with
        | true =>
          rw [if_pos rfl]
          refine pmBind_POk ((ih ts hg p0 hplen0).eqS) ?_
          intro right q0 hq0 hqlen0 hqone0
          refine pmBind_POk (locFromM_POk _ hqlen0 hqone0) ?_
          intro loc r0 hr0 hrlen0 hrone0
          exact (ih ts hg r0 hrlen0).andLoopS start _ hrone0
        | false =>
          rw [if_neg (by simp)]
          exact pmPure_POk _ hplen0 hone0
      eqS := by
        simp only [pEquality, pmBind_def, pmPure_def]
        rcases curLocM_ok hpos with ⟨l0, h0⟩
        rw [pmBind_ok_eq h0]
        refine pmBind_POk ((ih ts hg pos hpos).cmpS) ?_
        intro left p hp hplen hp1
        exact (ih ts hg p hplen).eqLoopS l0 left hp1
      eqLoopS := by
        intro start left h1
        simp only [pEqLoop, pmBind_def, pmPure_def]
        refine pmBind_POk (matchM_POk _ hg hpos h1) ?_
        intro m0 p0 hp0 hplen0 hone0
        cases m0 with
        | true =>
          rw [if_pos rfl]
          refine pmBind_POk ((ih ts hg p0 hplen0).cmpS) ?_
          intro right q0 hq0 hqlen0 hqone0
          refine pmBind_POk (locFromM_POk _ hqlen0 hqone0) ?_
          intro loc r0 hr0 hrlen0 hrone0
          exact (ih ts hg r0 hrlen0).eqLoopS start _ hrone0
        | false =>
          rw [if_neg (by simp)]
          refine pmBind_POk (matchM_POk _ hg hplen0 hone0) ?_
          intro m1 p1 hp1 hplen1 hone1
          cases m1 with
          | true =>
            rw [if_pos rfl]
            refine pmBind_POk ((ih ts hg p1 hplen1).cmpS) ?_
            intro right q1 hq1 hqlen1 hqone1
            refine pmBind_POk (locFromM_POk _ hqlen1 hqone1) ?_
            intro loc r1 hr1 hrlen1 hrone1
            exact (ih ts hg r1 hrlen1).eqLoopS start _ hrone1
          | false =>
            rw [if_neg (by simp)]
            exact pmPure_POk _ hplen1 hone1
      cmpS := by
        simp only [pComparison, pmBind_def, pmPure_def]
        rcases curLocM_ok hpos with ⟨l0, h0⟩
        rw [pmBind_ok_eq h0]
        refine pmBind_POk ((ih ts hg pos hpos).addS) ?_
        intro left p hp hplen hp1
        exact (ih ts hg p hplen).cmpLoopS l0 left hp1
      cmpLoopS := by
        intro start left h1
        simp only [pCmpLoop, pmBind_def, pmPure_def]
        refine pmBind_POk (matchM_POk _ hg hpos h1) ?_
        intro m0 p0 hp0 hplen0 hone0
        cases m0 with
        | true =>
          rw [if_pos rfl]
          refine pmBind_POk ((ih ts hg p0 hplen0).addS) ?_
          intro right q0 hq0 hqlen0 hqone0
          refine pmBind_POk (locFromM_POk _ hqlen0 hqone0) ?_
          intro loc r0 hr0 hrlen0 hrone0
          exact (ih ts hg r0 hrlen0).cmpLoopS start _ hrone0
        | false =>
          rw [if_neg (by simp)]
          refine pmBind_POk (matchM_POk _ hg hplen0 hone0) ?_
          intro m1 p1 hp1 hplen1 hone1
          cases m1 with
          | true =>
            rw [if_pos rfl]
            refine pmBind_POk ((ih ts hg p1 hplen1).addS) ?_
            intro right q1 hq1 hqlen1 hqone1
            refine pmBind_POk (locFromM_POk _ hqlen1 hqone1) ?_
            intro loc r1 hr1 hrlen1 hrone1
            exact (ih ts hg r1 hrlen1).cmpLoopS start _ hrone1
          | false =>
            rw [if_neg (by simp)]
            refine pmBind_POk (matchM_POk _ hg hplen1 hone1) ?_
            intro m2 p2 hp2 hplen2 hone2
            cases m2 with
            | true =>
              rw [if_pos rfl]
              refine pmBind_POk ((ih ts hg p2 hplen2).addS) ?_
              intro right q2 hq2 hqlen2 hqone2
              refine pmBind_POk (locFromM_POk _ hqlen2 hqone2) ?_
              intro loc r2 hr2 hrlen2 hrone2
              exact (ih ts hg r2 hrlen2).cmpLoopS start _ hrone2
            | false =>
              rw [if_neg (by simp)]
              refine pmBind_POk (matchM_POk _ hg hplen2 hone2) ?_
              intro m3 p3 hp3 hplen3 hone3
              cases m3 with
              | true =>
                rw [if_pos rfl]
                refine pmBind_POk ((ih ts hg p3 hplen3).addS) ?_
                intro right q3 hq3 hqlen3 hqone3
                refine pmBind_POk (locFromM_POk _ hqlen3 hqone3) ?_
                intro loc r3 hr3 hrlen3 hrone3
                exact (ih ts hg r3 hrlen3).cmpLoopS start _ hrone3
              | false =>
                rw [if_neg (by simp)]
                exact pmPure_POk _ hplen3 hone3
      addS := by
        simp only [pAdditive, pmBind_def, pmPure_def]
        rcases curLocM_ok hpos with ⟨l0, h0⟩
        rw [pmBind_ok_eq h0]
        refine pmBind_POk ((ih ts hg pos hpos).postS) ?_
        intro left p hp hplen hp1
        exact (ih ts hg p hplen).addLoopS l0 left hp1
      addLoopS := by
        intro start left h1
        simp only [pAddLoop, pmBind_def, pmPure_def]
        refine pmBind_POk (matchM_POk _ hg hpos h1) ?_
        intro m0 p0 hp0 hplen0 hone0
        cases m0 with
        | true =>
          rw [if_pos rfl]
          refine pmBind_POk ((ih ts hg p0 hplen0).postS) ?_
          intro right q0 hq0 hqlen0 hqone0
          refine pmBind_POk (locFromM_POk _ hqlen0 hqone0) ?_
          intro loc r0 hr0 hrlen0 hrone0
          exact (ih ts hg r0 hrlen0).addLoopS start _ hrone0
        | false =>
          rw [if_neg (by simp)]
          refine pmBind_POk (matchM_POk _ hg hplen0 hone0) ?_
          intro m1 p1 hp1 hplen1 hone1
          cases m1 with
          | true =>
            rw [if_pos rfl]
            refine pmBind_POk ((ih ts hg p1 hplen1).postS) ?_
            intro right q1 hq1 hqlen1 hqone1
            refine pmBind_POk (locFromM_POk _ hqlen1 hqone1) ?_
            intro loc r1 hr1 hrlen1 hrone1
            exact (ih ts hg r1 hrlen1).addLoopS start _ hrone1
          | false =>
            rw [if_neg (by simp)]
            exact pmPure_POk _ hplen1 hone1
      postS := by
        simp only [pPostfix, pmBind_def, pmPure_def]
        rcases curLocM_ok hpos with ⟨l0, h0⟩
        rw [pmBind_ok_eq h0]
        refine pmBind_POk ((ih ts hg pos hpos).primS) ?_
        intro e p hp hplen hp1
        exact (ih ts hg p hplen).postLoopS l0 e hp1
      postLoopS := by
        intro start e0 h1
        simp only [pPostfixLoop, pmBind_def, pmPure_def]
        refine pmBind_POk (matchM_POk _ hg hpos h1) ?_
        intro m p hp hplen hp1
        cases m with
        | true =>
          rw [if_pos rfl]
          refine pmBind_POk (consumeM_POk _ _ hg hplen) ?_
          intro prop q hq hqlen hq1
          refine pmBind_POk (locFromM_POk _ hqlen hq1) ?_
          intro loc r hr hrlen hr1
          exact (ih ts hg r hrlen).postLoopS start _ hr1
        | false =>
          rw [if_neg (by simp)]
          rcases checkM_ok .lparen hplen with ⟨b, hc, hb⟩
          rw [pmBind_ok_eq hc]
          cases b with
          | true =>
            rw [if_pos rfl]
            cases e0
            case ident name iloc =>
              dsimp only
              rcases hb rfl with ⟨t, ht, hk, hne⟩
              rcases advanceM_ok hg hplen (Or.inr ⟨t, ht, hne⟩) with
                ⟨tk, p2, ha, hle2, hlt2, h12, _⟩
              rw [pmBind_ok_eq ha]
              refine POk_mono ?_ hle2
              refine pmBind_POk (checkM_POk _ hlt2 h12) ?_
              intro cr q2 hq2 hq2len hq21
              cases cr with
              | true =>
                rw [if_pos rfl, pmBind_ok_eq (rfl : pmPure ([] : List Expression) ts q2 =
                  some (Except.ok [], q2))]
                refine pmBind_POk (consumeM_POk _ _ hg hq2len) ?_
                intro y q3 hq3 hq3len hq31
                refine pmBind_POk (locFromM_POk _ hq3len hq31) ?_
                intro loc r3 hr3 hr3len hr31
                exact (ih ts hg r3 hr3len).postLoopS start _ hr31
              | false =>
                rw [if_neg (by simp)]
                refine pmBind_POk ((ih ts hg q2 hq2len).argsS []) ?_
                intro args q3 hq3 hq3len hq31
                refine pmBind_POk (consumeM_POk _ _ hg hq3len) ?_
                intro y q4 hq4 hq4len hq41
                refine pmBind_POk (locFromM_POk _ hq4len hq41) ?_
                intro loc r4 hr4 hr4len hr41
                exact (ih ts hg r4 hr4len).postLoopS start _ hr41
            all_goals exact pmPure_POk _ hplen hp1
          | false =>
            rw [if_neg (by simp)]
            exact pmPure_POk _ hplen hp1
      argsS := by
        intro acc
        simp only [pArgsLoop, pmBind_def, pmPure_def]
        refine pmBind_POk ((ih ts hg pos hpos).exprS) ?_
        intro e p hp hplen hp1
        refine pmBind_POk (matchM_POk _ hg hplen hp1) ?_
        intro m q hq hqlen hq1
        cases m with
        | true =>
          rw [if_pos rfl]
          exact (ih ts hg q hqlen).argsS _
        | false =>
          rw [if_neg (by simp)]
          exact pmPure_POk _ hqlen hq1

      primS := by
        simp only [pPrimary, pmBind_def, pmPure_def]
        rcases curLocM_ok hpos with ⟨l0, h0⟩
        rw [pmBind_ok_eq h0]
        rcases checkM_ok .strLit hpos with ⟨b1, hc1, hb1⟩
        rw [pmBind_ok_eq hc1]
        cases b1 with
        | true =>
          rw [if_pos rfl]
          rcases hb1 rfl with ⟨t1, ht1, hk1, hne1⟩
          rcases advanceM_ok hg hpos (Or.inr ⟨t1, ht1, hne1⟩) with
            ⟨tk1, p1, ha1, hle1, hlt1, h11, _⟩
          rw [pmBind_ok_eq ha1]
          refine POk_mono ?_ hle1
          refine pmBind_POk (locFromM_POk _ hlt1 h11) ?_
          intro loc r hr hrlen hr1
          exact pmPure_POk _ hrlen hr1
        | false =>
          rw [if_neg (by simp)]
          rcases checkM_ok .numLit hpos with ⟨b2, hc2, hb2⟩
          rw [pmBind_ok_eq hc2]
          cases b2 with
          | true =>
            rw [if_pos rfl]
            rcases hb2 rfl with ⟨t2, ht2, hk2, hne2⟩
            rcases advanceM_ok hg hpos (Or.inr ⟨t2, ht2, hne2⟩) with
              ⟨tk2, p2, ha2, hle2, hlt2, h12, _⟩
            rw [pmBind_ok_eq ha2]
            refine POk_mono ?_ hle2
            refine pmBind_POk (locFromM_POk _ hlt2 h12) ?_
            intro loc r hr hrlen hr1
            exact pmPure_POk _ hrlen hr1
          | false =>
            rw [if_neg (by simp)]
            rcases checkM_ok .trueLit hpos with ⟨b3, hc3, hb3⟩
            rw [pmBind_ok_eq hc3]
            cases b3 with
            | true =>
              rw [if_pos rfl]
              rcases hb3 rfl with ⟨t3, ht3, hk3, hne3⟩
              rcases advanceM_ok hg hpos (Or.inr ⟨t3, ht3, hne3⟩) with
                ⟨tk3, p3, ha3, hle3, hlt3, h13, _⟩
              rw [pmBind_ok_eq ha3]
              refine POk_mono ?_ hle3
              refine pmBind_POk (locFromM_POk _ hlt3 h13) ?_
              intro loc r hr hrlen hr1
              exact pmPure_POk _ hrlen hr1
            | false =>
              rw [if_neg (by simp)]
              rcases checkM_ok .falseLit hpos with ⟨b4, hc4, hb4⟩
              rw [pmBind_ok_eq hc4]
              cases b4 with
              | true =>
                rw [if_pos rfl]
                rcases hb4 rfl with ⟨t4, ht4, hk4, hne4⟩
                rcases advanceM_ok hg hpos (Or.inr ⟨t4, ht4, hne4⟩) with
                  ⟨tk4, p4, ha4, hle4, hlt4, h14, _⟩
                rw [pmBind_ok_eq ha4]
                refine POk_mono ?_ hle4
                refine pmBind_POk (locFromM_POk _ hlt4 h14) ?_
                intro loc r hr hrlen hr1
                exact pmPure_POk _ hrlen hr1
              | false =>
                rw [if_neg (by simp)]
                rcases checkM_ok .contextPath hpos with ⟨b5, hc5, hb5⟩
                rw [pmBind_ok_eq hc5]
                cases b5 with
                | true =>
                  rw [if_pos rfl]
                  rcases hb5 rfl with ⟨t5, ht5, hk5, hne5⟩
                  rcases advanceM_ok hg hpos (Or.inr ⟨t5, ht5, hne5⟩) with
                    ⟨tk5, p5, ha5, hle5, hlt5, h15, _⟩
                  rw [pmBind_ok_eq ha5]
                  refine POk_mono ?_ hle5
                  refine pmBind_POk (locFromM_POk _ hlt5 h15) ?_
                  intro loc r hr hrlen hr1
                  exact pmPure_POk _ hrlen hr1
                | false =>
                  rw [if_neg (by simp)]
                  rcases checkM_ok .identifier hpos with ⟨b6, hc6, hb6⟩
                  rw [pmBind_ok_eq hc6]
                  cases b6 with
                  | true =>
                    rw [if_pos rfl]
                    rcases hb6 rfl with ⟨t6, ht6, hk6, hne6⟩
                    rcases advanceM_ok hg hpos (Or.inr ⟨t6, ht6, hne6⟩) with
                      ⟨tk6, p6, ha6, hle6, hlt6, h16, _⟩
                    rw [pmBind_ok_eq ha6]
                    refine POk_mono ?_ hle6
                    refine pmBind_POk (locFromM_POk _ hlt6 h16) ?_
                    intro loc r hr hrlen hr1
                    exact pmPure_POk _ hrlen hr1
                  | false =>
                    rw [if_neg (by simp)]
                    rcases checkM_ok .lparen hpos with ⟨b7, hc7, hb7⟩
                    rw [pmBind_ok_eq hc7]
                    cases b7 with
                    | true =>
                      rw [if_pos rfl]
                      rcases hb7 rfl with ⟨t7, ht7, hk7, hne7⟩
                      rcases advanceM_ok hg hpos (Or.inr ⟨t7, ht7, hne7⟩) with
                        ⟨tk7, p7, ha7, hle7, hlt7, h17, _⟩
                      rw [pmBind_ok_eq ha7]
                      refine POk_mono ?_ hle7
                      refine pmBind_POk ((ih ts hg p7 hlt7).exprS) ?_
                      intro e q hq hqlen hq1
                      refine pmBind_POk (consumeM_POk _ _ hg hqlen) ?_
                      intro y r hr hrlen hr1
                      exact pmPure_POk _ hrlen hr1
                    | false =>
                      rw [if_neg (by simp)]
                      exact errM_POk _ hpos
      attrS := by
        simp only [pAttribute, pmBind_def, pmPure_def]
        rcases curLocM_ok hpos with ⟨l0, h0⟩
        rw [pmBind_ok_eq h0]
        refine pmBind_POk (consumeM_POk _ _ hg hpos) ?_
        intro n p hp hplen hp1
        refine pmBind_POk (consumeM_POk _ _ hg hplen) ?_
        intro y q hq hqlen hq1
        refine pmBind_POk ((ih ts hg q hqlen).exprS) ?_
        intro v r hr hrlen hr1
        refine pmBind_POk (locFromM_POk _ hrlen hr1) ?_
        intro loc s hs hslen hs1
        exact pmPure_POk _ hslen hs1
      attrsLoopS := by
        intro acc h1
        simp only [pAttrsLoop, pmBind_def, pmPure_def]
        refine pmBind_POk ((ih ts hg pos hpos).attrS) ?_
        intro a p hp hplen hp1
        refine pmBind_POk (matchM_POk _ hg hplen hp1) ?_
        intro m q hq hqlen hq1
        cases m with
        | true =>
          rw [if_pos rfl]
          exact (ih ts hg q hqlen).attrsLoopS _ hq1
        | false =>
          rw [if_neg (by simp)]
          exact pmPure_POk _ hqlen hq1
      attrListS := by
        simp only [pAttributeList, pmBind_def, pmPure_def]
        refine pmBind_POk (consumeM_POk _ _ hg hpos) ?_
        intro x p hp hplen hp1
        refine pmBind_POk (checkM_POk _ hplen hp1) ?_
        intro cr q hq hqlen hq1
        cases cr with
        | true =>
          rw [if_pos rfl, pmBind_ok_eq (rfl : pmPure ([] : List Attr) ts q =
            some (Except.ok [], q))]
          refine pmBind_POk (consumeM_POk _ _ hg hqlen) ?_
          intro y s hs hslen hs1
          exact pmPure_POk _ hslen hs1
        | false =>
          rw [if_neg (by simp)]
          refine pmBind_POk ((ih ts hg q hqlen).attrsLoopS [] hq1) ?_
          intro attrs r hr hrlen hr1
          refine pmBind_POk (consumeM_POk _ _ hg hrlen) ?_
          intro y s hs hslen hs1
          exact pmPure_POk _ hslen hs1
      pbS := by
        simp only [pParameterBinding, pmBind_def, pmPure_def]
        rcases curLocM_ok hpos with ⟨l0, h0⟩
        rw [pmBind_ok_eq h0]
        refine pmBind_POk (consumeM_POk _ _ hg hpos) ?_
        intro n p hp hplen hp1
        refine pmBind_POk (consumeM_POk _ _ hg hplen) ?_
        intro y q hq hqlen hq1
        refine pmBind_POk ((ih ts hg q hqlen).exprS) ?_
        intro v r hr hrlen hr1
        refine pmBind_POk (locFromM_POk _ hrlen hr1) ?_
        intro loc s hs hslen hs1
        exact pmPure_POk _ hslen hs1
      pbLoopS := by
        intro acc h1
        simp only [pBindingsLoop, pmBind_def, pmPure_def]
        refine pmBind_POk ((ih ts hg pos hpos).pbS) ?_
        intro a p hp hplen hp1
        refine pmBind_POk (matchM_POk _ hg hplen hp1) ?_
        intro m q hq hqlen hq1
        cases m with
        | true =>
          rw [if_pos rfl]
          exact (ih ts hg q hqlen).pbLoopS _ hq1
        | false =>
          rw [if_neg (by simp)]
          exact pmPure_POk _ hqlen hq1
      pbListS := by
        simp only [pParameterBindingList, pmBind_def, pmPure_def]
        refine pmBind_POk (consumeM_POk _ _ hg hpos) ?_
        intro x p hp hplen hp1
        refine pmBind_POk (checkM_POk _ hplen hp1) ?_
        intro cr q hq hqlen hq1
        cases cr with
        | true =>
          rw [if_pos rfl, pmBind_ok_eq (rfl : pmPure ([] : List ParameterBinding) ts q =
            some (Except.ok [], q))]
          refine pmBind_POk (consumeM_POk _ _ hg hqlen) ?_
          intro y s hs hslen hs1
          exact pmPure_POk _ hslen hs1
        | false =>
          rw [if_neg (by simp)]
          refine pmBind_POk ((ih ts hg q hqlen).pbLoopS [] hq1) ?_
          intro bindings r hr hrlen hr1
          refine pmBind_POk (consumeM_POk _ _ hg hrlen) ?_
          intro y s hs hslen hs1
          exact pmPure_POk _ hslen hs1
      dynExS := by
        simp only [pDynamicExpressionText, pmBind_def, pmPure_def]
        rcases curLocM_ok hpos with ⟨l0, h0⟩
        rw [pmBind_ok_eq h0]
        refine pmBind_POk ((ih ts hg pos hpos).exprS) ?_
        intro e p hp hplen hp1
        refine pmBind_POk (locFromM_POk _ hplen hp1) ?_
        intro loc r hr hrlen hr1
        exact pmPure_POk _ hrlen hr1
      ifS := by
        simp only [pIfStatement, pmBind_def, pmPure_def]
        rcases curLocM_ok hpos with ⟨l0, h0⟩
        rw [pmBind_ok_eq h0]
        refine pmBind_POk (consumeM_POk _ _ hg hpos) ?_
        intro x p hp hplen hp1
        refine pmBind_POk ((ih ts hg p hplen).exprS) ?_
        intro cond q hq hqlen hq1
        refine pmBind_POk ((ih ts hg q hqlen).blockS) ?_
        intro cons r hr hrlen hr1
        refine pmBind_POk (matchM_POk _ hg hrlen hr1) ?_
        intro m s hs hslen hs1
        cases m with
        | true =>
          rw [if_pos rfl]
          refine pmBind_POk (checkM_POk _ hslen hs1) ?_
          intro c u hu hulen hu1
          cases c with
          | true =>
            rw [if_pos rfl]
            refine pmBind_POk ((ih ts hg u hulen).ifS) ?_
            intro nested v hv hvlen hv1
            rw [pmBind_ok_eq (rfl : pmPure (some (Alternate.elseIf nested)) ts v =
              some (Except.ok (some (Alternate.elseIf nested)), v))]
            refine pmBind_POk (locFromM_POk _ hvlen hv1) ?_
            intro loc w hw hwlen hw1
            exact pmPure_POk _ hwlen hw1
          | false =>
            rw [if_neg (by simp)]
            refine pmBind_POk ((ih ts hg u hulen).blockS) ?_
            intro b2 v hv hvlen hv1
            rw [pmBind_ok_eq (rfl : pmPure (some (Alternate.block b2)) ts v =
              some (Except.ok (some (Alternate.block b2)), v))]
            refine pmBind_POk (locFromM_POk _ hvlen hv1) ?_
            intro loc w hw hwlen hw1
            exact pmPure_POk _ hwlen hw1
        | false =>
          rw [if_neg (by simp), pmBind_ok_eq (rfl : pmPure (none : Option Alternate) ts s =
            some (Except.ok none, s))]
          refine pmBind_POk (locFromM_POk _ hslen hs1) ?_
          intro loc w hw hwlen hw1
          exact pmPure_POk _ hwlen hw1
      eachS := by
        simp only [pEachStatement, pmBind_def, pmPure_def]
        rcases curLocM_ok hpos with ⟨l0, h0⟩
        rw [pmBind_ok_eq h0]
        refine pmBind_POk (consumeM_POk _ _ hg hpos) ?_
        intro x p hp hplen hp1
        refine pmBind_POk ((ih ts hg p hplen).exprS) ?_
        intro iter q hq hqlen hq1
        refine pmBind_POk (consumeM_POk _ _ hg hqlen) ?_
        intro y r hr hrlen hr1
        refine pmBind_POk (consumeM_POk _ _ hg hrlen) ?_
        intro item s hs hslen hs1
        refine pmBind_POk (matchM_POk _ hg hslen hs1) ?_
        intro m u hu hulen hu1
        cases m with
        | true =>
          rw [if_pos rfl]
          refine pmBind_POk (consumeM_POk _ _ hg hulen) ?_
          intro n v hv hvlen hv1
          rw [pmBind_ok_eq (rfl : pmPure (some n.value) ts v =
            some (Except.ok (some n.value), v))]
          refine pmBind_POk ((ih ts hg v hvlen).blockS) ?_
          intro body w hw hwlen hw1
          refine pmBind_POk (locFromM_POk _ hwlen hw1) ?_
          intro loc z hz hzlen hz1
          exact pmPure_POk _ hzlen hz1
        | false =>
          rw [if_neg (by simp), pmBind_ok_eq (rfl : pmPure (none : Option String) ts u =
            some (Except.ok none, u))]
          refine pmBind_POk ((ih ts hg u hulen).blockS) ?_
          intro body w hw hwlen hw1
          refine pmBind_POk (locFromM_POk _ hwlen hw1) ?_
          intro loc z hz hzlen hz1
          exact pmPure_POk _ hzlen hz1

      nodeS := by
        simp only [pNode, pmBind_def, pmPure_def]
        rcases checkM_ok .ifTok hpos with ⟨b1, hc1, _⟩
        rw [pmBind_ok_eq hc1]
        cases b1 with
        | true =>
          rw [if_pos rfl]
          refine pmBind_POk ((ih ts hg pos hpos).ifS) ?_
          intro s p hp hplen hp1
          exact pmPure_POk _ hplen hp1
        | false =>
          rw [if_neg (by simp)]
          rcases checkM_ok .eachTok hpos with ⟨b2, hc2, _⟩
          rw [pmBind_ok_eq hc2]
          cases b2 with
          | true =>
            rw [if_pos rfl]
            exact (ih ts hg pos hpos).eachS
          | false =>
            rw [if_neg (by simp)]
            rcases checkM_ok .slotTok hpos with ⟨b3, hc3, _⟩
            rw [pmBind_ok_eq hc3]
            cases b3 with
            | true =>
              rw [if_pos rfl]
              exact pSlot_POk hg hpos
            | false =>
              rw [if_neg (by simp)]
              rcases checkM_ok .textOpen hpos with ⟨b4, hc4, _⟩
              rw [pmBind_ok_eq hc4]
              cases b4 with
              | true =>
                rw [if_pos rfl]
                exact pTextNode_POk hg hpos
              | false =>
                rw [if_neg (by simp)]
                rcases checkM_ok .contextPath hpos with ⟨b5, hc5, _⟩
                rw [pmBind_ok_eq hc5]
                cases b5 with
                | true =>
                  rw [if_pos rfl]
                  exact pDynamicText_POk hg hpos
                | false =>
                  rw [if_neg (by simp)]
                  rcases checkM_ok .componentName hpos with ⟨b6, hc6, _⟩
                  rw [pmBind_ok_eq hc6]
                  cases b6 with
                  | true =>
                    rw [if_pos rfl]
                    exact (ih ts hg pos hpos).crefS
                  | false =>
                    rw [if_neg (by simp)]
                    rcases checkM_ok .identifier hpos with ⟨b7, hc7, _⟩
                    rw [pmBind_ok_eq hc7]
                    cases b7 with
                    | true =>
                      rw [if_pos rfl]
                      rcases lookaheadDotM_ok ts pos with ⟨bl, hla⟩
                      rw [pmBind_ok_eq hla]
                      cases bl with
                      | true =>
                        rw [if_pos rfl]
                        exact (ih ts hg pos hpos).dynExS
                      | false =>
                        rw [if_neg (by simp)]
                        exact (ih ts hg pos hpos).elemS
                    | false =>
                      rw [if_neg (by simp)]
                      exact errM_POk _ hpos

      elemS := by
        simp only [pElement, pmBind_def, pmPure_def]
        rcases curLocM_ok hpos with ⟨l0, h0⟩
        rw [pmBind_ok_eq h0]
        refine pmBind_POk (consumeM_POk _ _ hg hpos) ?_
        intro tag p hp hplen hp1
        refine pmBind_POk (checkM_POk _ hplen hp1) ?_
        intro cb q hq hqlen hq1
        cases cb with
        | true =>
          rw [if_pos rfl]
          refine pmBind_POk ((ih ts hg q hqlen).attrListS) ?_
          intro attrs q2 hq2 hq2len hq21
          refine pmBind_POk (checkM_POk _ hq2len hq21) ?_
          intro ct q3 hq3 hq3len hq31
          cases ct with
          | true =>
            rw [if_pos rfl]
            refine pmBind_POk (pTextNode_POk hg hq3len) ?_
            intro tnode q4 hq4 hq4len hq41
            rw [pmBind_ok_eq (rfl : pmPure [tnode] ts q4 = some (Except.ok [tnode], q4))]
            refine pmBind_POk (locFromM_POk _ hq4len hq41) ?_
            intro loc w hw hwlen hw1
            exact pmPure_POk _ hwlen hw1
          | false =>
            rw [if_neg (by simp)]
            refine pmBind_POk (checkM_POk _ hq3len hq31) ?_
            intro cl q4 hq4 hq4len hq41
            cases cl with
            | true =>
              rw [if_pos rfl]
              refine pmBind_POk ((ih ts hg q4 hq4len).blockS) ?_
              intro ch q5 hq5 hq5len hq51
              refine pmBind_POk (locFromM_POk _ hq5len hq51) ?_
              intro loc w hw hwlen hw1
              exact pmPure_POk _ hwlen hw1
            | false =>
              rw [if_neg (by simp), pmBind_ok_eq (rfl : pmPure ([] : List Node) ts q4 =
                some (Except.ok [], q4))]
              refine pmBind_POk (locFromM_POk _ hq4len hq41) ?_
              intro loc w hw hwlen hw1
              exact pmPure_POk _ hwlen hw1
        | false =>
          rw [if_neg (by simp), pmBind_ok_eq (rfl : pmPure ([] : List Attr) ts q =
            some (Except.ok [], q))]
          have hq2len := hqlen
          have hq21 := hq1
          refine pmBind_POk (checkM_POk _ hq2len hq21) ?_
          intro ct q3 hq3 hq3len hq31
          cases ct with
          | true =>
            rw [if_pos rfl]
            refine pmBind_POk (pTextNode_POk hg hq3len) ?_
            intro tnode q4 hq4 hq4len hq41
            rw [pmBind_ok_eq (rfl : pmPure [tnode] ts q4 = some (Except.ok [tnode], q4))]
            refine pmBind_POk (locFromM_POk _ hq4len hq41) ?_
            intro loc w hw hwlen hw1
            exact pmPure_POk _ hwlen hw1
          | false =>
            rw [if_neg (by simp)]
            refine pmBind_POk (checkM_POk _ hq3len hq31) ?_
            intro cl q4 hq4 hq4len hq41
            cases cl with
            | true =>
              rw [if_pos rfl]
              refine pmBind_POk ((ih ts hg q4 hq4len).blockS) ?_
              intro ch q5 hq5 hq5len hq51
              refine pmBind_POk (locFromM_POk _ hq5len hq51) ?_
              intro loc w hw hwlen hw1
              exact pmPure_POk _ hwlen hw1
            | false =>
              rw [if_neg (by simp), pmBind_ok_eq (rfl : pmPure ([] : List Node) ts q4 =
                some (Except.ok [], q4))]
              refine pmBind_POk (locFromM_POk _ hq4len hq41) ?_
              intro loc w hw hwlen hw1
              exact pmPure_POk _ hwlen hw1

      crefS := by
        simp only [pComponentRef, pmBind_def, pmPure_def]
        rcases curLocM_ok hpos with ⟨l0, h0⟩
        rw [pmBind_ok_eq h0]
        refine pmBind_POk (consumeM_POk _ _ hg hpos) ?_
        intro name p hp hplen hp1
        refine pmBind_POk (checkM_POk _ hplen hp1) ?_
        intro cp q hq hqlen hq1
        cases cp with
        | true =>
          rw [if_pos rfl]
          refine pmBind_POk ((ih ts hg q hqlen).pbListS) ?_
          intro params q2 hq2 hq2len hq21
          refine pmBind_POk (checkM_POk _ hq2len hq21) ?_
          intro cl q3 hq3 hq3len hq31
          cases cl with
          | true =>
            rw [if_pos rfl]
            refine pmBind_POk ((ih ts hg q3 hq3len).blockS) ?_
            intro ch q4 hq4 hq4len hq41
            refine pmBind_POk (locFromM_POk _ hq4len hq41) ?_
            intro loc w hw hwlen hw1
            exact pmPure_POk _ hwlen hw1
          | false =>
            rw [if_neg (by simp), pmBind_ok_eq (rfl : pmPure ([] : List Node) ts q3 =
              some (Except.ok [], q3))]
            refine pmBind_POk (locFromM_POk _ hq3len hq31) ?_
            intro loc w hw hwlen hw1
            exact pmPure_POk _ hwlen hw1
        | false =>
          rw [if_neg (by simp), pmBind_ok_eq (rfl : pmPure ([] : List ParameterBinding) ts q =
            some (Except.ok [], q))]
          have hq2len := hqlen
          have hq21 := hq1
          refine pmBind_POk (checkM_POk _ hq2len hq21) ?_
          intro cl q3 hq3 hq3len hq31
          cases cl with
          | true =>
            rw [if_pos rfl]
            refine pmBind_POk ((ih ts hg q3 hq3len).blockS) ?_
            intro ch q4 hq4 hq4len hq41
            refine pmBind_POk (locFromM_POk _ hq4len hq41) ?_
            intro loc w hw hwlen hw1
            exact pmPure_POk _ hwlen hw1
          | false =>
            rw [if_neg (by simp), pmBind_ok_eq (rfl : pmPure ([] : List Node) ts q3 =
              some (Except.ok [], q3))]
            refine pmBind_POk (locFromM_POk _ hq3len hq31) ?_
            intro loc w hw hwlen hw1
            exact pmPure_POk _ hwlen hw1

      blockLoopS := by
        intro acc h1
        simp only [pBlockLoop, pmBind_def, pmPure_def]
        refine pmBind_POk (checkM_POk _ hpos h1) ?_
        intro cr p hp hplen hp1
        refine pmBind_POk (isAtEndM_POk hplen hp1) ?_
        intro ae q hq hqlen hq1
        cases hcond : (!cr && !ae) with
        | true =>
          rw [if_pos rfl]
          refine pmBind_POk ((ih ts hg q hqlen).nodeS) ?_
          intro n r hr hrlen hr1
          exact (ih ts hg r hrlen).blockLoopS _ hr1
        | false =>
          rw [if_neg (by simp)]
          exact pmPure_POk _ hqlen hq1
      blockS := by
        simp only [pBlock, pmBind_def, pmPure_def]
        refine pmBind_POk (consumeM_POk _ _ hg hpos) ?_
        intro x p hp hplen hp1
        refine pmBind_POk ((ih ts hg p hplen).blockLoopS [] hp1) ?_
        intro nodes q hq hqlen hq1
        refine pmBind_POk (consumeM_POk _ _ hg hqlen) ?_
        intro y r hr hrlen hr1
        exact pmPure_POk _ hrlen hr1
      compDeclS := by
        simp only [pComponentDecl, pmBind_def, pmPure_def]
        rcases curLocM_ok hpos with ⟨l0, h0⟩
        rw [pmBind_ok_eq h0]
        refine pmBind_POk (consumeM_POk _ _ hg hpos) ?_
        intro x p hp hplen hp1
        refine pmBind_POk (consumeM_POk _ _ hg hplen) ?_
        intro n q hq hqlen hq1
        refine pmBind_POk (checkM_POk _ hqlen hq1) ?_
        intro cp q2 hq2 hq2len hq21
        cases cp with
        | true =>
          rw [if_pos rfl]
          refine pmBind_POk (pParameterList_POk f hg hq2len) ?_
          intro params q3 hq3 hq3len hq31
          refine pmBind_POk (checkM_POk _ hq3len hq31) ?_
          intro cb q4 hq4 hq4len hq41
          cases cb with
          | true =>
            rw [if_pos rfl]
            refine pmBind_POk ((ih ts hg q4 hq4len).attrListS) ?_
            intro attrs q5 hq5 hq5len hq51
            refine pmBind_POk ((ih ts hg q5 hq5len).blockS) ?_
            intro body q6 hq6 hq6len hq61
            refine pmBind_POk (locFromM_POk _ hq6len hq61) ?_
            intro loc w hw hwlen hw1
            exact pmPure_POk _ hwlen hw1
          | false =>
            rw [if_neg (by simp), pmBind_ok_eq (rfl : pmPure ([] : List Attr) ts q4 =
              some (Except.ok [], q4))]
            refine pmBind_POk ((ih ts hg q4 hq4len).blockS) ?_
            intro body q6 hq6 hq6len hq61
            refine pmBind_POk (locFromM_POk _ hq6len hq61) ?_
            intro loc w hw hwlen hw1
            exact pmPure_POk _ hwlen hw1
        | false =>
          rw [if_neg (by simp), pmBind_ok_eq (rfl : pmPure ([] : List Parameter) ts q2 =
            some (Except.ok [], q2))]
          have hq3len := hq2len
          have hq31 := hq21
          refine pmBind_POk (checkM_POk _ hq3len hq31) ?_
          intro cb q4 hq4 hq4len hq41
          cases cb with
          | true =>
            rw [if_pos rfl]
            refine pmBind_POk ((ih ts hg q4 hq4len).attrListS) ?_
            intro attrs q5 hq5 hq5len hq51
            refine pmBind_POk ((ih ts hg q5 hq5len).blockS) ?_
            intro body q6 hq6 hq6len hq61
            refine pmBind_POk (locFromM_POk _ hq6len hq61) ?_
            intro loc w hw hwlen hw1
            exact pmPure_POk _ hwlen hw1
          | false =>
            rw [if_neg (by simp), pmBind_ok_eq (rfl : pmPure ([] : List Attr) ts q4 =
              some (Except.ok [], q4))]
            refine pmBind_POk ((ih ts hg q4 hq4len).blockS) ?_
            intro body q6 hq6 hq6len hq61
            refine pmBind_POk (locFromM_POk _ hq6len hq61) ?_
            intro loc w hw hwlen hw1
            exact pmPure_POk _ hwlen hw1
      sectDeclS := by
        simp only [pSectionDecl, pmBind_def, pmPure_def]
        rcases curLocM_ok hpos with ⟨l0, h0⟩
        rw [pmBind_ok_eq h0]
        refine pmBind_POk (consumeM_POk _ _ hg hpos) ?_
        intro x p hp hplen hp1
        refine pmBind_POk (consumeM_POk _ _ hg hplen) ?_
        intro n q hq hqlen hq1
        refine pmBind_POk ((ih ts hg q hqlen).blockS) ?_
        intro body r hr hrlen hr1
        refine pmBind_POk (locFromM_POk _ hrlen hr1) ?_
        intro loc w hw hwlen hw1
        exact pmPure_POk _ hwlen hw1
      pageDeclS := by
        simp only [pPageDecl, pmBind_def, pmPure_def]
        rcases curLocM_ok hpos with ⟨l0, h0⟩
        rw [pmBind_ok_eq h0]
        refine pmBind_POk (consumeM_POk _ _ hg hpos) ?_
        intro x p hp hplen hp1
        refine pmBind_POk (consumeM_POk _ _ hg hplen) ?_
        intro n q hq hqlen hq1
        refine pmBind_POk (consumeM_POk _ _ hg hqlen) ?_
        intro route r hr hrlen hr1
        refine pmBind_POk ((ih ts hg r hrlen).blockS) ?_
        intro body s hs hslen hs1
        refine pmBind_POk (locFromM_POk _ hslen hs1) ?_
        intro loc w hw hwlen hw1
        exact pmPure_POk _ hwlen hw1

      declS := by
        simp only [pDeclaration, pmBind_def, pmPure_def]
        rcases checkM_ok .component hpos with ⟨b1, hc1, _⟩
        rw [pmBind_ok_eq hc1]
        cases b1 with
        | true =>
          rw [if_pos rfl]
          refine pmBind_POk ((ih ts hg pos hpos).compDeclS) ?_
          intro d p hp hplen hp1
          exact pmPure_POk _ hplen hp1
        | false =>
          rw [if_neg (by simp)]
          rcases checkM_ok .sectionTok hpos with ⟨b2, hc2, _⟩
          rw [pmBind_ok_eq hc2]
          cases b2 with
          | true =>
            rw [if_pos rfl]
            refine pmBind_POk ((ih ts hg pos hpos).sectDeclS) ?_
            intro d p hp hplen hp1
            exact pmPure_POk _ hplen hp1
          | false =>
            rw [if_neg (by simp)]
            rcases checkM_ok .page hpos with ⟨b3, hc3, _⟩
            rw [pmBind_ok_eq hc3]
            cases b3 with
            | true =>
              rw [if_pos rfl]
              refine pmBind_POk ((ih ts hg pos hpos).pageDeclS) ?_
              intro d p hp hplen hp1
              exact pmPure_POk _ hplen hp1
            | false =>
              rw [if_neg (by simp)]
              exact errM_POk _ hpos
       }

theorem pSyncLoop_POk (fuel : Nat) :
    ∀ (ts : List Token), GoodTokens ts → ∀ pos, pos < ts.length → 1 ≤ pos →
      POk ts pos (pSyncLoop fuel ts pos) := by
  induction fuel with
  | zero => intro ts hg pos hpos h1; exact fuelOut_POk hpos
  | succ f ih =>
    intro ts hg pos hpos h1
    simp only [pSyncLoop, pmBind_def, pmPure_def]
    rcases isAtEndM_ok hpos with ⟨ae, hae, haef⟩
    rw [pmBind_ok_eq hae]
    cases ae with
    | true =>
      rw [if_pos rfl]
      exact pmPure_POk _ hpos h1
    | false =>
      rw [if_neg (by simp)]
      rcases previousM_ok hpos h1 with ⟨pv, hpv⟩
      rw [pmBind_ok_eq hpv]
      cases hrb : (pv.kind == TokenKind.rbrace) with
      | true =>
        rw [if_pos rfl]
        exact pmPure_POk _ hpos h1
      | false =>
        rw [if_neg (by simp)]
        rcases peekM_ok hpos with ⟨t, hpk, hget⟩
        rw [pmBind_ok_eq hpk]
        cases hkw : (t.kind == TokenKind.component || t.kind == TokenKind.sectionTok ||
            t.kind == TokenKind.page) with
        | true =>
          rw [if_pos rfl]
          exact pmPure_POk _ hpos h1
        | false =>
          rw [if_neg (by simp)]
          rcases advanceM_ok hg hpos (Or.inr (haef rfl)) with
            ⟨tk, p2, ha, hle2, hlt2, h12, _⟩
          rw [pmBind_ok_eq ha]
          exact POk_mono (ih ts hg p2 hlt2 h12) hle2

theorem pSynchronize_POk (fuel : Nat) {ts : List Token} {pos : Nat}
    (hg : GoodTokens ts) (hpos : pos < ts.length)
    (hor : 1 ≤ pos ∨ (∃ t, ts.get? pos = some t ∧ ¬t.kind = .eof)) :
    POk ts pos (pSynchronize fuel ts pos) := by
  simp only [pSynchronize, pmBind_def, pmPure_def]
  rcases advanceM_ok hg hpos hor with ⟨tk, p2, ha, hle2, hlt2, h12, _⟩
  rw [pmBind_ok_eq ha]
  exact POk_mono (pSyncLoop_POk fuel ts hg p2 hlt2 h12) hle2

/-- The declaration loop of `parse` never accesses the token array out of
bounds, and finishes at an in-bounds index. -/
theorem pParseLoop_ok (fuel : Nat) :
    ∀ (ts : List Token), GoodTokens ts →
      ∀ (body : List Declaration) (errs : List ParseError) (pos : Nat), pos < ts.length →
        ∃ r p', pParseLoop fuel body errs ts pos = some (r, p') ∧ p' < ts.length := by
  induction fuel with
  | zero => intro ts hg body errs pos hpos; exact ⟨_, pos, rfl, hpos⟩
  | succ f ih =>
    intro ts hg body errs pos hpos
    rcases get?_of_lt hpos with ⟨t, ht⟩
    simp only [pParseLoop]
    rw [ht]
    dsimp only
    cases he : (t.kind == TokenKind.eof) with
    | true =>
      rw [if_pos rfl]
      exact ⟨_, pos, rfl, hpos⟩
    | false =>
      rw [if_neg (by simp)]
      rcases (parser_safe f ts hg pos hpos).declS with ⟨x, p', hd, hle, hlt, _⟩
      rw [hd]
      cases x with
      | ok d => exact ih ts hg (body ++ [d]) errs p' hlt
      | error e =>
        have hor : 1 ≤ p' ∨ (∃ u, ts.get? p' = some u ∧ ¬u.kind = .eof) := by
          by_cases hpp : p' = pos
          · subst hpp
            refine Or.inr ⟨t, ht, ?_⟩
            intro hh
            simp [hh] at he
          · exact Or.inl (by omega)
        rcases pSynchronize_POk f hg hlt hor with ⟨u, p2, hs, hle2, hlt2, _⟩
        dsimp only
        rw [hs]
        exact ih ts hg body (errs ++ [e]) p2 hlt2

theorem goodTokens_length_pos {ts : List Token} (hg : GoodTokens ts) :
    0 < ts.length := by
  rcases hg with ⟨t, hlast, _⟩
  cases ts with
  | nil => simp at hlast
  | cons a l => simp

/-- `parse` never accesses the token array out of bounds when the last
token is the end-of-input marker. -/
theorem pParse_ok (fuel : Nat) (ts : List Token) (hg : GoodTokens ts) :
    pParse fuel ts ≠ none := by
  have h0 := goodTokens_length_pos hg
  rcases get?_of_lt h0 with ⟨t0, ht0⟩
  simp only [pParse]
  rw [ht0]
  rcases pParseLoop_ok fuel ts hg [] [] 0 h0 with ⟨⟨bdy, errs⟩, p', hl, hlt⟩
  rw [hl]
  dsimp only
  cases hie : errs.isEmpty with
  | true =>
    rw [if_pos rfl]
    rcases get?_of_lt hlt with ⟨te, hte⟩
    rw [hte]
    simp
  | false =>
    rw [if_neg (by simp)]
    simp

/-- C9: `tokenize` always appends the zero-width end-of-input token
(`eofToken p l s` has `start = stop = p`, here the character length of the
source) as the last element of every `Ok` token list, and on every token
list ending in the end-of-input marker the parser completes without a
single out-of-bounds token-array access (`pParse ... = none` being exactly
an out-of-bounds access in the model), for every fuel. -/
theorem c9_eof_terminator_and_bounds :
    (∀ (source : String) (toks : List Token), tokenize source = .ok toks →
        ∃ line2 ls2, toks.getLast? = some (eofToken source.toList.length line2 ls2)) ∧
    (∀ (ts : List Token) (fuel : Nat), GoodTokens ts → pParse fuel ts ≠ none) := by
  constructor
  · intro source toks hok
    rcases hsl : scanLoop source.toList 0 1 0 with ⟨tks, errs⟩
    have ht : tokenize source = if errs.isEmpty then .ok tks else .error errs := by
      rw [tokenize, hsl]
    rw [ht] at hok
    cases hie : errs.isEmpty with
    | false => rw [if_neg (by simp [hie])] at hok; cases hok
    | true =>
      rw [if_pos (by simp [hie])] at hok
      have htoks : tks = toks := by
        cases hok
        rfl
      rcases scanGo_last_eof (source.toList.length + 1) source.toList 0 1 0
          (by omega) with ⟨l2, s2, hlast⟩
      refine ⟨l2, s2, ?_⟩
      have hfst : (scanLoop source.toList 0 1 0).1 = toks := by rw [hsl, htoks]
      rw [scanLoop] at hfst
      rw [hfst] at hlast
      rw [Nat.zero_add] at hlast
      exact hlast
  · intro ts fuel hg
    exact pParse_ok fuel ts hg

/-- C9 witness: the empty source produces exactly the end-of-input token,
and the parser completes in bounds on that token list. -/
theorem c9_eof_terminator_and_bounds_witness :
    tokenize "" = .ok [eofToken 0 1 0] ∧
    (∃ line2 ls2, [eofToken 0 1 0].getLast? =
        some (eofToken ("".toList.length) line2 ls2)) ∧
    GoodTokens [eofToken 0 1 0] ∧
    pParse 2 [eofToken 0 1 0] ≠ none := by
  have hg : GoodTokens [eofToken 0 1 0] := ⟨eofToken 0 1 0, rfl, rfl⟩
  exact ⟨by decide, c9_eof_terminator_and_bounds.1 "" [eofToken 0 1 0] (by decide),
    hg, c9_eof_terminator_and_bounds.2 [eofToken 0 1 0] 2 hg⟩

/-! ## C10: the parsed text node trims its content -/

theorem pmBind_none_eq {m : PM α} {f : α → PM β} {ts : List Token} {pos : Nat}
    (hm : m ts pos = none) : pmBind m f ts pos = none := by
  unfold pmBind
  rw [hm]

theorem curLocM_eq {ts : List Token} {pos : Nat} {t0 : Token}
    (hg0 : ts.get? pos = some t0) :
    curLocM ts pos = some (.ok t0.location, pos) := by
  unfold curLocM
  rw [hg0]
  rfl

theorem checkM_eq {ts : List Token} {pos : Nat} {t0 : Token} (k : TokenKind)
    (hg0 : ts.get? pos = some t0) :
    checkM k ts pos =
      some (.ok (if t0.kind == TokenKind.eof then false else t0.kind == k), pos) := by
  unfold checkM
  rw [hg0]
  rfl

theorem advanceM_eq_of_ne_eof {ts : List Token} {pos : Nat} {t0 : Token}
    (hg0 : ts.get? pos = some t0) (hne : (t0.kind == TokenKind.eof) = false) :
    advanceM ts pos = some (.ok t0, pos + 1) := by
  unfold advanceM
  rw [hg0]
  simp only [hne, Bool.false_eq_true, if_false, if_neg (by omega : ¬pos + 1 = 0),
    Nat.add_sub_cancel, hg0]
  rfl

theorem consumeM_eq_err {ts : List Token} {pos : Nat} {t0 : Token} (k : TokenKind)
    (msg : String) (hg0 : ts.get? pos = some t0)
    (hnk : (if t0.kind == TokenKind.eof then false else t0.kind == k) = false) :
    consumeM k msg ts pos =
      some (.error ⟨msg ++ " (got " ++ t0.kind.name ++ ")", t0.location⟩, pos) := by
  unfold consumeM
  rw [pmBind_def, pmBind_ok_eq (checkM_eq k hg0), hnk]
  rw [if_neg (by simp)]
  unfold errM
  rw [hg0]
  rfl

theorem consumeM_eq_ok {ts : List Token} {pos : Nat} {t0 : Token} (k : TokenKind)
    (msg : String) (hg0 : ts.get? pos = some t0)
    (hk : (if t0.kind == TokenKind.eof then false else t0.kind == k) = true) :
    consumeM k msg ts pos = some (.ok t0, pos + 1) := by
  have hne : (t0.kind == TokenKind.eof) = false := by
    cases hq : t0.kind == TokenKind.eof
    · rfl
    · simp [hq] at hk
  unfold consumeM
  rw [pmBind_def, pmBind_ok_eq (checkM_eq k hg0), hk]
  rw [if_pos rfl]
  exact advanceM_eq_of_ne_eof hg0 hne

theorem locFromM_eq {ts : List Token} {pos : Nat} {tp : Token} (start : Location)
    (h1 : ¬pos = 0) (hgp : ts.get? (pos - 1) = some tp) :
    locFromM start ts pos =
      some (.ok ⟨start.line, start.column, start.start, tp.location.stop⟩, pos) := by
  unfold locFromM
  rw [pmBind_def]
  rw [pmBind_ok_eq (show previousM ts pos = some (.ok tp, pos) from by
    unfold previousM; rw [if_neg h1, hgp]; rfl)]
  rfl

/-- C10: every successfully parsed explicit text block is a `Node.text`
with `isDynamic = false` whose content is the `TextContent` token's value
with leading and trailing whitespace removed — the empty string when the
token after `TextOpen` is not a `TextContent` — so the AST content differs
from the verbatim token value exactly when that value has surrounding
whitespace. -/
theorem c10_text_node_trims_content (ts : List Token) (pos : Nat) (n : Node) (p2 : Nat)
    (h : pTextNode ts pos = some (Except.ok n, p2)) :
    ∃ v loc, n = Node.text (trimString v) false loc ∧
      ((∃ t, ts.get? (pos + 1) = some t ∧ t.kind = .textContent ∧ v = t.value) ∨
       (v = "" ∧ ¬∃ t, ts.get? (pos + 1) = some t ∧ t.kind = .textContent)) := by
  simp only [pTextNode, pmBind_def, pmPure_def] at h
  rcases hg0 : ts.get? pos with _ | t0
  · rw [pmBind_none_eq (show curLocM ts pos = none from by unfold curLocM; rw [hg0]; rfl)]
      at h
    cases h
  rw [pmBind_ok_eq (curLocM_eq hg0)] at h
  cases h0b : (if t0.kind == TokenKind.eof then false else t0.kind == TokenKind.textOpen) with
  | false =>
    rw [pmBind_err_eq (consumeM_eq_err _ _ hg0 h0b)] at h
    cases h
  | true =>
    rw [pmBind_ok_eq (consumeM_eq_ok _ _ hg0 h0b)] at h
    rcases hg1 : ts.get? (pos + 1) with _ | t1
    · rw [pmBind_none_eq (show checkM TokenKind.textContent ts (pos + 1) = none from by
        unfold checkM; rw [hg1]; rfl)] at h
      cases h
    rw [pmBind_ok_eq (checkM_eq _ hg1)] at h
    cases h1b : (if t1.kind == TokenKind.eof then false
        else t1.kind == TokenKind.textContent) with
    | true =>
      rw [h1b, if_pos rfl] at h
      have hne1 : (t1.kind == TokenKind.eof) = false := by
        cases hq : t1.kind == TokenKind.eof
        · rfl
        · simp [hq] at h1b
      rw [pmBind_ok_eq (advanceM_eq_of_ne_eof hg1 hne1)] at h
      rw [pmBind_ok_eq (rfl : pmPure t1.value ts (pos + 2) =
        some (Except.ok t1.value, pos + 2))] at h
      rcases hg2 : ts.get? (pos + 2) with _ | t2
      · rw [pmBind_none_eq (show consumeM TokenKind.textClose "Expected '\x7d\x7d'" ts
            (pos + 2) = none from by
          unfold consumeM
          rw [pmBind_def, pmBind_none_eq (show checkM TokenKind.textClose ts (pos + 2) =
            none from by unfold checkM; rw [hg2]; rfl)])] at h
        cases h
      cases h2b : (if t2.kind == TokenKind.eof then false
          else t2.kind == TokenKind.textClose) with
      | false =>
        rw [pmBind_err_eq (consumeM_eq_err _ _ hg2 h2b)] at h
        cases h
      | true =>
        rw [pmBind_ok_eq (consumeM_eq_ok _ _ hg2 h2b)] at h
        rw [pmBind_ok_eq (locFromM_eq t0.location (by omega)
          (show ts.get? (pos + 3 - 1) = some t2 from hg2))] at h
        have hn : n = Node.text (trimString t1.value) false
            ⟨t0.location.line, t0.location.column, t0.location.start, t2.location.stop⟩ := by
          cases h
          rfl
        refine ⟨t1.value, _, hn, Or.inl ⟨t1, rfl, ?_, rfl⟩⟩
        have : (t1.kind == TokenKind.textContent) = true := by
          cases hq : t1.kind == TokenKind.eof
          · simpa [hq] using h1b
          · simp [hq] at h1b
        simpa using this
    | false =>
      rw [h1b, if_neg (by simp)] at h
      rw [pmBind_ok_eq (rfl : pmPure "" ts (pos + 1) =
        some (Except.ok "", pos + 1))] at h
      cases h2b : (if t1.kind == TokenKind.eof then false
          else t1.kind == TokenKind.textClose) with
      | false =>
        rw [pmBind_err_eq (consumeM_eq_err _ _ hg1 h2b)] at h
        cases h
      | true =>
        rw [pmBind_ok_eq (consumeM_eq_ok _ _ hg1 h2b)] at h
        rw [pmBind_ok_eq (locFromM_eq t0.location (by omega)
          (show ts.get? (pos + 2 - 1) = some t1 from hg1))] at h
        have hn : n = Node.text (trimString "") false
            ⟨t0.location.line, t0.location.column, t0.location.start, t1.location.stop⟩ := by
          cases h
          rfl
        refine ⟨"", _, hn, Or.inr ⟨rfl, ?_⟩⟩
        rintro ⟨u, hu, hku⟩
        cases hu
        cases hq : t1.kind == TokenKind.eof
        · rw [hq] at h1b
          simp only [Bool.false_eq_true, if_false] at h1b
          rw [hku] at h1b
          simp at h1b
        · have h3 : t1.kind = TokenKind.eof := by simpa using hq
          rw [hku] at h3
          cases h3

/-- C10 witness: a text block whose content token carries surrounding
whitespace. -/
theorem c10_text_node_trims_content_witness :
    pTextNode [⟨.textOpen, "\x7b\x7b", ⟨1, 1, 0, 2⟩⟩,
        ⟨.textContent, " Send ", ⟨1, 3, 2, 8⟩⟩,
        ⟨.textClose, "\x7d\x7d", ⟨1, 9, 8, 10⟩⟩, eofToken 10 1 0] 0 =
      some (Except.ok (Node.text "Send" false ⟨1, 1, 0, 10⟩), 3) ∧
    ∃ v loc, Node.text "Send" false (⟨1, 1, 0, 10⟩ : Location) =
        Node.text (trimString v) false loc ∧
      ((∃ t, [⟨.textOpen, "\x7b\x7b", ⟨1, 1, 0, 2⟩⟩,
          ⟨.textContent, " Send ", ⟨1, 3, 2, 8⟩⟩,
          ⟨.textClose, "\x7d\x7d", ⟨1, 9, 8, 10⟩⟩,
          eofToken 10 1 0].get? (0 + 1) = some t ∧
          t.kind = .textContent ∧ v = t.value) ∨
       (v = "" ∧ ¬∃ t, [⟨.textOpen, "\x7b\x7b", ⟨1, 1, 0, 2⟩⟩,
          ⟨.textContent, " Send ", ⟨1, 3, 2, 8⟩⟩,
          ⟨.textClose, "\x7d\x7d", ⟨1, 9, 8, 10⟩⟩,
          eofToken 10 1 0].get? (0 + 1) = some t ∧ t.kind = .textContent)) :=
  ⟨rfl, c10_text_node_trims_content _ 0 _ 3 rfl⟩

/-! ## C1: the compile pipeline (`lib.rs`) -/

/-- A generated output file (`GeneratedFile`). -/
structure GeneratedFile where
  path : String
  content : String
deriving Repr, DecidableEq

/-- Compilation result (`CompileResult`). -/
structure CompileResult where
  files : List GeneratedFile
  diagnostics : List Diagnostic
  success : Bool
deriving Repr, DecidableEq

/-- The `E001` diagnostic built from a lexer error. -/
def lexDiag (e : LexerError) : Diagnostic := ⟨.error, e.message, e.location, some "E001"⟩

/-- The `E002` diagnostic built from a parse error. -/
def parseDiag (e : ParseError) : Diagnostic := ⟨.error, e.message, e.location, some "E002"⟩

/-- `compile_with_options` (`lib.rs`).  The parse step and the code
generator are parameters: the parser model needs an explicit fuel, and the
codegen submodules (`codegen/templates.rs` and friends) are missing from
the sources, so the claim about this control flow quantifies over both. -/
def compileWithOptions (parseFn : List Token → Except (List ParseError) Program)
    (gen : Program → SymbolTable → List GeneratedFile) (source : String) : CompileResult :=
  match tokenize source with
  | .error errors => ⟨[], errors.map lexDiag, false⟩
  | .ok tokens =>
    match parseFn tokens with
    | .error errors => ⟨[], errors.map parseDiag, false⟩
    | .ok ast =>
      let (symbols, analysisDiagnostics) := analyze ast
      if analysisDiagnostics.any (fun d => d.severity == Severity.error) then
        ⟨[], analysisDiagnostics, false⟩
      else ⟨gen ast symbols, analysisDiagnostics, true⟩

theorem tokenize_error_ne_nil {source : String} {es : List LexerError}
    (h : tokenize source = .error es) : es ≠ [] := by
  rcases hsl : scanLoop source.toList 0 1 0 with ⟨toks, errs⟩
  have ht : tokenize source = if errs.isEmpty then .ok toks else .error errs := by
    rw [tokenize, hsl]
  rw [ht] at h
  cases errs with
  | nil => simp at h
  | cons e es2 =>
    simp at h
    rw [← h]
    simp

/-- C1: `success` is true exactly when no stage produced an error-severity
diagnostic; `files` is empty whenever `success` is false; scanner failure
short-circuits with exactly the `E001` diagnostics, parser failure with
exactly the `E002` diagnostics (before the analyzer runs); and on a parsed
AST the analyzer's full diagnostics are reported — the analyzer always runs
to completion — while code generation output is produced exactly on
success.  The parser is assumed never to report an empty error list, as
`Parser::parse` returns `Err` only when its error list is non-empty. -/
theorem c1_compile_success_and_shortcircuit
    (parseFn : List Token → Except (List ParseError) Program)
    (gen : Program → SymbolTable → List GeneratedFile) (source : String)
    (hpf : ∀ ts es, parseFn ts = .error es → es ≠ []) :
    ((compileWithOptions parseFn gen source).success = true ↔
      ∀ d ∈ (compileWithOptions parseFn gen source).diagnostics, ¬d.severity = .error) ∧
    ((compileWithOptions parseFn gen source).success = false →
      (compileWithOptions parseFn gen source).files = []) ∧
    (∀ es, tokenize source = .error es →
      compileWithOptions parseFn gen source = ⟨[], es.map lexDiag, false⟩) ∧
    (∀ ts es, tokenize source = .ok ts → parseFn ts = .error es →
      compileWithOptions parseFn gen source = ⟨[], es.map parseDiag, false⟩) ∧
    (∀ ts ast, tokenize source = .ok ts → parseFn ts = .ok ast →
      (compileWithOptions parseFn gen source).diagnostics = (analyze ast).2 ∧
      ((compileWithOptions parseFn gen source).success = true →
        (compileWithOptions parseFn gen source).files = gen ast (analyze ast).1)) := by
  rcases htk : tokenize source with es | ts
  · have hc : compileWithOptions parseFn gen source = ⟨[], es.map lexDiag, false⟩ := by
      rw [compileWithOptions, htk]
    have hne := tokenize_error_ne_nil htk
    refine ⟨?_, ?_, ?_, ?_, ?_⟩
    · rw [hc]
      simp only [Bool.false_eq_true, false_iff]
      intro hall
      cases es with
      | nil => exact hne rfl
      | cons e es2 => exact hall (lexDiag e) (by simp) rfl
    · intro _
      rw [hc]
    · intro es2 h2
      cases h2
      exact hc
    · intro ts2 es2 h2
      cases h2
    · intro ts2 ast h2
      cases h2
  · rcases hpr : parseFn ts with es | ast
    · have hc : compileWithOptions parseFn gen source = ⟨[], es.map parseDiag, false⟩ := by
        rw [compileWithOptions, htk]
        dsimp only
        rw [hpr]
      have hne := hpf ts es hpr
      refine ⟨?_, ?_, ?_, ?_, ?_⟩
      · rw [hc]
        simp only [Bool.false_eq_true, false_iff]
        intro hall
        cases es with
        | nil => exact hne rfl
        | cons e es2 => exact hall (parseDiag e) (by simp) rfl
      · intro _
        rw [hc]
      · intro es2 h2
        cases h2
      · intro ts2 es2 h2 h3
        cases h2
        rw [hpr] at h3
        cases h3
        exact hc
      · intro ts2 ast2 h2 h3
        cases h2
        rw [hpr] at h3
        cases h3
    · rcases han : analyze ast with ⟨syms, diags⟩
      have hc : compileWithOptions parseFn gen source =
          (if diags.any (fun d => d.severity == Severity.error) then
            ⟨[], diags, false⟩ else ⟨gen ast syms, diags, true⟩) := by
        rw [compileWithOptions, htk]
        dsimp only
        rw [hpr]
        dsimp only
        rw [han]
      cases hany : diags.any (fun d => d.severity == Severity.error) with
      | true =>
        rw [hany, if_pos rfl] at hc
        rcases List.any_eq_true.mp hany with ⟨d, hd, hds⟩
        refine ⟨?_, ?_, ?_, ?_, ?_⟩
        · rw [hc]
          simp only [Bool.false_eq_true, false_iff]
          intro hall
          exact hall d hd (by simpa using hds)
        · intro _
          rw [hc]
        · intro es2 h2
          cases h2
        · intro ts2 es2 h2 h3
          cases h2
          rw [hpr] at h3
          cases h3
        · intro ts2 ast2 h2 h3
          cases h2
          rw [hpr] at h3
          cases h3
          rw [hc, han]
          exact ⟨rfl, by intro hf; cases hf⟩
      | false =>
        rw [hany, if_neg (by simp)] at hc
        have hall : ∀ d ∈ diags, ¬d.severity = .error := by
          intro d hd hds
          have hfd := List.any_eq_false.mp hany d hd
          simp [hds] at hfd
        refine ⟨?_, ?_, ?_, ?_, ?_⟩
        · rw [hc]
          simpa using hall
        · intro hf
          rw [hc] at hf
          cases hf
        · intro es2 h2
          cases h2
        · intro ts2 es2 h2 h3
          cases h2
          rw [hpr] at h3
          cases h3
        · intro ts2 ast2 h2 h3
          cases h2
          rw [hpr] at h3
          cases h3
          rw [hc, han]
          exact ⟨rfl, fun _ => rfl⟩

/-- C1 witness: a parse step that always succeeds with the empty program,
an empty code generator and the empty source. -/
theorem c1_compile_success_and_shortcircuit_witness :
    (∀ ts es, (fun _ : List Token =>
        (Except.ok ({ body := [], loc := ⟨1, 1, 0, 0⟩ } : Program) :
          Except (List ParseError) Program)) ts = .error es → es ≠ []) ∧
    ((compileWithOptions (fun _ => .ok ⟨[], ⟨1, 1, 0, 0⟩⟩) (fun _ _ => []) "").success = true ↔
      ∀ d ∈ (compileWithOptions (fun _ => .ok ⟨[], ⟨1, 1, 0, 0⟩⟩)
          (fun _ _ => []) "").diagnostics, ¬d.severity = .error) :=
  ⟨(fun _ _ h => nomatch h),
    (c1_compile_success_and_shortcircuit (fun _ => .ok ⟨[], ⟨1, 1, 0, 0⟩⟩)
      (fun _ _ => []) "" (fun _ _ h => nomatch h)).1⟩

end Htms
